import Mathlib

/-! Verification of `src/h5read_lab.c` (HDF5Array).

A shallow embedding of the multi-region reader `h5mread` and of its helpers:
the validation of the `starts`/`counts` description against the extents of a
dataset, the odometer that enumerates the combinations of regions, the
construction of the hyperslabs, and the orchestration of the store calls.

Conventions of the embedding.

* C `long long int` and `R_xlen_t` values are `Int`s; every operation that can
  leave the 64-bit range is followed by `wrap64`, every narrowing to `int` by
  `wrap32`.  `hsize_t` values are `Nat`s below `2^64`; a conversion to
  `hsize_t` is `to_hsize`.
* A function that returns `-1` after writing `errmsg_buf` returns
  `Except.error d`, where `d : Diag` stands for the message written.
* C arrays are lists, read with `List.getD` and written with `List.set`.
* `malloc` is assumed to succeed, except when asked for a negative number of
  elements.
-/

namespace H5Mread

deriving instance DecidableEq for Except

/-! ## Machine integers -/

/-- Largest C `int`. -/
def INT_MAX : Int := 2147483647

/-- The `int` that R uses as the missing value of an integer vector (`INT_MIN`). -/
def NA_INTEGER : Int := -2147483648

/-- Largest C `long long int`. -/
def LLONG_MAX : Int := 9223372036854775807

/-- Largest `hsize_t`, plus one. -/
def HSIZE_MOD : Nat := 18446744073709551616

/-- Two's complement value of an integer stored in a signed 64-bit variable. -/
def wrap64 (z : Int) : Int := (z + 9223372036854775808) % 18446744073709551616 - 9223372036854775808

/-- Two's complement value of an integer stored in a signed 32-bit variable. -/
def wrap32 (z : Int) : Int := (z + 2147483648) % 4294967296 - 2147483648

/-- Conversion of a signed integer to `hsize_t` (unsigned 64-bit). -/
def to_hsize (z : Int) : Nat := (z % 18446744073709551616).toNat

/-! ## R values -/

/-- A C `double` held by a numeric vector: either one of `NA`, `NaN`, `+Inf`,
`-Inf` (the values selected by `NOT_A_FINITE_NUMBER`), or a finite value, given
by the rational number it denotes. -/
inductive RDouble where
  | not_finite : RDouble
  | finite (q : Rat) : RDouble
  deriving DecidableEq

/-- The R values (`SEXP`) that the reader distinguishes. -/
inductive SEXP where
  /-- The value `R_NilValue`. -/
  | nil : SEXP
  /-- An integer vector (`INTSXP`); its elements are C `int`s. -/
  | int (xs : List Int) : SEXP
  /-- A numeric vector (`REALSXP`). -/
  | real (xs : List RDouble) : SEXP
  /-- A generic vector, that is a list (`VECSXP`). -/
  | list (xs : List SEXP) : SEXP
  /-- A value of any other type. -/
  | other : SEXP

/-- The test `x == R_NilValue`. -/
def is_R_NilValue : SEXP → Bool
  | .nil => true
  | _ => false

/-- The test `isVectorList(x)`. -/
def isVectorList : SEXP → Bool
  | .list _ => true
  | _ => false

/-- The test `IS_INTEGER(x)`. -/
def IS_INTEGER : SEXP → Bool
  | .int _ => true
  | _ => false

/-- The test `IS_NUMERIC(x)`. -/
def IS_NUMERIC : SEXP → Bool
  | .real _ => true
  | _ => false

/-- The length `LENGTH(x)`. -/
def LENGTH : SEXP → Nat
  | .nil => 0
  | .int xs => xs.length
  | .real xs => xs.length
  | .list xs => xs.length
  | .other => 0

/-- The element `VECTOR_ELT(x, i)` of a list. -/
def VECTOR_ELT : SEXP → Nat → SEXP
  | .list xs, i => xs.getD i .nil
  | _, _ => .nil

/-- The element `INTEGER(x)[i]`, a C `int`: the entry of the list is read as a
signed 32-bit value. -/
def INTEGER_ELT : SEXP → Nat → Int
  | .int xs, i => wrap32 (xs.getD i 0)
  | _, _ => 0

/-- The element `REAL(x)[i]`. -/
def REAL_ELT : SEXP → Nat → RDouble
  | .real xs, i => xs.getD i .not_finite
  | _, _ => .not_finite

/-- Truncation of a finite double towards zero, as done by a conversion to an
integer type. -/
def trunc (q : Rat) : Int := Int.tdiv q.num q.den

/-! ## Diagnostics -/

/-- The vector named in a diagnostic: `"starts"` or `"counts"`. -/
inductive What where
  | starts : What
  | counts : What
  deriving DecidableEq

/-- The messages written to `errmsg_buf`, and the error raised by R when an
allocation is refused.  The arguments `along` and `i` are the zero-based axis
and position; the message prints `along + 1` and `i + 1`. -/
inductive Diag where
  /-- The message `'starts' must be a list`. -/
  | starts_not_list : Diag
  /-- The message `'counts' must be a list (or NULL)`. -/
  | counts_not_list : Diag
  /-- The message `'starts' and 'counts' must have the same length`. -/
  | starts_counts_length : Diag
  /-- The message `%s[[%d]][%d] is NA`. -/
  | elt_is_NA (what : What) (along i : Nat) : Diag
  /-- The message `%s[[%d]][%d] is NA or NaN or not a finite number`. -/
  | elt_not_finite (what : What) (along i : Nat) : Diag
  /-- The message `%s[[%d]][%d] is too large (= %e)`. -/
  | elt_too_large (what : What) (along i : Nat) : Diag
  /-- The message `'starts[[%d]]' must be an integer vector`. -/
  | starts_not_numeric (along : Nat) : Diag
  /-- The message `'counts[[%d]]' must be an integer vector`. -/
  | counts_not_numeric (along : Nat) : Diag
  /-- The message `'counts[[%d]]' must have the same length as 'starts[[%d]]'`. -/
  | counts_length (along : Nat) : Diag
  /-- The message `starts[[%d]][%d] is <= 0 or < starts[[%d]][%d] + counts[[%d]][%d]`. -/
  | start_not_ascending (along i : Nat) : Diag
  /-- The message `counts[[%d]][%d] is <= 0`. -/
  | count_not_positive (along i : Nat) : Diag
  /-- The message `starts[[%d]][%d] + counts[[%d]][%d] - 1 is greater than the
  corresponding dimension in the dataset`. -/
  | out_of_bounds (along i : Nat) : Diag
  /-- The message `sum(counts[[%d]]) is too big! (>= 2^31)`. -/
  | count_sum_too_big (along : Nat) : Diag
  /-- The message `'starts' must be a list with one list element per dimension
  in the dataset`. -/
  | starts_rank : Diag
  /-- The message `'counts' must be a list with one list element per dimension
  in the dataset`. -/
  | counts_rank : Diag
  /-- The message `H5Sselect_hyperslab() returned an error`. -/
  | select_hyperslab_failed : Diag
  /-- The message `H5Dget_space() returned an error`. -/
  | get_space_failed : Diag
  /-- The message `failed to allocate memory for 'dset_dims'`. -/
  | alloc_dset_dims : Diag
  /-- The message `H5Sget_simple_extent_dims() returned an unexpected value`. -/
  | extent_dims_unexpected : Diag
  /-- The message `H5Screate_simple() returned an error`. -/
  | create_simple_failed : Diag
  /-- The message `H5Dread() returned an error`. -/
  | read_failed : Diag
  /-- Not a message of `errmsg_buf`: the error that R raises in `NEW_INTEGER`,
  for a negative length or a length above `R_XLEN_T_MAX`.  Control leaves the
  calling function by a long jump, and nothing that follows the call is
  executed. -/
  | alloc_vector_error : Diag
  deriving DecidableEq

/-! ## Validation -/

/-- The function `shallow_check_starts_counts`: the length of `starts`, or a
failure. -/
def shallow_check_starts_counts (starts counts : SEXP) : Except Diag Nat :=
  if !isVectorList starts then .error .starts_not_list
  else if !is_R_NilValue counts then
    if !isVectorList counts then .error .counts_not_list
    else if LENGTH starts ≠ LENGTH counts then .error .starts_counts_length
    else .ok (LENGTH starts)
  else .ok (LENGTH starts)

/-- The function `get_elt_as_llint`: the element `x[i]` as a `long long int`.
The bound `(double) LLONG_MAX` is `2^63` and `(double) LLONG_MIN` is `-2^63`.
The conversion of the double `2^63`, which passes the range test, is taken to
wrap. -/
def get_elt_as_llint (x : SEXP) (i : Nat) (what : What) (along : Nat) : Except Diag Int :=
  if IS_INTEGER x then
    if INTEGER_ELT x i = NA_INTEGER then .error (.elt_is_NA what along i)
    else .ok (INTEGER_ELT x i)
  else
    match REAL_ELT x i with
    | .not_finite => .error (.elt_not_finite what along i)
    | .finite q =>
      if q > 9223372036854775808 ∨ q < -9223372036854775808 then
        .error (.elt_too_large what along i)
      else .ok (wrap64 (trunc q))

/-- The local variables `count_sum`, `c` and `e` of `check_starts_counts_along`. -/
structure AlongVars where
  /-- The running sum of the counts. -/
  count_sum : Int
  /-- The current count. -/
  c : Int
  /-- The end of the previous interval. -/
  e : Int
  deriving DecidableEq

/-- One iteration of the `for` loop of `check_starts_counts_along`, at position
`i`.  The comparison `e > dset_dims[...]` is between a `long long int` and an
`hsize_t`, so `e` is converted to `hsize_t`. -/
def along_body (along dset_rank : Nat) (dset_dims : List Nat) (start counts count : SEXP)
    (i : Nat) (v : AlongVars) : Except Diag AlongVars :=
  match get_elt_as_llint start i .starts along with
  | .error d => .error d
  | .ok s =>
    if s ≤ v.e then .error (.start_not_ascending along i)
    else
      let rc : Except Diag Int :=
        if !is_R_NilValue counts then
          match get_elt_as_llint count i .counts along with
          | .error d => .error d
          | .ok c => if c ≤ 0 then .error (.count_not_positive along i) else .ok c
        else .ok v.c
      match rc with
      | .error d => .error d
      | .ok c =>
        let e := wrap64 (s + c - 1)
        if to_hsize e > dset_dims.getD (dset_rank - 1 - along) 0 then
          .error (.out_of_bounds along i)
        else
          let count_sum := wrap64 (v.count_sum + c)
          if count_sum > INT_MAX then .error (.count_sum_too_big along)
          else .ok ⟨count_sum, c, e⟩

/-- The `for` loop of `check_starts_counts_along`: `k` iterations from position
`i` on. -/
def along_loop (along dset_rank : Nat) (dset_dims : List Nat) (start counts count : SEXP) :
    Nat → Nat → AlongVars → Except Diag AlongVars
  | 0, _, v => .ok v
  | k + 1, i, v =>
    match along_body along dset_rank dset_dims start counts count i v with
    | .error d => .error d
    | .ok v1 => along_loop along dset_rank dset_dims start counts count k (i + 1) v1

/-- The arrays `nregion` and `count_sums`, and the length `*ans_len`. -/
structure Tables where
  /-- The number of intervals of each axis. -/
  nregion : List Nat
  /-- The sum of the counts of each axis, as stored in an `int`. -/
  count_sums : List Int
  /-- The length of the answer, an `R_xlen_t`. -/
  ans_len : Int
  deriving DecidableEq

/-- The tests of `check_starts_counts_along` that come before its loop: the
types of `starts[[along]]` and `counts[[along]]`, and their lengths. -/
def along_types (along : Nat) (starts counts : SEXP) : Except Diag Unit :=
  let start := VECTOR_ELT starts along
  if !(IS_INTEGER start || IS_NUMERIC start) then .error (.starts_not_numeric along)
  else if !is_R_NilValue counts then
    let count := VECTOR_ELT counts along
    if !(IS_INTEGER count || IS_NUMERIC count) then .error (.counts_not_numeric along)
    else if LENGTH count ≠ LENGTH start then .error (.counts_length along)
    else .ok ()
  else .ok ()

/-- The function `check_starts_counts_along`.  The assignment
`count_sums[along] = count_sum` narrows a `long long int` to an `int`.  After a
failure the arrays are not returned: the callers free them without reading
them. -/
def check_starts_counts_along (along dset_rank : Nat) (dset_dims : List Nat)
    (starts counts : SEXP) (t : Tables) : Except Diag Tables :=
  match along_types along starts counts with
  | .error d => .error d
  | .ok _ =>
    let start := VECTOR_ELT starts along
    let count := VECTOR_ELT counts along
    let n := LENGTH start
    match along_loop along dset_rank dset_dims start counts count n 0 ⟨0, 1, 0⟩ with
    | .error d => .error d
    | .ok v =>
      .ok { t with nregion := t.nregion.set along n,
                   count_sums := t.count_sums.set along (wrap32 v.count_sum) }

/-- The `for` loop of `deep_check_starts_counts`: `k` iterations from axis
`along` on. -/
def deep_loop (dset_rank : Nat) (dset_dims : List Nat) (starts counts : SEXP) :
    Nat → Nat → Tables → Except Diag Tables
  | 0, _, t => .ok t
  | k + 1, along, t =>
    match check_starts_counts_along along dset_rank dset_dims starts counts t with
    | .error d => .error d
    | .ok t1 =>
      deep_loop dset_rank dset_dims starts counts k (along + 1)
        { t1 with ans_len := wrap64 (t1.ans_len * t1.count_sums.getD along 0) }

/-- The function `deep_check_starts_counts`.  The arrays `nregion` and
`count_sums` come in with the contents left by their allocation; the product
`*ans_len *= count_sums[along]` is an `R_xlen_t`, a signed 64-bit integer. -/
def deep_check_starts_counts (dset_rank : Nat) (dset_dims : List Nat)
    (starts counts : SEXP) (nregion : List Nat) (count_sums : List Int) :
    Except Diag Tables :=
  if !(isVectorList starts && LENGTH starts = dset_rank) then .error .starts_rank
  else if !is_R_NilValue counts && !(isVectorList counts && LENGTH counts = dset_rank) then
    .error .counts_rank
  else
    deep_loop dset_rank dset_dims starts counts dset_rank 0
      { nregion := nregion, count_sums := count_sums, ans_len := 1 }

/-! ## The store -/

/-- The two dataspaces that a read opens: the source (file) space and the
destination (memory) space. -/
inductive Space where
  | file : Space
  | mem : Space
  deriving DecidableEq

/-- The calls that the reader makes to the HDF5 library. -/
inductive H5Call where
  | H5Dget_space : H5Call
  | H5Sget_simple_extent_ndims : H5Call
  | H5Sget_simple_extent_dims : H5Call
  | H5Sselect_none : H5Call
  /-- A call `H5Sselect_hyperslab(file_space_id, H5S_SELECT_OR, offset, NULL, count, NULL)`. -/
  | H5Sselect_hyperslab (offset count : List Nat) : H5Call
  | H5Screate_simple (dims : List Nat) : H5Call
  | H5Sselect_all : H5Call
  | H5Dread : H5Call
  | H5Sclose (space : Space) : H5Call
  deriving DecidableEq

/-- The HDF5 library as seen by one read of a dataset: the extents of the
dataset, the calls made so far, the positions in the sequence of calls at which
the library reports an error, and the numbers printed on the standard output. -/
structure Store where
  /-- The extents of the dataset, in storage order. -/
  dset_dims : List Nat
  /-- The positions of the calls that fail. -/
  failing : List Nat
  /-- The calls made so far, oldest first. -/
  calls : List H5Call
  /-- The values printed by `printf`. -/
  printed : List Nat
  deriving DecidableEq

/-- Make a call to the library: whether it succeeds, and the store afterwards. -/
def Store.issue (st : Store) (c : H5Call) : Bool × Store :=
  (decide (st.calls.length ∉ st.failing), { st with calls := st.calls ++ [c] })

/-! ## Enumeration of the regions and construction of the selection -/

/-- Conversion `(hsize_t) x` of a double: the truncated value, reduced to 64
bits.  For a value that is not finite the conversion is not defined by the
language; the value taken is the one the conversion instruction of the compiled
code gives, `2^63`. -/
def double_to_hsize : RDouble → Nat
  | .not_finite => 9223372036854775808
  | .finite q => to_hsize (trunc q)

/-- The expression `IS_INTEGER(x) ? (hsize_t) INTEGER(x)[i] : (hsize_t) REAL(x)[i]`. -/
def elt_as_hsize (x : SEXP) (i : Nat) : Nat :=
  if IS_INTEGER x then to_hsize (INTEGER_ELT x i) else double_to_hsize (REAL_ELT x i)

/-- The buffers `offset_buf` and `count_buf`. -/
structure Bufs where
  /-- The offsets of the hyperslab, in storage order. -/
  offset_buf : List Nat
  /-- The extents of the hyperslab, in storage order. -/
  count_buf : List Nat
  deriving DecidableEq

/-- The `for` loop of `add_region_to_read`: `k` iterations from axis `along` on. -/
def fill_bufs (dset_rank : Nat) (starts counts : SEXP) (region_idx : List Nat) :
    Nat → Nat → Bufs → Bufs
  | 0, _, b => b
  | k + 1, along, b =>
    let i := region_idx.getD along 0
    let tmp := elt_as_hsize (VECTOR_ELT starts along) i
    let offset_buf := b.offset_buf.set (dset_rank - 1 - along) ((tmp + HSIZE_MOD - 1) % HSIZE_MOD)
    let count_buf :=
      if !is_R_NilValue counts then
        b.count_buf.set (dset_rank - 1 - along) (elt_as_hsize (VECTOR_ELT counts along) i)
      else b.count_buf
    fill_bufs dset_rank starts counts region_idx k (along + 1) ⟨offset_buf, count_buf⟩

/-- The function `add_region_to_read`: the result, the store and the buffers
afterwards. -/
def add_region_to_read (st : Store) (dset_rank : Nat) (starts counts : SEXP)
    (region_idx : List Nat) (b : Bufs) : Except Diag Unit × Store × Bufs :=
  let b1 := fill_bufs dset_rank starts counts region_idx dset_rank 0 b
  let r := st.issue (.H5Sselect_hyperslab b1.offset_buf b1.count_buf)
  if r.1 then (.ok (), r.2, b1) else (.error .select_hyperslab_failed, r.2, b1)

/-- The `for` loop of `next_region`: `k` iterations from axis `along` on.  The
result is the value returned and the array `region_idx` afterwards. -/
def next_region_loop (nregion : List Nat) : Nat → Nat → List Nat → Bool × List Nat
  | 0, _, region_idx => (false, region_idx)
  | k + 1, along, region_idx =>
    let i := region_idx.getD along 0 + 1
    if i < nregion.getD along 0 then (true, region_idx.set along i)
    else next_region_loop nregion k (along + 1) (region_idx.set along 0)

/-- The function `next_region`. -/
def next_region (dset_rank : Nat) (nregion region_idx : List Nat) : Bool × List Nat :=
  next_region_loop nregion dset_rank 0 region_idx

/-- The local variables of the `do ... while` loop of `set_regions_to_read`. -/
structure RegionVars where
  /-- The store. -/
  st : Store
  /-- The current combination. -/
  region_idx : List Nat
  /-- The scratch buffers. -/
  bufs : Bufs
  /-- The counter `n`, a `long long unsigned`. -/
  n : Nat
  deriving DecidableEq

/-- The `do ... while` loop of `set_regions_to_read`, run for at most `fuel`
iterations: the value `ret` and the variables when the loop is left, or `none`
when the iterations allowed do not suffice. -/
def regions_loop (dset_rank : Nat) (starts counts : SEXP) (nregion : List Nat) :
    Nat → RegionVars → Option (Except Diag Unit × RegionVars)
  | 0, _ => none
  | fuel + 1, v =>
    let n := (v.n + 1) % HSIZE_MOD
    let r := add_region_to_read v.st dset_rank starts counts v.region_idx v.bufs
    match r.1 with
    | .error d => some (.error d, ⟨r.2.1, v.region_idx, r.2.2, n⟩)
    | .ok _ =>
      let nx := next_region dset_rank nregion v.region_idx
      if nx.1 then regions_loop dset_rank starts counts nregion fuel ⟨r.2.1, nx.2, r.2.2, n⟩
      else some (.ok (), ⟨r.2.1, nx.2, r.2.2, n⟩)

/-- The function `set_regions_to_read`, its loop run for at most `fuel`
iterations.  A failure carries the message written to `errmsg_buf`, or `none`
when nothing is written. -/
def set_regions_to_read (fuel : Nat) (st : Store) (dset_rank : Nat) (starts counts : SEXP)
    (nregion : List Nat) : Option (Except (Option Diag) Unit × Store) :=
  let r := st.issue .H5Sselect_none
  if !r.1 then some (.error none, r.2)
  else if (List.range dset_rank).any (fun along => nregion.getD along 0 == 0) then
    some (.ok (), r.2)
  else
    let bufs : Bufs := ⟨List.replicate dset_rank 0, List.replicate dset_rank 1⟩
    let region_idx := List.replicate dset_rank 0
    match regions_loop dset_rank starts counts nregion fuel ⟨r.2, region_idx, bufs, 0⟩ with
    | none => none
    | some (ret, v) =>
      let st1 := { v.st with printed := v.st.printed ++ [v.n] }
      match ret with
      | .error d => some (.error (some d), st1)
      | .ok _ => some (.ok (), st1)

/-- The hyperslabs passed to `H5Sselect_hyperslab`, offsets and extents, in the
order of the calls. -/
def hyperslabs : List H5Call → List (List Nat × List Nat)
  | [] => []
  | .H5Sselect_hyperslab offset count :: cs => (offset, count) :: hyperslabs cs
  | _ :: cs => hyperslabs cs

/-! ## The read -/

/-- The function `prepare_file_space`, on a dataset of rank
`st.dset_dims.length`: on success the tables filled by the validation. -/
def prepare_file_space (fuel : Nat) (st : Store) (starts counts : SEXP)
    (count_sums : List Int) : Option (Except (Option Diag) Tables × Store) :=
  let r0 := st.issue .H5Dget_space
  if !r0.1 then some (.error (some .get_space_failed), r0.2)
  else
    let r1 := r0.2.issue .H5Sget_simple_extent_ndims
    if !r1.1 then
      -- a negative rank: the allocation of 'dset_dims' fails
      some (.error (some .alloc_dset_dims), (r1.2.issue (.H5Sclose .file)).2)
    else
      let dset_rank := st.dset_dims.length
      let r2 := r1.2.issue .H5Sget_simple_extent_dims
      if !r2.1 then
        some (.error (some .extent_dims_unexpected), (r2.2.issue (.H5Sclose .file)).2)
      else
        let nregion := List.replicate dset_rank 0
        match deep_check_starts_counts dset_rank st.dset_dims starts counts nregion count_sums with
        | .error d => some (.error (some d), (r2.2.issue (.H5Sclose .file)).2)
        | .ok t =>
          match set_regions_to_read fuel r2.2 dset_rank starts counts t.nregion with
          | none => none
          | some (.error d, st3) => some (.error d, (st3.issue (.H5Sclose .file)).2)
          | some (.ok _, st3) => some (.ok t, st3)

/-- The `for` loop of `prepare_mem_space`: `k` iterations from axis `along` on. -/
def mem_dims (dset_rank : Nat) (count_sums : List Int) : Nat → Nat → List Nat → List Nat
  | 0, _, dims => dims
  | k + 1, along, dims =>
    mem_dims dset_rank count_sums k (along + 1)
      (dims.set (dset_rank - 1 - along) (to_hsize (count_sums.getD along 0)))

/-- The function `prepare_mem_space`. -/
def prepare_mem_space (st : Store) (dset_rank : Nat) (count_sums : List Int) :
    Except (Option Diag) Unit × Store :=
  let dims := mem_dims dset_rank count_sums dset_rank 0 (List.replicate dset_rank 0)
  let r0 := st.issue (.H5Screate_simple dims)
  if !r0.1 then (.error (some .create_simple_failed), r0.2)
  else
    let r1 := r0.2.issue .H5Sselect_all
    if !r1.1 then (.error (some .select_hyperslab_failed), r1.2)
    else (.ok (), r1.2)

/-- The integer vector returned by `h5mread`: its length and its `dim`
attribute. -/
structure Answer where
  /-- The length given to `NEW_INTEGER`. -/
  length : Int
  /-- The `dim` attribute. -/
  dim : List Int
  deriving DecidableEq

/-- The largest length of an R vector, `R_XLEN_T_MAX = 2^52`. -/
def R_XLEN_T_MAX : Int := 4503599627370496

/-- The macro `NEW_INTEGER(n)`: whether the allocation returns.  R raises an
error when the length is negative or above `R_XLEN_T_MAX`. -/
def NEW_INTEGER (n : Int) : Bool := decide (0 ≤ n ∧ n ≤ R_XLEN_T_MAX)

/-- The function `h5mread`.  A failure stands for the return of `R_NilValue`,
except `Diag.alloc_vector_error`, which stands for the error raised by
`NEW_INTEGER(ans_len)`: then `h5mread` does not return, and neither `H5Dread`
nor `H5Sclose` is called.  The allocation `NEW_INTEGER(starts_len)` and `SET_DIM`
are taken to return. -/
def h5mread (fuel : Nat) (st : Store) (starts counts : SEXP) :
    Option (Except (Option Diag) Answer × Store) :=
  match shallow_check_starts_counts starts counts with
  | .error d => some (.error (some d), st)
  | .ok starts_len =>
    match prepare_file_space fuel st starts counts (List.replicate starts_len 0) with
    | none => none
    | some (.error d, st1) => some (.error d, st1)
    | some (.ok t, st1) =>
      let ans : Answer :=
        ⟨t.ans_len, (List.range starts_len).map (fun along => t.count_sums.getD along 0)⟩
      if t.ans_len ≠ 0 then
        match prepare_mem_space st1 starts_len t.count_sums with
        | (.error d, st2) => some (.error d, (st2.issue (.H5Sclose .file)).2)
        | (.ok _, st2) =>
          if !NEW_INTEGER t.ans_len then some (.error (some .alloc_vector_error), st2)
          else
            let r := st2.issue .H5Dread
            let st3 := ((r.2.issue (.H5Sclose .mem)).2.issue (.H5Sclose .file)).2
            if !r.1 then some (.error (some .read_failed), st3) else some (.ok ans, st3)
      else if !NEW_INTEGER t.ans_len then some (.error (some .alloc_vector_error), st1)
      else some (.ok ans, (st1.issue (.H5Sclose .file)).2)

/-! ## Notions used in the statements -/

/-- The list of integer vectors of ones, one for each element of `starts` and of
the same length: the counts that an absent `counts` stands for. -/
def counts_of_ones : SEXP → SEXP
  | .list xs => .list (xs.map (fun x => .int (List.replicate (LENGTH x) 1)))
  | _ => .list []

/-- The combination of rank `k` in the enumeration: the digits of `k` in the
mixed radix `nregion`, axis 0 being the least significant. -/
def digits : List Nat → Nat → List Nat
  | [], _ => []
  | n :: ns, k => (k % n) :: digits ns (k / n)

/-- The values taken by `region_idx` at the successive iterations of the
`do ... while` loop of `set_regions_to_read`, from the value `region_idx` on and
for at most `fuel` iterations, when no call fails: the loop goes on as long as
`next_region` returns `1`. -/
def region_sequence (dset_rank : Nat) (nregion : List Nat) :
    Nat → List Nat → Option (List (List Nat))
  | 0, _ => none
  | fuel + 1, region_idx =>
    let nx := next_region dset_rank nregion region_idx
    if nx.1 then (region_sequence dset_rank nregion fuel nx.2).map (fun l => region_idx :: l)
    else some [region_idx]

/-- The rank in the enumeration of a combination: the number whose digits in
the mixed radix `nregion` are the entries of the combination. -/
def rank_of : List Nat → List Nat → Nat
  | n :: ns, i :: is => i + n * rank_of ns is
  | _, _ => 0

/-- No call made from now on fails: the positions at which the store reports an
error are all among the calls already made. -/
def Store.no_failure (st : Store) : Prop := ∀ j ∈ st.failing, j < st.calls.length

/-- The vector `x` is integer-valued and holds the integers `vals`: either it is
an integer vector with these entries, none of them `NA`, or it is a numeric
vector whose entries are the doubles with these values, each of them in the
range of `long long int`. -/
def holds_ints (x : SEXP) (vals : List Int) : Prop :=
  (x = .int vals ∧ ∀ z ∈ vals, -2147483648 < z ∧ z < 2147483648) ∨
  (x = .real (vals.map (fun (z : Int) => RDouble.finite (z : Rat))) ∧
    ∀ z ∈ vals, -9223372036854775808 ≤ z ∧ z < 9223372036854775808)

/-- The start of the interval `i` of axis `along`, as `check_starts_counts_along`
reads it (`0` when the element does not convert). -/
def axis_start (starts : SEXP) (along i : Nat) : Int :=
  match get_elt_as_llint (VECTOR_ELT starts along) i .starts along with
  | .ok s => s
  | .error _ => 0

/-- The count of the interval `i` of axis `along`, as `check_starts_counts_along`
reads it: `1` when `counts` is absent (`0` when the element does not convert). -/
def axis_count (counts : SEXP) (along i : Nat) : Int :=
  if is_R_NilValue counts then 1
  else
    match get_elt_as_llint (VECTOR_ELT counts along) i .counts along with
    | .ok c => c
    | .error _ => 0

/-- The exact sum, an unbounded integer, of the counts of axis `along`. -/
def exact_count_sum (starts counts : SEXP) (along : Nat) : Int :=
  ((List.range (LENGTH (VECTOR_ELT starts along))).map (axis_count counts along)).sum

/-- The hyperslab of a combination: the offsets and the extents that
`add_region_to_read` leaves in the scratch buffers of `set_regions_to_read`,
which start as zeros for `offset_buf` and ones for `count_buf`. -/
def slab (dset_rank : Nat) (starts counts : SEXP) (region_idx : List Nat) :
    List Nat × List Nat :=
  ((fill_bufs dset_rank starts counts region_idx dset_rank 0
      ⟨List.replicate dset_rank 0, List.replicate dset_rank 1⟩).offset_buf,
   (fill_bufs dset_rank starts counts region_idx dset_rank 0
      ⟨List.replicate dset_rank 0, List.replicate dset_rank 1⟩).count_buf)

/-- The calls that open, query and close the source space. -/
def source_space_call (c : H5Call) : Prop :=
  c = .H5Dget_space ∨ c = .H5Sget_simple_extent_ndims ∨ c = .H5Sget_simple_extent_dims ∨
    c = .H5Sclose .file

/-- The store after the three calls that open and query the source space. -/
def Store.opened (st : Store) : Store :=
  (((st.issue .H5Dget_space).2.issue .H5Sget_simple_extent_ndims).2.issue
    .H5Sget_simple_extent_dims).2

/-- The calls `H5Sselect_hyperslab`. -/
def is_hyperslab_call (c : H5Call) : Prop :=
  ∃ offset extent, c = .H5Sselect_hyperslab offset extent

/-- The number of times the dataspace `sp` has been opened with success by the
calls `cs`, the first of which is at position `pos` in the sequence of calls:
`H5Dget_space` opens the source space and `H5Screate_simple` the destination
space, when they do not fail. -/
def opened_count (failing : List Nat) (sp : Space) : Nat → List H5Call → Nat
  | _, [] => 0
  | pos, c :: cs =>
    (match c, sp with
      | .H5Dget_space, .file => if pos ∈ failing then 0 else 1
      | .H5Screate_simple _, .mem => if pos ∈ failing then 0 else 1
      | _, _ => 0) + opened_count failing sp (pos + 1) cs

/-- The number of calls `H5Sclose` on the dataspace `sp` among the calls `cs`. -/
def closed_count (sp : Space) : List H5Call → Nat
  | [] => 0
  | c :: cs => (if c = .H5Sclose sp then 1 else 0) + closed_count sp cs

/-- The cell `x` of the dataset, given by its coordinates in storage order,
belongs to the hyperslab `h`, given by its offsets and its extents. -/
def in_slab (h : List Nat × List Nat) (x : List Nat) : Prop :=
  x.length = h.1.length ∧
    ∀ k, k < h.1.length → h.1.getD k 0 ≤ x.getD k 0 ∧ x.getD k 0 < h.1.getD k 0 + h.2.getD k 0

instance (h : List Nat × List Nat) (x : List Nat) : Decidable (in_slab h x) := by
  unfold in_slab
  infer_instance

/-! # Properties -/

/-! ## Machine arithmetic -/

theorem wrap64_eq_self {z : Int} (h1 : -9223372036854775808 ≤ z) (h2 : z < 9223372036854775808) :
    wrap64 z = z := by
  unfold wrap64; omega

theorem wrap64_range (z : Int) :
    -9223372036854775808 ≤ wrap64 z ∧ wrap64 z < 9223372036854775808 := by
  unfold wrap64; omega

theorem wrap32_range (z : Int) : -2147483648 ≤ wrap32 z ∧ wrap32 z < 2147483648 := by
  unfold wrap32; omega

theorem wrap32_eq_self {z : Int} (h1 : -2147483648 ≤ z) (h2 : z < 2147483648) :
    wrap32 z = z := by
  unfold wrap32; omega

theorem to_hsize_wrap64 (z : Int) : to_hsize (wrap64 z) = to_hsize z := by
  unfold to_hsize wrap64; omega

theorem to_hsize_eq {z : Int} (h1 : 0 ≤ z) (h2 : z < 18446744073709551616) :
    (to_hsize z : Int) = z := by
  unfold to_hsize; omega

/-- The value produced by `get_elt_as_llint` fits a `long long int`. -/
theorem get_elt_as_llint_range {x : SEXP} {i : Nat} {what : What} {along : Nat} {z : Int}
    (h : get_elt_as_llint x i what along = .ok z) :
    -9223372036854775808 ≤ z ∧ z < 9223372036854775808 := by
  unfold get_elt_as_llint at h
  split at h
  · split at h
    · exact absurd h (by simp)
    · injection h with h
      subst h
      cases x with
      | int xs => have := wrap32_range (xs.getD i 0); simp only [INTEGER_ELT]; omega
      | _ => simp [INTEGER_ELT]
  · split at h
    · exact absurd h (by simp)
    · split at h
      · exact absurd h (by simp)
      · injection h with h
        subst h
        exact wrap64_range _

/-! ## The loop of `check_starts_counts_along` -/

/-- Running `a + b` iterations is running `a` iterations and then `b` more. -/
theorem along_loop_add (along dset_rank : Nat) (dset_dims : List Nat) (start counts count : SEXP)
    (a b i : Nat) (v : AlongVars) :
    along_loop along dset_rank dset_dims start counts count (a + b) i v =
      match along_loop along dset_rank dset_dims start counts count a i v with
      | .error d => .error d
      | .ok v1 => along_loop along dset_rank dset_dims start counts count b (i + a) v1 := by
  induction a generalizing i v with
  | zero => simp [along_loop]
  | succ a ih =>
    rw [show a + 1 + b = (a + b) + 1 by omega]
    simp only [along_loop]
    cases along_body along dset_rank dset_dims start counts count i v with
    | error d => rfl
    | ok v1 =>
      simp only []
      rw [ih (i + 1) v1, show i + 1 + a = i + (a + 1) by omega]

/-- When `counts` is absent the variable `c` keeps its value through an
iteration. -/
theorem along_body_c_of_nil {along dset_rank : Nat} {dset_dims : List Nat} {start count : SEXP}
    {i : Nat} {v v1 : AlongVars}
    (h : along_body along dset_rank dset_dims start .nil count i v = .ok v1) : v1.c = v.c := by
  unfold along_body at h
  split at h
  · exact absurd h (by simp)
  · split at h
    · exact absurd h (by simp)
    · simp only [is_R_NilValue, Bool.not_true, Bool.false_eq_true, if_false] at h
      split at h
      · exact absurd h (by simp)
      · split at h
        · exact absurd h (by simp)
        · injection h with h
          subst h
          rfl

/-- When `counts` is absent the variable `c` keeps its value through the loop. -/
theorem along_loop_c_of_nil {along dset_rank : Nat} {dset_dims : List Nat} {start count : SEXP}
    {k i : Nat} {v v1 : AlongVars}
    (h : along_loop along dset_rank dset_dims start .nil count k i v = .ok v1) : v1.c = v.c := by
  induction k generalizing i v with
  | zero =>
    simp only [along_loop] at h
    injection h with h
    subst h
    rfl
  | succ k ih =>
    simp only [along_loop] at h
    split at h
    · exact absurd h (by simp)
    · rename_i v2 hb
      rw [ih h, along_body_c_of_nil hb]

/-- The function fails at position `i` as soon as the loop reaches `i` and the
iteration at `i` fails. -/
theorem check_along_error_at {along dset_rank : Nat} {dset_dims : List Nat}
    {starts counts : SEXP} {i : Nat} {v : AlongVars} {d : Diag} (t : Tables)
    (htypes : along_types along starts counts = .ok ())
    (hi : i < LENGTH (VECTOR_ELT starts along))
    (hprev : along_loop along dset_rank dset_dims (VECTOR_ELT starts along) counts
      (VECTOR_ELT counts along) i 0 ⟨0, 1, 0⟩ = .ok v)
    (hbody : along_body along dset_rank dset_dims (VECTOR_ELT starts along) counts
      (VECTOR_ELT counts along) i v = .error d) :
    check_starts_counts_along along dset_rank dset_dims starts counts t = .error d := by
  unfold check_starts_counts_along
  rw [htypes]
  simp only []
  obtain ⟨k, hk⟩ : ∃ k, LENGTH (VECTOR_ELT starts along) = i + (k + 1) :=
    ⟨LENGTH (VECTOR_ELT starts along) - i - 1, by omega⟩
  rw [hk, along_loop_add, hprev]
  simp only [along_loop, Nat.zero_add, hbody]

/-- C7: an entry `i` that is reached by the loop, whose start `s` passes the
ordering check and whose count `c` passes the count check (`c` is `1` when
`counts` is absent), and for which the exact integer `s + c - 1` is greater than
the extent `dset_dims[dset_rank - 1 - along]`, makes `check_starts_counts_along`
fail with the out-of-bounds diagnostic for that axis and position.  Nothing is
assumed on the size of `s + c - 1`, which may exceed the signed 64-bit range. -/
theorem out_of_bounds_rejected (along dset_rank : Nat) (dset_dims : List Nat)
    (starts counts : SEXP) (t : Tables) (i : Nat) (v : AlongVars) (s c : Int)
    (htypes : along_types along starts counts = .ok ())
    (hi : i < LENGTH (VECTOR_ELT starts along))
    (hprev : along_loop along dset_rank dset_dims (VECTOR_ELT starts along) counts
      (VECTOR_ELT counts along) i 0 ⟨0, 1, 0⟩ = .ok v)
    (hs : get_elt_as_llint (VECTOR_ELT starts along) i .starts along = .ok s)
    (hord : v.e < s)
    (hc : (is_R_NilValue counts = true ∧ c = 1) ∨
      (is_R_NilValue counts = false ∧
        get_elt_as_llint (VECTOR_ELT counts along) i .counts along = .ok c ∧ 0 < c))
    (hbound : (dset_dims.getD (dset_rank - 1 - along) 0 : Int) < s + c - 1) :
    check_starts_counts_along along dset_rank dset_dims starts counts t =
      .error (.out_of_bounds along i) := by
  apply check_along_error_at t htypes hi hprev
  have hsr := get_elt_as_llint_range hs
  have hbig : dset_dims.getD (dset_rank - 1 - along) 0 <
      to_hsize (wrap64 (s + c - 1)) := by
    have hcr : 0 < c ∧ c < 9223372036854775808 := by
      rcases hc with ⟨_, h1⟩ | ⟨_, h1, h2⟩
      · omega
      · exact ⟨h2, (get_elt_as_llint_range h1).2⟩
    rw [to_hsize_wrap64]
    have := @to_hsize_eq (s + c - 1) (by omega) (by omega)
    omega
  unfold along_body
  rw [hs]
  simp only [if_neg (not_le.mpr hord)]
  rcases hc with ⟨hn, h1⟩ | ⟨hn, h1, h2⟩
  · have hvc : v.c = 1 := by
      cases counts <;> simp [is_R_NilValue] at hn
      exact along_loop_c_of_nil hprev
    simp only [hn, Bool.not_true, Bool.false_eq_true, if_false, hvc]
    subst h1
    simp only [if_pos hbig]
  · simp only [hn, Bool.not_false, if_true, h1, if_neg (not_le.mpr h2), if_pos hbig]

/-- Witness for C7: extent 10, start 8, count 5. -/
theorem out_of_bounds_rejected_witness :
    check_starts_counts_along 0 1 [10] (.list [.int [8]]) (.list [.int [5]]) ⟨[0], [0], 1⟩ =
      .error (.out_of_bounds 0 0) :=
  out_of_bounds_rejected 0 1 [10] (.list [.int [8]]) (.list [.int [5]]) ⟨[0], [0], 1⟩ 0
    ⟨0, 1, 0⟩ 8 5 (by decide) (by decide) (by decide) (by decide) (by decide)
    (Or.inr ⟨by decide, by decide, by decide⟩) (by decide)

theorem VECTOR_ELT_counts_of_ones {starts : SEXP} {along : Nat}
    (h : (IS_INTEGER (VECTOR_ELT starts along) || IS_NUMERIC (VECTOR_ELT starts along)) = true) :
    VECTOR_ELT (counts_of_ones starts) along =
      .int (List.replicate (LENGTH (VECTOR_ELT starts along)) 1) := by
  cases starts with
  | list xs =>
    simp only [counts_of_ones, VECTOR_ELT]
    by_cases hl : along < xs.length
    · simp [List.getD_eq_getElem?_getD, List.getElem?_map, List.getElem?_eq_getElem hl]
    · simp [VECTOR_ELT, List.getD_eq_getElem?_getD, List.getElem?_eq_none (not_lt.mp hl),
        IS_INTEGER, IS_NUMERIC] at h
  | _ => simp [VECTOR_ELT, IS_INTEGER, IS_NUMERIC] at h

theorem get_elt_ones {n i : Nat} (what : What) (along : Nat) (h : i < n) :
    get_elt_as_llint (.int (List.replicate n 1)) i what along = .ok 1 := by
  simp [get_elt_as_llint, IS_INTEGER, INTEGER_ELT, List.getD_eq_getElem?_getD,
    List.getElem?_replicate, h, wrap32, NA_INTEGER]

theorem along_body_ones {along dset_rank : Nat} {dset_dims : List Nat} {start cs count : SEXP}
    {n i : Nat} {v : AlongVars} (hn : is_R_NilValue cs = false) (h : i < n) (hc : v.c = 1) :
    along_body along dset_rank dset_dims start .nil count i v =
      along_body along dset_rank dset_dims start cs (.int (List.replicate n 1)) i v := by
  unfold along_body
  have hnil : is_R_NilValue .nil = true := rfl
  simp only [get_elt_ones _ _ h, hn, hnil, hc]
  simp

theorem along_loop_ones {along dset_rank : Nat} {dset_dims : List Nat} {start cs count : SEXP}
    {n k i : Nat} {v : AlongVars} (hn : is_R_NilValue cs = false) (h : i + k ≤ n)
    (hc : v.c = 1) :
    along_loop along dset_rank dset_dims start .nil count k i v =
      along_loop along dset_rank dset_dims start cs (.int (List.replicate n 1)) k i v := by
  induction k generalizing i v with
  | zero => rfl
  | succ k ih =>
    simp only [along_loop]
    rw [← along_body_ones hn (by omega : i < n) hc]
    cases hb : along_body along dset_rank dset_dims start .nil count i v with
    | error d => rfl
    | ok v1 =>
      simp only []
      exact ih (by omega) (by rw [along_body_c_of_nil hb, hc])

theorem get_elt_error_what {x : SEXP} {i : Nat} {what : What} {along : Nat} {d : Diag}
    (h : get_elt_as_llint x i what along = .error d) :
    d = .elt_is_NA what along i ∨ d = .elt_not_finite what along i ∨
      d = .elt_too_large what along i := by
  unfold get_elt_as_llint at h
  split at h
  · split at h
    · injection h with h; exact Or.inl h.symm
    · exact absurd h (by simp)
  · split at h
    · injection h with h; exact Or.inr (Or.inl h.symm)
    · split at h
      · injection h with h; exact Or.inr (Or.inr h.symm)
      · exact absurd h (by simp)

theorem along_body_nil_error {along dset_rank : Nat} {dset_dims : List Nat} {start count : SEXP}
    {i : Nat} {v : AlongVars} {d : Diag}
    (h : along_body along dset_rank dset_dims start .nil count i v = .error d) (a j : Nat) :
    d ≠ .count_not_positive a j ∧ d ≠ .elt_is_NA .counts a j ∧
      d ≠ .elt_not_finite .counts a j ∧ d ≠ .elt_too_large .counts a j := by
  unfold along_body at h
  split at h
  · rename_i d1 hg
    injection h with h
    subst h
    rcases get_elt_error_what hg with h | h | h <;> subst h <;> simp
  · split at h
    · injection h with h; subst h; simp
    · simp only [is_R_NilValue, Bool.not_true, Bool.false_eq_true, if_false] at h
      split at h
      · injection h with h; subst h; simp
      · split at h
        · injection h with h; subst h; simp
        · exact absurd h (by simp)

theorem along_loop_nil_error {along dset_rank : Nat} {dset_dims : List Nat} {start count : SEXP}
    {k i : Nat} {v : AlongVars} {d : Diag}
    (h : along_loop along dset_rank dset_dims start .nil count k i v = .error d) (a j : Nat) :
    d ≠ .count_not_positive a j ∧ d ≠ .elt_is_NA .counts a j ∧
      d ≠ .elt_not_finite .counts a j ∧ d ≠ .elt_too_large .counts a j := by
  induction k generalizing i v with
  | zero => simp [along_loop] at h
  | succ k ih =>
    simp only [along_loop] at h
    split at h
    · rename_i d1 hb
      injection h with h
      subst h
      exact along_body_nil_error hb a j
    · exact ih h

/-- C10: with explicit counts, an entry `i` that is reached by the loop and whose
start passes the ordering check, but whose count `c` is `<= 0`, makes
`check_starts_counts_along` fail with the diagnostic `counts[[d]][i] is <= 0`.
With `counts` absent the function behaves as with explicit counts all equal to
`1`, and it never fails with a diagnostic about a count. -/
theorem count_check (along dset_rank : Nat) (dset_dims : List Nat) (starts : SEXP)
    (t : Tables) :
    (∀ (counts : SEXP) (i : Nat) (v : AlongVars) (s c : Int),
      is_R_NilValue counts = false →
      along_types along starts counts = .ok () →
      i < LENGTH (VECTOR_ELT starts along) →
      along_loop along dset_rank dset_dims (VECTOR_ELT starts along) counts
        (VECTOR_ELT counts along) i 0 ⟨0, 1, 0⟩ = .ok v →
      get_elt_as_llint (VECTOR_ELT starts along) i .starts along = .ok s →
      v.e < s →
      get_elt_as_llint (VECTOR_ELT counts along) i .counts along = .ok c →
      c ≤ 0 →
      check_starts_counts_along along dset_rank dset_dims starts counts t =
        .error (.count_not_positive along i)) ∧
    check_starts_counts_along along dset_rank dset_dims starts .nil t =
      check_starts_counts_along along dset_rank dset_dims starts (counts_of_ones starts) t ∧
    (∀ (d : Diag) (a j : Nat),
      check_starts_counts_along along dset_rank dset_dims starts .nil t = .error d →
      d ≠ .count_not_positive a j ∧ d ≠ .elt_is_NA .counts a j ∧
        d ≠ .elt_not_finite .counts a j ∧ d ≠ .elt_too_large .counts a j) := by
  refine ⟨?_, ?_, ?_⟩
  · intro counts i v s c hn htypes hi hprev hs hord hc hle
    apply check_along_error_at t htypes hi hprev
    unfold along_body
    rw [hs]
    simp only [if_neg (not_le.mpr hord), hn, Bool.not_false, if_true, hc, if_pos hle]
  · have hones : is_R_NilValue (counts_of_ones starts) = false := by
      cases starts <;> rfl
    unfold check_starts_counts_along along_types
    by_cases hst : (IS_INTEGER (VECTOR_ELT starts along) ||
        IS_NUMERIC (VECTOR_ELT starts along)) = true
    · have hnil : is_R_NilValue .nil = true := rfl
      have hint : ∀ n : Nat, IS_INTEGER (.int (List.replicate n 1)) = true := fun _ => rfl
      have hlen : ∀ n : Nat, LENGTH (.int (List.replicate n 1)) = n := fun n => by
        simp [LENGTH]
      simp only [hst, hnil, hones, VECTOR_ELT_counts_of_ones hst, hint, hlen]
      simp only [Bool.not_true, Bool.false_eq_true, if_false, Bool.true_or, Bool.not_false,
        if_true, ne_eq, not_true_eq_false]
      rw [along_loop_ones hones (Nat.le_of_eq (Nat.zero_add _)) rfl]
    · simp [hst]
  · intro d a j h
    unfold check_starts_counts_along at h
    split at h
    · rename_i d1 ht
      injection h with h
      subst h
      have hnil : is_R_NilValue .nil = true := rfl
      simp only [along_types, hnil, Bool.not_true, Bool.false_eq_true, if_false] at ht
      split at ht
      · injection ht with ht; subst ht; simp
      · exact absurd ht (by simp)
    · simp only [] at h
      split at h
      · rename_i d1 hl
        injection h with h
        subst h
        exact along_loop_nil_error hl a j
      · exact absurd h (by simp)

/-- Witness for C10: the single entry with start 3 and count 0, on an axis of
extent 10. -/
theorem count_check_witness :
    check_starts_counts_along 0 1 [10] (.list [.int [3]]) (.list [.int [0]]) ⟨[0], [0], 1⟩ =
      .error (.count_not_positive 0 0) :=
  (count_check 0 1 [10] (.list [.int [3]]) ⟨[0], [0], 1⟩).1 (.list [.int [0]]) 0 ⟨0, 1, 0⟩ 3 0
    (by decide) (by decide) (by decide) (by decide) (by decide) (by decide) (by decide)
    (by decide)

/-! ## The enumeration of the regions -/

theorem getD_append_cons {α : Type} (pre : List α) (x : α) (xs : List α) (d : α) :
    (pre ++ x :: xs).getD pre.length d = x := by
  induction pre with
  | nil => rfl
  | cons p pre ih => simpa using ih

theorem set_append_cons {α : Type} (pre : List α) (x y : α) (xs : List α) :
    (pre ++ x :: xs).set pre.length y = pre ++ y :: xs := by
  induction pre with
  | nil => rfl
  | cons p pre ih => simp

theorem digits_zero (ns : List Nat) : digits ns 0 = List.replicate ns.length 0 := by
  induction ns with
  | nil => rfl
  | cons n ns ih => simp [digits, ih, List.replicate_succ]

theorem digits_length (ns : List Nat) (k : Nat) : (digits ns k).length = ns.length := by
  induction ns generalizing k with
  | nil => rfl
  | cons n ns ih => simp [digits, ih]

theorem prod_pos_of_pos {ns : List Nat} (h : ∀ n ∈ ns, 1 ≤ n) : 1 ≤ ns.prod := by
  induction ns with
  | nil => simp
  | cons n ns ih =>
    simp only [List.prod_cons]
    have h1 := h n (by simp)
    have h2 := ih (fun m hm => h m (by simp [hm]))
    exact Nat.mul_pos h1 h2

/-- One call of `next_region` on the combination of rank `k` gives the combination
of rank `k + 1`, or reports the end of the enumeration and leaves the all-zero
combination. -/
theorem next_region_loop_digits (ns npre pre : List Nat) (k : Nat)
    (hlen : npre.length = pre.length) (hpos : ∀ n ∈ ns, 1 ≤ n) (hk : k < ns.prod) :
    next_region_loop (npre ++ ns) ns.length pre.length (pre ++ digits ns k) =
      (decide (k + 1 < ns.prod), pre ++ digits ns ((k + 1) % ns.prod)) := by
  induction ns generalizing npre pre k with
  | nil =>
    simp only [List.prod_nil, Nat.lt_one_iff] at hk
    subst hk
    simp [next_region_loop, digits]
  | cons n ns ih =>
    have hn : 1 ≤ n := hpos n (by simp)
    have hP : 1 ≤ ns.prod := prod_pos_of_pos (fun m hm => hpos m (by simp [hm]))
    simp only [List.prod_cons] at hk ⊢
    have hq : k / n < ns.prod := by
      rw [Nat.div_lt_iff_lt_mul (by omega)]
      rw [Nat.mul_comm]; exact hk
    have hr : k % n < n := Nat.mod_lt _ (by omega)
    have hdm : n * (k / n) + k % n = k := Nat.div_add_mod k n
    simp only [List.length_cons, next_region_loop, digits]
    rw [getD_append_cons, ← hlen, getD_append_cons, hlen, set_append_cons, set_append_cons]
    by_cases hlt : k % n + 1 < n
    · rw [if_pos hlt]
      have hle : n * (k / n + 1) ≤ n * ns.prod := Nat.mul_le_mul_left _ hq
      have hk1 : k + 1 < n * ns.prod := by
        rw [Nat.mul_add, Nat.mul_one] at hle; omega
      have hmod : (k + 1) % n = k % n + 1 := by
        rw [← hdm, Nat.add_assoc, Nat.mul_add_mod]
        rw [hdm]; exact Nat.mod_eq_of_lt hlt
      have hdiv : (k + 1) / n = k / n := by
        rw [← hdm, Nat.add_assoc, Nat.mul_add_div (by omega)]
        rw [hdm, Nat.div_eq_of_lt hlt]; rfl
      simp only [Nat.mod_eq_of_lt hk1, hmod, hdiv, hk1, decide_True]
    · rw [if_neg hlt]
      have hrn : k % n + 1 = n := by omega
      have hk1 : k + 1 = n * (k / n + 1) := by
        rw [Nat.mul_add, Nat.mul_one]; omega
      have := ih (npre ++ [n]) (pre ++ [0]) (k / n) (by simp [hlen])
        (fun m hm => hpos m (by simp [hm])) hq
      simp only [List.append_assoc, List.singleton_append, List.length_append,
        List.length_singleton] at this
      rw [this]
      by_cases hlast : k / n + 1 < ns.prod
      · have hlt2 : k + 1 < n * ns.prod := by
          rw [hk1]; exact Nat.mul_lt_mul_of_pos_left hlast (by omega)
        have hmod : (k + 1) % n = 0 := by rw [hk1]; exact Nat.mul_mod_right _ _
        have hdiv : (k + 1) / n = k / n + 1 := by
          rw [hk1]; exact Nat.mul_div_cancel_left _ (by omega)
        simp only [hlast, hlt2, Nat.mod_eq_of_lt, hmod, hdiv, decide_True]
      · have heq : k / n + 1 = ns.prod := by omega
        have hk2 : k + 1 = n * ns.prod := by rw [hk1, heq]
        have hnlt : ¬ k + 1 < n * ns.prod := by omega
        simp only [heq, hk2, Nat.mod_self, Nat.zero_mod, Nat.zero_div, Nat.lt_irrefl]

theorem next_region_digits (ns : List Nat) (k : Nat) (hpos : ∀ n ∈ ns, 1 ≤ n)
    (hk : k < ns.prod) :
    next_region ns.length ns (digits ns k) =
      (decide (k + 1 < ns.prod), digits ns ((k + 1) % ns.prod)) := by
  have := next_region_loop_digits ns [] [] k rfl hpos hk
  simpa [next_region] using this

theorem region_sequence_digits (ns : List Nat) (hpos : ∀ n ∈ ns, 1 ≤ n) (fuel k : Nat)
    (hk : k < ns.prod) (hfuel : ns.prod - k ≤ fuel) :
    region_sequence ns.length ns fuel (digits ns k) =
      some ((List.range' k (ns.prod - k)).map (digits ns)) := by
  induction fuel generalizing k with
  | zero => omega
  | succ fuel ih =>
    simp only [region_sequence, next_region_digits ns k hpos hk]
    by_cases hlt : k + 1 < ns.prod
    · simp only [hlt, decide_True, if_true, Nat.mod_eq_of_lt hlt]
      rw [ih (k + 1) hlt (by omega)]
      have : ns.prod - k = (ns.prod - (k + 1)) + 1 := by omega
      rw [this, List.range'_succ]
      simp
    · have : ns.prod - k = 1 := by omega
      simp [hlt, this]

theorem rank_of_digits (ns : List Nat) (k : Nat) (hk : k < ns.prod) :
    rank_of ns (digits ns k) = k := by
  induction ns generalizing k with
  | nil => simp at hk; simp [rank_of, hk]
  | cons n ns ih =>
    simp only [List.prod_cons] at hk
    have hn : 0 < n := by
      rcases Nat.eq_zero_or_pos n with h | h
      · subst h; simp at hk
      · exact h
    have hq : k / n < ns.prod := by
      rw [Nat.div_lt_iff_lt_mul hn, Nat.mul_comm]; exact hk
    simp only [digits, rank_of, ih _ hq]
    exact Nat.mod_add_div k n

theorem digits_rank_of (ns is : List Nat) (h : List.Forall₂ (fun i n => i < n) is ns) :
    digits ns (rank_of ns is) = is ∧ rank_of ns is < ns.prod := by
  induction h with
  | nil => simp [digits, rank_of]
  | @cons i n is ns hin _ ih =>
    simp only [digits, rank_of, List.prod_cons]
    have hn : 0 < n := by omega
    rw [Nat.add_mul_mod_self_left, Nat.mod_eq_of_lt hin, Nat.add_mul_div_left _ _ hn,
      Nat.div_eq_of_lt hin, Nat.zero_add, ih.1]
    refine ⟨rfl, ?_⟩
    have h1 : n * (rank_of ns is + 1) ≤ n * ns.prod := Nat.mul_le_mul_left _ ih.2
    rw [Nat.mul_add, Nat.mul_one] at h1
    omega

theorem digits_bounded (ns : List Nat) (hpos : ∀ n ∈ ns, 1 ≤ n) (k : Nat) :
    List.Forall₂ (fun i n => i < n) (digits ns k) ns := by
  induction ns generalizing k with
  | nil => exact List.Forall₂.nil
  | cons n ns ih =>
    exact List.Forall₂.cons (Nat.mod_lt _ (hpos n (by simp)))
      (ih (fun m hm => hpos m (by simp [hm])) _)

/-- C3: when every axis has at least one region, the sequence of values of
`region_idx`, from the all-zero combination until `next_region` returns `0`, is
produced within `n_0 * ... * n_{R-1}` iterations and its `k`-th element is the
mixed-radix representation of `k` with axis 0 as least significant digit; it
has no repetition, and its elements are exactly the tuples `(i_0, ..., i_{R-1})`
with `i_d < n_d` on every axis. -/
theorem region_sequence_enumerates (nregion : List Nat) (fuel : Nat)
    (hpos : ∀ n ∈ nregion, 1 ≤ n) (hfuel : nregion.prod ≤ fuel) :
    region_sequence nregion.length nregion fuel (List.replicate nregion.length 0) =
      some ((List.range nregion.prod).map (digits nregion)) ∧
    ((List.range nregion.prod).map (digits nregion)).Nodup ∧
    ∀ is : List Nat, is ∈ (List.range nregion.prod).map (digits nregion) ↔
      List.Forall₂ (fun i n => i < n) is nregion := by
  have hP := prod_pos_of_pos hpos
  refine ⟨?_, ?_, ?_⟩
  · rw [← digits_zero, region_sequence_digits nregion hpos fuel 0 (by omega) (by omega),
      List.range_eq_range']
    simp
  · apply List.Nodup.map_on _ (List.nodup_range _)
    intro x hx y hy hxy
    rw [List.mem_range] at hx hy
    rw [← rank_of_digits nregion x hx, ← rank_of_digits nregion y hy, hxy]
  · intro is
    constructor
    · intro h
      obtain ⟨k, _, rfl⟩ := List.mem_map.mp h
      exact digits_bounded nregion hpos k
    · intro h
      have := digits_rank_of nregion is h
      exact List.mem_map.mpr ⟨rank_of nregion is, List.mem_range.mpr this.2, this.1⟩

/-- Witness for C3: two axes, with 2 and 3 regions. -/
theorem region_sequence_enumerates_witness :
    region_sequence 2 [2, 3] 6 [0, 0] =
      some [[0, 0], [1, 0], [0, 1], [1, 1], [0, 2], [1, 2]] :=
  (region_sequence_enumerates [2, 3] 6 (by decide) (by decide)).1

/-! ## The construction of the selection -/

theorem Store.issue_ok {st : Store} (h : st.no_failure) (c : H5Call) :
    (st.issue c).1 = true ∧ (st.issue c).2.no_failure ∧
      (st.issue c).2.calls = st.calls ++ [c] ∧ (st.issue c).2.printed = st.printed ∧
      (st.issue c).2.failing = st.failing ∧ (st.issue c).2.dset_dims = st.dset_dims := by
  refine ⟨?_, ?_, rfl, rfl, rfl, rfl⟩
  · simp only [Store.issue, decide_eq_true_eq]
    intro hmem
    exact absurd (h _ hmem) (Nat.lt_irrefl _)
  · intro j hj
    have := h j hj
    simp only [Store.issue, List.length_append, List.length_singleton]
    omega

theorem hyperslabs_append (cs ds : List H5Call) :
    hyperslabs (cs ++ ds) = hyperslabs cs ++ hyperslabs ds := by
  induction cs with
  | nil => rfl
  | cons c cs ih => cases c <;> simp [hyperslabs, ih]

theorem regions_loop_run (starts counts : SEXP) (ns : List Nat) (hpos : ∀ n ∈ ns, 1 ≤ n)
    (fuel k : Nat) (v : RegionVars) (hk : k < ns.prod) (hfuel : ns.prod - k ≤ fuel)
    (hidx : v.region_idx = digits ns k) (hst : v.st.no_failure) :
    ∃ v1, regions_loop ns.length starts counts ns fuel v = some (.ok (), v1) ∧
      v1.st.no_failure ∧
      (hyperslabs v1.st.calls).length = (hyperslabs v.st.calls).length + (ns.prod - k) ∧
      v1.st.calls.length = v.st.calls.length + (ns.prod - k) ∧
      v1.n = (v.n + (ns.prod - k)) % HSIZE_MOD ∧
      v1.st.printed = v.st.printed ∧ v1.st.failing = v.st.failing ∧
      v1.st.dset_dims = v.st.dset_dims := by
  induction fuel generalizing k v with
  | zero => omega
  | succ fuel ih =>
    obtain ⟨st, idx, bufs, n⟩ := v
    simp only at hidx hst
    subst hidx
    obtain ⟨h1, h2, h3, h4, h5, h6⟩ := Store.issue_ok hst
      (.H5Sselect_hyperslab
        (fill_bufs ns.length starts counts (digits ns k) ns.length 0 bufs).offset_buf
        (fill_bufs ns.length starts counts (digits ns k) ns.length 0 bufs).count_buf)
    simp only [regions_loop, add_region_to_read, h1, if_true,
      next_region_digits ns k hpos hk]
    by_cases hlt : k + 1 < ns.prod
    · simp only [hlt, decide_True, if_true, Nat.mod_eq_of_lt hlt]
      obtain ⟨v1, e1, e2, e3, e4, e5, e6, e7, e8⟩ := ih (k + 1) ⟨_, _, _, _⟩ hlt (by omega) rfl h2
      refine ⟨v1, e1, e2, ?_, ?_, ?_, ?_, ?_, ?_⟩
      · rw [e3]; simp only [h3, hyperslabs_append, List.length_append, hyperslabs,
          List.length_cons, List.length_nil]; omega
      · rw [e4]; simp only [h3, List.length_append, List.length_singleton]; omega
      · rw [e5]; simp only [HSIZE_MOD]; omega
      · rw [e6, h4]
      · rw [e7, h5]
      · rw [e8, h6]
    · have hone : ns.prod - k = 1 := by omega
      simp only [hlt, decide_False, Bool.false_eq_true, if_false, hone]
      refine ⟨_, rfl, h2, ?_, ?_, rfl, h4, h5, h6⟩
      · simp only [h3, hyperslabs_append, List.length_append, hyperslabs,
          List.length_cons, List.length_nil]
      · simp only [h3, List.length_append, List.length_singleton]

theorem any_zero_iff (ns : List Nat) :
    (List.range ns.length).any (fun along => ns.getD along 0 == 0) = true ↔ 0 ∈ ns := by
  simp only [List.any_eq_true, List.mem_range, beq_iff_eq]
  constructor
  · rintro ⟨a, ha, h0⟩
    rw [List.getD_eq_getElem _ _ ha] at h0
    rw [← h0]
    exact List.getElem_mem _
  · intro h
    obtain ⟨a, ha, h0⟩ := List.getElem_of_mem h
    exact ⟨a, ha, by rw [List.getD_eq_getElem _ _ ha, h0]⟩

/-- C2: when no call to the store fails, `set_regions_to_read` returns success
within `n_0 * ... * n_{R-1}` iterations of its loop, and the number of hyperslabs
that it has unioned into the selection is that product: none when some `n_d` is
`0`, and otherwise one for each of the iterations, whose number (modulo `2^64`,
the counter being a `long long unsigned`) is printed. -/
theorem hyperslab_count (st : Store) (starts counts : SEXP) (nregion : List Nat) (fuel : Nat)
    (hst : ∀ j ∈ st.failing, j < st.calls.length) (hfuel : nregion.prod ≤ fuel) :
    ∃ st1, set_regions_to_read fuel st nregion.length starts counts nregion =
        some (.ok (), st1) ∧
      (hyperslabs st1.calls).length = (hyperslabs st.calls).length + nregion.prod ∧
      st1.calls.length = st.calls.length + 1 + nregion.prod ∧
      (0 ∈ nregion → hyperslabs st1.calls = hyperslabs st.calls ∧ st1.printed = st.printed) ∧
      (0 ∉ nregion → st1.printed = st.printed ++ [nregion.prod % HSIZE_MOD]) := by
  obtain ⟨h1, h2, h3, h4, h5, h6⟩ := Store.issue_ok hst .H5Sselect_none
  unfold set_regions_to_read
  simp only [h1, Bool.not_true, Bool.false_eq_true, if_false]
  by_cases hz : 0 ∈ nregion
  · have hp : nregion.prod = 0 := List.prod_eq_zero hz
    rw [if_pos ((any_zero_iff nregion).mpr hz)]
    refine ⟨_, rfl, ?_, ?_, ?_, ?_⟩
    · simp [h3, hyperslabs_append, hyperslabs, hp]
    · simp [h3, hp]
    · intro _; exact ⟨by simp [h3, hyperslabs_append, hyperslabs], h4⟩
    · intro h; exact absurd hz h
  · rw [if_neg (fun h => hz ((any_zero_iff nregion).mp h))]
    have hpos : ∀ n ∈ nregion, 1 ≤ n := by
      intro n hn
      rcases Nat.eq_zero_or_pos n with h | h
      · subst h; exact absurd hn hz
      · exact h
    have hP := prod_pos_of_pos hpos
    obtain ⟨v1, e1, e2, e3, e4, e5, e6, e7, e8⟩ := regions_loop_run starts counts nregion hpos
      fuel 0 ⟨(st.issue .H5Sselect_none).2, List.replicate nregion.length 0,
        ⟨List.replicate nregion.length 0, List.replicate nregion.length 1⟩, 0⟩
      (by omega) (by omega) (digits_zero nregion).symm h2
    simp only [e1]
    refine ⟨_, rfl, ?_, ?_, ?_, ?_⟩
    · simp only [e3, h3, hyperslabs_append, hyperslabs, List.length_append, List.length_nil]
      omega
    · simp only [e4, h3, List.length_append, List.length_singleton]
      omega
    · intro h; exact absurd h hz
    · intro _
      simp only [e5, e6, h4, Nat.zero_add, Nat.sub_zero]

/-- Witness for C2: two axes, with 2 and 3 regions, on a fresh store. -/
theorem hyperslab_count_witness :
    ∃ st1, set_regions_to_read 6 ⟨[10, 20], [], [], []⟩ 2 (.list [.int [1, 3], .int [2, 4, 6]])
        .nil [2, 3] = some (.ok (), st1) ∧
      (hyperslabs st1.calls).length = 6 := by
  obtain ⟨st1, h1, h2, _⟩ := hyperslab_count ⟨[10, 20], [], [], []⟩
    (.list [.int [1, 3], .int [2, 4, 6]]) .nil [2, 3] 6 (by decide) (by decide)
  exact ⟨st1, h1, h2⟩

/-! ## Acceptance of the well-formed descriptions -/

theorem getD_set {α : Type} (l : List α) (a d : Nat) (x dflt : α) (ha : a < l.length) :
    (l.set a x).getD d dflt = if d = a then x else l.getD d dflt := by
  simp only [List.getD_eq_getElem?_getD, List.getElem?_set]
  by_cases h : a = d
  · subst h; simp [ha]
  · have h2 : ¬ d = a := fun e => h e.symm
    simp [h, h2]

/-- What a successful iteration of the loop of `check_starts_counts_along` has
checked and computed. -/
theorem along_body_ok {along dset_rank : Nat} {dset_dims : List Nat} {starts counts : SEXP}
    {i : Nat} {v v1 : AlongVars} (hvc : is_R_NilValue counts = true → v.c = 1)
    (h : along_body along dset_rank dset_dims (VECTOR_ELT starts along) counts
      (VECTOR_ELT counts along) i v = .ok v1) :
    get_elt_as_llint (VECTOR_ELT starts along) i .starts along =
        .ok (axis_start starts along i) ∧
      (is_R_NilValue counts = false →
        get_elt_as_llint (VECTOR_ELT counts along) i .counts along =
          .ok (axis_count counts along i)) ∧
      v.e < axis_start starts along i ∧ 0 < axis_count counts along i ∧
      to_hsize (wrap64 (axis_start starts along i + axis_count counts along i - 1)) ≤
        dset_dims.getD (dset_rank - 1 - along) 0 ∧
      wrap64 (v.count_sum + axis_count counts along i) ≤ INT_MAX ∧
      v1 = ⟨wrap64 (v.count_sum + axis_count counts along i), axis_count counts along i,
        wrap64 (axis_start starts along i + axis_count counts along i - 1)⟩ := by
  unfold along_body at h
  split at h
  · exact absurd h (by simp)
  · rename_i s hs
    have hs2 : axis_start starts along i = s := by simp [axis_start, hs]
    split at h
    · exact absurd h (by simp)
    · rename_i hlt
      simp only [] at h
      cases hn : is_R_NilValue counts with
      | true =>
        have hc2 : axis_count counts along i = 1 := by simp [axis_count, hn]
        simp only [hn, Bool.not_true, Bool.false_eq_true, if_false, hvc hn] at h
        split at h
        · exact absurd h (by simp)
        · rename_i hb
          split at h
          · exact absurd h (by simp)
          · rename_i hsum
            injection h with h
            rw [hs2, hc2]
            exact ⟨hs, fun h => absurd h (by simp), by omega, by omega, by omega, by omega,
              h.symm⟩
      | false =>
        simp only [hn, Bool.not_false, if_true] at h
        split at h
        · exact absurd h (by simp)
        · rename_i c hc
          split at hc
          · exact absurd hc (by simp)
          · rename_i c0 hc0
            split at hc
            · exact absurd hc (by simp)
            · rename_i hpos
              injection hc with hc
              subst hc
              have hc2 : axis_count counts along i = c0 := by simp [axis_count, hn, hc0]
              split at h
              · exact absurd h (by simp)
              · rename_i hb
                split at h
                · exact absurd h (by simp)
                · rename_i hsum
                  injection h with h
                  rw [hs2, hc2]
                  exact ⟨hs, fun _ => hc0, by omega, by omega, by omega, by omega, h.symm⟩
/-- Every entry passed by the loop of `check_starts_counts_along` converts to an
integer, and its count is positive. -/
theorem along_loop_entries {along dset_rank : Nat} {dset_dims : List Nat}
    {starts counts : SEXP} {k i : Nat} {v v1 : AlongVars}
    (hvc : is_R_NilValue counts = true → v.c = 1)
    (h : along_loop along dset_rank dset_dims (VECTOR_ELT starts along) counts
      (VECTOR_ELT counts along) k i v = .ok v1) :
    ∀ j, i ≤ j → j < i + k →
      get_elt_as_llint (VECTOR_ELT starts along) j .starts along =
          .ok (axis_start starts along j) ∧
        (is_R_NilValue counts = false →
          get_elt_as_llint (VECTOR_ELT counts along) j .counts along =
            .ok (axis_count counts along j)) ∧
        0 < axis_count counts along j := by
  induction k generalizing i v with
  | zero => intro j h1 h2; omega
  | succ k ih =>
    simp only [along_loop] at h
    split at h
    · exact absurd h (by simp)
    · rename_i v2 hb
      obtain ⟨b1, b2, _, b4, _, _, b7⟩ := along_body_ok hvc hb
      intro j h1 h2
      by_cases hj : j = i
      · subst hj; exact ⟨b1, b2, b4⟩
      · have hnil : is_R_NilValue counts = true → axis_count counts along i = 1 := by
          intro hn; simp [axis_count, hn]
        exact ih (fun hn => by rw [b7]; exact hnil hn) h j (by omega) (by omega)

/-- On an axis whose extent is below `2^63`, the loop of
`check_starts_counts_along` computes without overflow: the intervals that it
passes are ascending and inside the extent, and the sum that it returns is
exact. -/
theorem along_loop_exact {along dset_rank : Nat} {dset_dims : List Nat}
    {starts counts : SEXP}
    (hext : dset_dims.getD (dset_rank - 1 - along) 0 < 9223372036854775808)
    {k i : Nat} {v v1 : AlongVars}
    (hvc : is_R_NilValue counts = true → v.c = 1)
    (he0 : 0 ≤ v.e) (he1 : v.e ≤ (dset_dims.getD (dset_rank - 1 - along) 0 : Int))
    (hs0 : 0 ≤ v.count_sum) (hs1 : v.count_sum ≤ INT_MAX) (hse : v.count_sum ≤ v.e)
    (h : along_loop along dset_rank dset_dims (VECTOR_ELT starts along) counts
      (VECTOR_ELT counts along) k i v = .ok v1) :
    v1.count_sum = v.count_sum + ((List.range' i k).map (axis_count counts along)).sum ∧
      0 ≤ v1.count_sum ∧ v1.count_sum ≤ INT_MAX ∧
      (0 < k → v.e < axis_start starts along i) ∧
      (∀ j, i ≤ j → j < i + k →
        axis_start starts along j + axis_count counts along j - 1 ≤
          (dset_dims.getD (dset_rank - 1 - along) 0 : Int)) ∧
      (∀ j, i ≤ j → j + 1 < i + k →
        axis_start starts along j + axis_count counts along j - 1 <
          axis_start starts along (j + 1)) := by
  induction k generalizing i v with
  | zero =>
    simp only [along_loop] at h
    injection h with h
    subst h
    exact ⟨by simp, hs0, hs1, fun h => absurd h (by simp), fun j h1 h2 => by omega,
      fun j h1 h2 => by omega⟩
  | succ k ih =>
    simp only [along_loop] at h
    split at h
    · exact absurd h (by simp)
    · rename_i v2 hb
      obtain ⟨b1, b2, b3, b4, b5, b6, b7⟩ := along_body_ok hvc hb
      have hsr := get_elt_as_llint_range b1
      have hcr : axis_count counts along i < 9223372036854775808 := by
        cases hn : is_R_NilValue counts with
        | true => simp [axis_count, hn]
        | false => exact (get_elt_as_llint_range (b2 hn)).2
      rw [to_hsize_wrap64] at b5
      have hE := @to_hsize_eq (axis_start starts along i + axis_count counts along i - 1)
        (by omega) (by omega)
      have hwE : wrap64 (axis_start starts along i + axis_count counts along i - 1) =
          axis_start starts along i + axis_count counts along i - 1 :=
        wrap64_eq_self (by omega) (by omega)
      simp only [INT_MAX] at hs1 b6
      have hwS : wrap64 (v.count_sum + axis_count counts along i) =
          v.count_sum + axis_count counts along i := wrap64_eq_self (by omega) (by omega)
      rw [hwE, hwS] at b7
      rw [hwS] at b6
      have hnil : is_R_NilValue counts = true → axis_count counts along i = 1 := by
        intro hn; simp [axis_count, hn]
      subst b7
      obtain ⟨e1, e2, e3, e4, e5, e6⟩ := ih (i := i + 1) (fun hn => hnil hn) (by simp only []; omega)
        (by simp only []; omega) (by simp only []; omega) (by simp only [INT_MAX]; omega)
        (by simp only []; omega) h
      simp only [] at e1 e4
      refine ⟨?_, e2, e3, fun _ => b3, ?_, ?_⟩
      · rw [e1, List.range'_succ, List.map_cons, List.sum_cons]; omega
      · intro j h1 h2
        by_cases hj : j = i
        · subst hj; omega
        · exact e5 j (by omega) (by omega)
      · intro j h1 h2
        by_cases hj : j = i
        · subst hj; exact e4 (by omega)
        · exact e6 j (by omega) (by omega)

theorem wrap64_mul_wrap64 (a b : Int) : wrap64 (wrap64 a * b) = wrap64 (a * b) := by
  have h1 : wrap64 a % 18446744073709551616 = a % 18446744073709551616 := by
    unfold wrap64; omega
  have h2 : (wrap64 a * b) % 18446744073709551616 = (a * b) % 18446744073709551616 := by
    rw [Int.mul_emod, h1, ← Int.mul_emod]
  have h3 : ∀ x y : Int, x % 18446744073709551616 = y % 18446744073709551616 →
      wrap64 x = wrap64 y := by
    intro x y h; unfold wrap64; omega
  exact h3 _ _ h2

/-- What a successful call of `check_starts_counts_along` has done. -/
theorem check_along_ok {along dset_rank : Nat} {dset_dims : List Nat} {starts counts : SEXP}
    {t t1 : Tables}
    (h : check_starts_counts_along along dset_rank dset_dims starts counts t = .ok t1) :
    along_types along starts counts = .ok () ∧
      ∃ v1, along_loop along dset_rank dset_dims (VECTOR_ELT starts along) counts
          (VECTOR_ELT counts along) (LENGTH (VECTOR_ELT starts along)) 0 ⟨0, 1, 0⟩ = .ok v1 ∧
        t1 = { t with nregion := t.nregion.set along (LENGTH (VECTOR_ELT starts along)),
                      count_sums := t.count_sums.set along (wrap32 v1.count_sum) } := by
  unfold check_starts_counts_along at h
  split at h
  · exact absurd h (by simp)
  · rename_i ht
    simp only [] at h
    split at h
    · exact absurd h (by simp)
    · rename_i v1 hl
      injection h with h
      exact ⟨ht, v1, hl, h.symm⟩

/-- What a successful run of the loop of `deep_check_starts_counts` has done:
every axis from `along` on has been accepted, its entries of `nregion` and
`count_sums` have been set, the entries of the axes before `along` are
untouched, and the length is the wrapped product. -/
theorem deep_loop_ok {dset_rank : Nat} {dset_dims : List Nat} {starts counts : SEXP}
    {k along : Nat} {t t1 : Tables} (hk : along + k = dset_rank)
    (hnr : t.nregion.length = dset_rank) (hcs : t.count_sums.length = dset_rank)
    (hal : wrap64 t.ans_len = t.ans_len)
    (h : deep_loop dset_rank dset_dims starts counts k along t = .ok t1) :
    (∀ d, along ≤ d → d < dset_rank →
      along_types d starts counts = .ok () ∧
      t1.nregion.getD d 0 = LENGTH (VECTOR_ELT starts d) ∧
      ∃ v1, along_loop d dset_rank dset_dims (VECTOR_ELT starts d) counts
          (VECTOR_ELT counts d) (LENGTH (VECTOR_ELT starts d)) 0 ⟨0, 1, 0⟩ = .ok v1 ∧
        t1.count_sums.getD d 0 = wrap32 v1.count_sum) ∧
    (∀ d, d < along → t1.nregion.getD d 0 = t.nregion.getD d 0 ∧
      t1.count_sums.getD d 0 = t.count_sums.getD d 0) ∧
    t1.ans_len = wrap64 (t.ans_len *
      ((List.range' along k).map (fun d => t1.count_sums.getD d 0)).prod) := by
  induction k generalizing along t with
  | zero =>
    simp only [deep_loop] at h
    injection h with h
    subst h
    exact ⟨fun d h1 h2 => by omega, fun d _ => ⟨rfl, rfl⟩, by simp [hal]⟩
  | succ k ih =>
    simp only [deep_loop] at h
    split at h
    · exact absurd h (by simp)
    · rename_i t2 hc
      obtain ⟨c1, v1, c2, c3⟩ := check_along_ok hc
      subst c3
      simp only [] at h
      have hlt1 : along < t.nregion.length := by omega
      have hlt2 : along < t.count_sums.length := by omega
      obtain ⟨e1, e2, e3⟩ := @ih (along + 1) _ (by omega) (by simp [hnr]) (by simp [hcs])
        (by
          simp only []
          have := wrap64_range (t.ans_len *
            (t.count_sums.set along (wrap32 v1.count_sum)).getD along 0)
          exact wrap64_eq_self this.1 this.2) h
      simp only [] at e2 e3
      have hat := e2 along (by omega)
      rw [getD_set _ _ _ _ _ hlt1, getD_set _ _ _ _ _ hlt2] at hat
      simp only [if_true] at hat
      refine ⟨?_, ?_, ?_⟩
      · intro d h1 h2
        by_cases hd : d = along
        · subst hd
          exact ⟨c1, hat.1, v1, c2, hat.2⟩
        · exact e1 d (by omega) h2
      · intro d hd
        have := e2 d (by omega)
        rw [getD_set _ _ _ _ _ hlt1, getD_set _ _ _ _ _ hlt2] at this
        have hne : ¬ d = along := by omega
        simpa [hne] using this
      · rw [e3, getD_set _ _ _ _ _ hlt2]
        simp only [if_true]
        rw [wrap64_mul_wrap64, List.range'_succ, List.map_cons, List.prod_cons, hat.2,
          Int.mul_assoc]

/-- What an accepted description satisfies, whatever the extents: every axis has
passed `check_starts_counts_along`, `nregion[d]` is its number of intervals,
every entry converts to an integer and every count is positive, and `ans_len`
is the product of the entries of `count_sums`, reduced to 64 bits. -/
theorem deep_check_ok {dset_rank : Nat} {dset_dims : List Nat} {starts counts : SEXP}
    {nregion : List Nat} {count_sums : List Int} {t : Tables}
    (hnr : nregion.length = dset_rank) (hcs : count_sums.length = dset_rank)
    (h : deep_check_starts_counts dset_rank dset_dims starts counts nregion count_sums =
      .ok t) :
    (∀ d, d < dset_rank →
      t.nregion.getD d 0 = LENGTH (VECTOR_ELT starts d) ∧
      (∃ v1, along_loop d dset_rank dset_dims (VECTOR_ELT starts d) counts
          (VECTOR_ELT counts d) (LENGTH (VECTOR_ELT starts d)) 0 ⟨0, 1, 0⟩ = .ok v1 ∧
        t.count_sums.getD d 0 = wrap32 v1.count_sum) ∧
      ∀ i, i < LENGTH (VECTOR_ELT starts d) →
        get_elt_as_llint (VECTOR_ELT starts d) i .starts d = .ok (axis_start starts d i) ∧
        (is_R_NilValue counts = false →
          get_elt_as_llint (VECTOR_ELT counts d) i .counts d =
            .ok (axis_count counts d i)) ∧
        0 < axis_count counts d i) ∧
    t.ans_len =
      wrap64 ((List.range dset_rank).map (fun d => t.count_sums.getD d 0)).prod := by
  unfold deep_check_starts_counts at h
  split at h
  · exact absurd h (by simp)
  · split at h
    · exact absurd h (by simp)
    · have hone : wrap64 1 = 1 := by decide
      obtain ⟨e1, _, e3⟩ := @deep_loop_ok dset_rank dset_dims starts counts
        dset_rank 0 { nregion := nregion, count_sums := count_sums, ans_len := 1 } t
        (by omega) hnr hcs hone h
      refine ⟨fun d hd => ?_, ?_⟩
      · obtain ⟨_, a2, v1, a3, a4⟩ := e1 d (Nat.zero_le _) hd
        refine ⟨a2, ⟨v1, a3, a4⟩, fun i hi => ?_⟩
        exact along_loop_entries (fun _ => rfl) a3 i (Nat.zero_le _) (by omega)
      · simpa [List.range_eq_range'] using e3

/-- On an axis whose extent is below `2^63`, an accepted description is
well-formed and its count sum is exact: the intervals are ascending, disjoint
and inside the extent, the first start is at least `1`, and `count_sums[d]` is
the exact sum of the counts, which is at most `INT_MAX`. -/
theorem deep_check_exact {dset_rank : Nat} {dset_dims : List Nat} {starts counts : SEXP}
    {nregion : List Nat} {count_sums : List Int} {t : Tables}
    (hnr : nregion.length = dset_rank) (hcs : count_sums.length = dset_rank)
    (h : deep_check_starts_counts dset_rank dset_dims starts counts nregion count_sums =
      .ok t)
    (d : Nat) (hd : d < dset_rank)
    (hext : dset_dims.getD (dset_rank - 1 - d) 0 < 9223372036854775808) :
    t.count_sums.getD d 0 = exact_count_sum starts counts d ∧
      exact_count_sum starts counts d ≤ INT_MAX ∧
      (0 < LENGTH (VECTOR_ELT starts d) → 1 ≤ axis_start starts d 0) ∧
      (∀ i, i < LENGTH (VECTOR_ELT starts d) →
        axis_start starts d i + axis_count counts d i - 1 ≤
          (dset_dims.getD (dset_rank - 1 - d) 0 : Int)) ∧
      (∀ i, i + 1 < LENGTH (VECTOR_ELT starts d) →
        axis_start starts d i + axis_count counts d i - 1 < axis_start starts d (i + 1)) := by
  obtain ⟨_, ⟨v1, a1, a2⟩, _⟩ := (deep_check_ok hnr hcs h).1 d hd
  obtain ⟨b1, b2, b3, b4, b5, b6⟩ := along_loop_exact hext (fun _ => rfl) (le_refl _)
    (by simp) (le_refl _) (by decide) (le_refl _) a1
  simp only [zero_add] at b1 b4 b5 b6
  have hsum : v1.count_sum = exact_count_sum starts counts d := by
    rw [b1, exact_count_sum, List.range_eq_range']
  simp only [INT_MAX] at b3
  rw [a2, wrap32_eq_self (by omega) (by omega), ← hsum]
  exact ⟨rfl, by simp only [INT_MAX]; omega, fun h => by have := b4 h; omega,
    fun i hi => b5 i (Nat.zero_le _) hi, fun i hi => b6 i (Nat.zero_le _) hi⟩

/-! ## The hyperslab of a combination -/

/-- The conversion to `hsize_t` made by `add_region_to_read` agrees with the
conversion to `long long int` made by the validation. -/
theorem elt_as_hsize_of_get {x : SEXP} {i : Nat} {what : What} {along : Nat} {s : Int}
    (h : get_elt_as_llint x i what along = .ok s) : elt_as_hsize x i = to_hsize s := by
  unfold get_elt_as_llint at h
  unfold elt_as_hsize
  split at h
  · rename_i hint
    split at h
    · exact absurd h (by simp)
    · injection h with h
      rw [if_pos hint, h]
  · rename_i hint
    rw [if_neg hint]
    split at h
    · exact absurd h (by simp)
    · rename_i q hq
      split at h
      · exact absurd h (by simp)
      · injection h with h
        rw [hq, ← h, to_hsize_wrap64]
        rfl

theorem hsize_pred (s : Int) :
    (to_hsize s + HSIZE_MOD - 1) % HSIZE_MOD = to_hsize (s - 1) := by
  unfold to_hsize HSIZE_MOD
  omega

/-- The buffers after the loop of `add_region_to_read`: the slot `R - 1 - d` of
each axis `d` from `along` on has been written, the other slots are untouched,
and `count_buf` is untouched when `counts` is absent. -/
theorem fill_bufs_spec (dset_rank : Nat) (starts counts : SEXP) (region_idx : List Nat)
    (k along : Nat) (b : Bufs) (hk : along + k = dset_rank)
    (hlo : b.offset_buf.length = dset_rank) (hlc : b.count_buf.length = dset_rank) :
    (fill_bufs dset_rank starts counts region_idx k along b).offset_buf.length = dset_rank ∧
    (fill_bufs dset_rank starts counts region_idx k along b).count_buf.length = dset_rank ∧
    (∀ d, d < dset_rank →
      (fill_bufs dset_rank starts counts region_idx k along b).offset_buf.getD
          (dset_rank - 1 - d) 0 =
        if along ≤ d then
          (elt_as_hsize (VECTOR_ELT starts d) (region_idx.getD d 0) + HSIZE_MOD - 1) % HSIZE_MOD
        else b.offset_buf.getD (dset_rank - 1 - d) 0) ∧
    (is_R_NilValue counts = false → ∀ d, d < dset_rank →
      (fill_bufs dset_rank starts counts region_idx k along b).count_buf.getD
          (dset_rank - 1 - d) 0 =
        if along ≤ d then elt_as_hsize (VECTOR_ELT counts d) (region_idx.getD d 0)
        else b.count_buf.getD (dset_rank - 1 - d) 0) ∧
    (is_R_NilValue counts = true →
      (fill_bufs dset_rank starts counts region_idx k along b).count_buf = b.count_buf) := by
  induction k generalizing along b with
  | zero =>
    refine ⟨hlo, hlc, fun d hd => ?_, fun _ d hd => ?_, fun _ => rfl⟩
    · have : ¬ along ≤ d := by omega
      simp [fill_bufs, this]
    · have : ¬ along ≤ d := by omega
      simp [fill_bufs, this]
  | succ k ih =>
    simp only [fill_bufs]
    have hslot : dset_rank - 1 - along < dset_rank := by omega
    cases hn : is_R_NilValue counts with
    | true =>
      simp only [Bool.not_true, Bool.false_eq_true, if_false]
      obtain ⟨e1, e2, e3, _, e5⟩ := ih (along + 1)
        ⟨b.offset_buf.set (dset_rank - 1 - along)
          ((elt_as_hsize (VECTOR_ELT starts along) (region_idx.getD along 0) + HSIZE_MOD - 1) %
            HSIZE_MOD), b.count_buf⟩ (by omega) (by simp [hlo]) hlc
      refine ⟨e1, e2, fun d hd => ?_, fun h => absurd h (by simp), fun _ => e5 hn⟩
      rw [e3 d hd]
      simp only []
      rw [getD_set _ _ _ _ _ (by omega)]
      by_cases h1 : along + 1 ≤ d
      · have : along ≤ d := by omega
        simp [h1, this]
      · by_cases h2 : d = along
        · subst h2; simp
        · have h3 : ¬ along ≤ d := by omega
          have h4 : ¬ dset_rank - 1 - d = dset_rank - 1 - along := by omega
          simp [h1, h3, h4]
    | false =>
      simp only [Bool.not_false, if_true]
      obtain ⟨e1, e2, e3, e4, _⟩ := ih (along + 1)
        ⟨b.offset_buf.set (dset_rank - 1 - along)
          ((elt_as_hsize (VECTOR_ELT starts along) (region_idx.getD along 0) + HSIZE_MOD - 1) %
            HSIZE_MOD),
         b.count_buf.set (dset_rank - 1 - along)
          (elt_as_hsize (VECTOR_ELT counts along) (region_idx.getD along 0))⟩ (by omega)
        (by simp [hlo]) (by simp [hlc])
      refine ⟨e1, e2, fun d hd => ?_, fun _ d hd => ?_, fun h => absurd h (by simp)⟩
      · rw [e3 d hd]
        simp only []
        rw [getD_set _ _ _ _ _ (by omega)]
        by_cases h1 : along + 1 ≤ d
        · have : along ≤ d := by omega
          simp [h1, this]
        · by_cases h2 : d = along
          · subst h2; simp
          · have h3 : ¬ along ≤ d := by omega
            have h4 : ¬ dset_rank - 1 - d = dset_rank - 1 - along := by omega
            simp [h1, h3, h4]
      · rw [e4 hn d hd]
        simp only []
        rw [getD_set _ _ _ _ _ (by omega)]
        by_cases h1 : along + 1 ≤ d
        · have : along ≤ d := by omega
          simp [h1, this]
        · by_cases h2 : d = along
          · subst h2; simp
          · have h3 : ¬ along ≤ d := by omega
            have h4 : ¬ dset_rank - 1 - d = dset_rank - 1 - along := by omega
            simp [h1, h3, h4]

/-- The hyperslab of a combination: for a validated description and a
combination `region_idx` with
`region_idx[d] < nregion[d]` on every axis, the call of `add_region_to_read`
(with scratch buffers of length `R`, `count_buf` holding ones when `counts` is
absent, as `set_regions_to_read` keeps them) unions exactly one hyperslab, which
has, for every caller axis `d`, in slot `R - 1 - d` the offset
`starts[d][region_idx[d]] - 1` and the extent `counts[d][region_idx[d]]`; the
extent is `1` on every axis when `counts` is absent.  The offset is an
`hsize_t`: it is `start - 1` as an unsigned 64-bit value, which is the integer
`start - 1` only when `start >= 1`.  The buffers are left as they were found. -/
theorem hyperslab_of_region (st : Store) (dset_rank : Nat) (dset_dims : List Nat)
    (starts counts : SEXP) (nregion : List Nat) (count_sums : List Int) (t : Tables)
    (region_idx : List Nat) (b : Bufs)
    (hnr : nregion.length = dset_rank) (hcs : count_sums.length = dset_rank)
    (hval : deep_check_starts_counts dset_rank dset_dims starts counts nregion count_sums =
      .ok t)
    (hidx : ∀ d, d < dset_rank → region_idx.getD d 0 < t.nregion.getD d 0)
    (hlo : b.offset_buf.length = dset_rank) (hlc : b.count_buf.length = dset_rank)
    (hone : is_R_NilValue counts = true → b.count_buf = List.replicate dset_rank 1) :
    ∃ offset extent : List Nat,
      (add_region_to_read st dset_rank starts counts region_idx b).2.1.calls =
        st.calls ++ [.H5Sselect_hyperslab offset extent] ∧
      (add_region_to_read st dset_rank starts counts region_idx b).2.2 = ⟨offset, extent⟩ ∧
      offset.length = dset_rank ∧ extent.length = dset_rank ∧
      (is_R_NilValue counts = true → extent = List.replicate dset_rank 1) ∧
      ∀ d, d < dset_rank →
        offset.getD (dset_rank - 1 - d) 0 =
          to_hsize (axis_start starts d (region_idx.getD d 0) - 1) ∧
        (1 ≤ axis_start starts d (region_idx.getD d 0) →
          (offset.getD (dset_rank - 1 - d) 0 : Int) =
            axis_start starts d (region_idx.getD d 0) - 1) ∧
        (extent.getD (dset_rank - 1 - d) 0 : Int) =
          axis_count counts d (region_idx.getD d 0) := by
  obtain ⟨f1, f2, f3, f4, f5⟩ := fill_bufs_spec dset_rank starts counts region_idx dset_rank 0 b
    (by omega) hlo hlc
  refine ⟨(fill_bufs dset_rank starts counts region_idx dset_rank 0 b).offset_buf,
    (fill_bufs dset_rank starts counts region_idx dset_rank 0 b).count_buf, ?_, ?_, f1, f2,
    fun hn => by rw [f5 hn, hone hn], fun d hd => ?_⟩
  · unfold add_region_to_read
    simp only []
    split <;> rfl
  · unfold add_region_to_read
    simp only []
    split <;> rfl
  · obtain ⟨a1, _, a3⟩ := (deep_check_ok hnr hcs hval).1 d hd
    obtain ⟨g1, g2, g3⟩ := a3 (region_idx.getD d 0) (by rw [← a1]; exact hidx d hd)
    have hs := elt_as_hsize_of_get g1
    have hoff := f3 d hd
    simp only [Nat.zero_le, if_true] at hoff
    rw [hs, hsize_pred] at hoff
    have hsr := get_elt_as_llint_range g1
    refine ⟨hoff, fun hpos => ?_, ?_⟩
    · rw [hoff]
      exact to_hsize_eq (by omega) (by omega)
    · cases hn : is_R_NilValue counts with
      | true =>
        rw [f5 hn, hone hn]
        have : dset_rank - 1 - d < dset_rank := by omega
        simp [axis_count, hn, List.getD_eq_getElem?_getD, List.getElem?_replicate, this]
      | false =>
        have hc := f4 hn d hd
        simp only [Nat.zero_le, if_true] at hc
        rw [hc, elt_as_hsize_of_get (g2 hn)]
        exact to_hsize_eq (by omega) (by have := (get_elt_as_llint_range (g2 hn)).2; omega)

/-- An instance of `hyperslab_of_region`: rank 2, start 2 on axis 0 and start 1
on axis 1, counts 1: the hyperslab has storage offset `(0, 1)` and extent
`(1, 1)`. -/
theorem hyperslab_of_region_witness :
    ∃ offset extent : List Nat,
      (add_region_to_read ⟨[10, 20], [], [], []⟩ 2 (.list [.int [2], .int [1]])
        (.list [.int [1], .int [1]]) [0, 0] ⟨[0, 0], [1, 1]⟩).2.2 = ⟨offset, extent⟩ ∧
      (offset.getD 1 0 : Int) = 1 ∧ (offset.getD 0 0 : Int) = 0 ∧
      (extent.getD 1 0 : Int) = 1 ∧ (extent.getD 0 0 : Int) = 1 := by
  obtain ⟨offset, extent, _, h2, _, _, _, h6⟩ := hyperslab_of_region ⟨[10, 20], [], [], []⟩ 2
    [10, 20] (.list [.int [2], .int [1]]) (.list [.int [1], .int [1]]) [0, 0] [0, 0]
    ⟨[1, 1], [1, 1], 1⟩ [0, 0] ⟨[0, 0], [1, 1]⟩ rfl rfl (by decide) (by decide) rfl rfl
    (fun h => absurd h (by decide))
  have h0 := h6 0 (by decide)
  have h1 := h6 1 (by decide)
  exact ⟨offset, extent, h2, h0.2.1 (by decide), h1.2.1 (by decide), h0.2.2, h1.2.2⟩

/-! ## Inputs on which the 64-bit arithmetic of the validation overflows -/

/-- C1: on a dataset of extent `2^63`, with the intervals `(start 1, count 1024)`
and `(start 1025, count 2^63 - 1024)` given as numeric vectors,
`deep_check_starts_counts` succeeds and `h5mread` returns a buffer, but
`count_sums[0]` and the `dim` attribute of the buffer are `0` whereas the exact
sum of the counts is `2^63`: the additions `e = s + c - 1` and `count_sum += c`
have overflowed. -/
theorem count_sums_not_exact :
    exact_count_sum (.list [.real [.finite 1, .finite 1025]])
        (.list [.real [.finite 1024, .finite 9223372036854774784]]) 0 =
      9223372036854775808 ∧
    deep_check_starts_counts 1 [9223372036854775808]
        (.list [.real [.finite 1, .finite 1025]])
        (.list [.real [.finite 1024, .finite 9223372036854774784]]) [0] [0] =
      .ok ⟨[2], [0], 0⟩ ∧
    (h5mread 2 ⟨[9223372036854775808], [], [], []⟩
        (.list [.real [.finite 1, .finite 1025]])
        (.list [.real [.finite 1024, .finite 9223372036854774784]])).map Prod.fst =
      some (.ok ⟨0, [0]⟩) := by
  decide

/-- C6: on a dataset of extent `2^63 + 975`, with counts `(2000, 1)`, the starts
`(2^63 - 1024, 5)` are accepted by `check_starts_counts_along` although the
second start is below the end `2^63 + 975` of the first interval: that end has
overflowed the `long long int` that holds it.  With `counts` absent, the starts
`(5, 5)` and `(5, 3)` are both rejected with the ordering diagnostic. -/
theorem unordered_starts_accepted :
    axis_start (.list [.real [.finite 9223372036854774784, .finite 5]]) 0 1 ≤
      axis_start (.list [.real [.finite 9223372036854774784, .finite 5]]) 0 0 +
        axis_count (.list [.real [.finite 2000, .finite 1]]) 0 0 - 1 ∧
    check_starts_counts_along 0 1 [9223372036854776783]
        (.list [.real [.finite 9223372036854774784, .finite 5]])
        (.list [.real [.finite 2000, .finite 1]]) ⟨[0], [0], 1⟩ =
      .ok ⟨[2], [2001], 1⟩ ∧
    check_starts_counts_along 0 1 [10] (.list [.int [5, 5]]) .nil ⟨[0], [0], 1⟩ =
      .error (.start_not_ascending 0 1) ∧
    check_starts_counts_along 0 1 [10] (.list [.int [5, 3]]) .nil ⟨[0], [0], 1⟩ =
      .error (.start_not_ascending 0 1) := by
  decide

/-- C8: on a dataset of extent `2^63 + 1`, with the intervals
`(start 1, count 1025)` and `(start 1026, count 2^63 - 1024)`, the exact sum of
the counts is `2^63 + 1`, above `INT_MAX`, and `check_starts_counts_along`
succeeds with `count_sums[0] = 1`: the accumulation `count_sum += c` has
wrapped to a negative value, which passes the test `count_sum > INT_MAX`. -/
theorem count_sum_overflow_accepted :
    exact_count_sum (.list [.real [.finite 1, .finite 1026]])
        (.list [.real [.finite 1025, .finite 9223372036854774784]]) 0 =
      9223372036854775809 ∧
    INT_MAX < 9223372036854775809 ∧
    check_starts_counts_along 0 1 [9223372036854775809]
        (.list [.real [.finite 1, .finite 1026]])
        (.list [.real [.finite 1025, .finite 9223372036854774784]]) ⟨[0], [0], 1⟩ =
      .ok ⟨[2], [1], 1⟩ := by
  decide

/-- C9: on a dataset of extents `(2^31 - 1, 2^31 - 1, 2^31 - 1)`, reading the
whole of every axis is accepted by `deep_check_starts_counts`; the exact product
of the count sums, `(2^31 - 1)^3`, exceeds the largest `R_xlen_t`, and `ans_len`
is the wrapped value `4611686024869838847`: the product is not checked. -/
theorem ans_len_wraps :
    deep_check_starts_counts 3 [2147483647, 2147483647, 2147483647]
        (.list [.int [1], .int [1], .int [1]])
        (.list [.int [2147483647], .int [2147483647], .int [2147483647]])
        [0, 0, 0] [0, 0, 0] =
      .ok ⟨[1, 1, 1], [2147483647, 2147483647, 2147483647], 4611686024869838847⟩ ∧
    LLONG_MAX < (2147483647 * 2147483647 * 2147483647 : Int) ∧
    (2147483647 * 2147483647 * 2147483647 : Int) ≠ 4611686024869838847 := by
  decide

/-! ## The answer of `h5mread` -/

theorem shallow_check_ok {starts counts : SEXP} {n : Nat}
    (h : shallow_check_starts_counts starts counts = .ok n) : n = LENGTH starts := by
  unfold shallow_check_starts_counts at h
  split at h
  · exact absurd h (by simp)
  · split at h
    · split at h
      · exact absurd h (by simp)
      · split at h
        · exact absurd h (by simp)
        · injection h with h; exact h.symm
    · injection h with h; exact h.symm

theorem deep_check_rank {dset_rank : Nat} {dset_dims : List Nat} {starts counts : SEXP}
    {nregion : List Nat} {count_sums : List Int} {t : Tables}
    (h : deep_check_starts_counts dset_rank dset_dims starts counts nregion count_sums =
      .ok t) : LENGTH starts = dset_rank := by
  unfold deep_check_starts_counts at h
  split at h
  · exact absurd h (by simp)
  · rename_i hc
    simp only [Bool.not_eq_true, Bool.not_eq_false', Bool.and_eq_true,
      decide_eq_true_eq] at hc
    exact hc.2

/-- A successful `prepare_file_space` has validated the description against the
extents of the dataset. -/
theorem prepare_file_space_ok {fuel : Nat} {st st1 : Store} {starts counts : SEXP}
    {count_sums : List Int} {t : Tables}
    (h : prepare_file_space fuel st starts counts count_sums = some (.ok t, st1)) :
    deep_check_starts_counts st.dset_dims.length st.dset_dims starts counts
      (List.replicate st.dset_dims.length 0) count_sums = .ok t := by
  unfold prepare_file_space at h
  simp only [] at h
  split at h
  · simp at h
  · split at h
    · simp at h
    · split at h
      · simp at h
      · split at h
        · simp at h
        · rename_i t1 hd
          split at h
          · simp at h
          · simp at h
          · simp only [Option.some.injEq, Prod.mk.injEq, Except.ok.injEq] at h
            rw [hd, h.1]

/-- A successful `h5mread` has validated the description; the length of its
answer is `ans_len` and the `dim` attribute of its answer holds the entries of
`count_sums`, in the order of the axes of the caller. -/
theorem h5mread_ok {fuel : Nat} {st st1 : Store} {starts counts : SEXP} {ans : Answer}
    (h : h5mread fuel st starts counts = some (.ok ans, st1)) :
    ∃ t, deep_check_starts_counts st.dset_dims.length st.dset_dims starts counts
        (List.replicate st.dset_dims.length 0) (List.replicate st.dset_dims.length 0) =
        .ok t ∧
      ans.length = t.ans_len ∧
      ans.dim = (List.range st.dset_dims.length).map (fun d => t.count_sums.getD d 0) := by
  unfold h5mread at h
  split at h
  · simp at h
  · rename_i n hsh
    have hn := shallow_check_ok hsh
    split at h
    · simp at h
    · simp at h
    · rename_i t st2 hp
      have hd := prepare_file_space_ok hp
      have hr := deep_check_rank hd
      rw [hn, hr] at hd
      have hans : ans = ⟨t.ans_len,
          (List.range st.dset_dims.length).map (fun d => t.count_sums.getD d 0)⟩ := by
        simp only [] at h
        rw [hn, hr] at h
        split at h
        · split at h
          · simp at h
          · split at h
            · simp at h
            · split at h
              · simp at h
              · simp only [Option.some.injEq, Prod.mk.injEq, Except.ok.injEq] at h
                exact h.1.symm
        · split at h
          · simp at h
          · simp only [Option.some.injEq, Prod.mk.injEq, Except.ok.injEq] at h
            exact h.1.symm
      refine ⟨t, hd, ?_, ?_⟩ <;> rw [hans]

/-- When every extent of the dataset is below `2^63`, the `dim` attribute of the
answer of a successful `h5mread` holds, for each axis of the caller and in the
order of the caller, the exact sum of the counts of the axis. -/
theorem h5mread_dim_exact {fuel : Nat} {st st1 : Store} {starts counts : SEXP} {ans : Answer}
    (h : h5mread fuel st starts counts = some (.ok ans, st1))
    (hext : ∀ e ∈ st.dset_dims, e < 9223372036854775808) :
    ans.dim = (List.range st.dset_dims.length).map (exact_count_sum starts counts) := by
  obtain ⟨t, h1, _, h3⟩ := h5mread_ok h
  rw [h3]
  apply List.map_congr_left
  intro d hd
  rw [List.mem_range] at hd
  have hlt : st.dset_dims.length - 1 - d < st.dset_dims.length := by omega
  have he : st.dset_dims.getD (st.dset_dims.length - 1 - d) 0 < 9223372036854775808 := by
    rw [List.getD_eq_getElem _ _ hlt]
    exact hext _ (List.getElem_mem _)
  exact (deep_check_exact (by simp) (by simp) h1 d hd he).1

/-! ## The guards of the validation when no addition overflows -/

/-- On an axis whose extent is below `2^63`, the variable `e` holds, after the
loop has passed the entries before `i`, the exact end of the interval `i - 1`
(and `0` when `i = 0`). -/
theorem along_loop_end {along dset_rank : Nat} {dset_dims : List Nat} {starts counts : SEXP}
    (hext : dset_dims.getD (dset_rank - 1 - along) 0 < 9223372036854775808)
    {i : Nat} {v : AlongVars}
    (h : along_loop along dset_rank dset_dims (VECTOR_ELT starts along) counts
      (VECTOR_ELT counts along) i 0 ⟨0, 1, 0⟩ = .ok v) :
    (i = 0 → v.e = 0) ∧
    (0 < i → v.e = axis_start starts along (i - 1) + axis_count counts along (i - 1) - 1) := by
  constructor
  · intro hi
    subst hi
    simp only [along_loop] at h
    injection h with h
    subst h
    rfl
  · intro hi
    obtain ⟨k, rfl⟩ : ∃ k, i = k + 1 := ⟨i - 1, by omega⟩
    have hall := along_loop_exact hext (fun _ => rfl) (le_refl _) (by simp) (le_refl _)
      (by decide) (le_refl _) h
    rw [along_loop_add] at h
    split at h
    · exact absurd h (by simp)
    · rename_i v0 h0
      simp only [along_loop, zero_add] at h
      split at h
      · exact absurd h (by simp)
      · rename_i v2 hb
        injection h with h
        subst h
        have hc0 : is_R_NilValue counts = true → v0.c = 1 := by
          intro hn
          have hn2 : counts = .nil := by cases counts <;> simp [is_R_NilValue] at hn; rfl
          subst hn2
          exact along_loop_c_of_nil h0
        obtain ⟨b1, _, _, b4, _, _, b7⟩ := along_body_ok hc0 hb
        have hb5 := hall.2.2.2.2.1 k (Nat.zero_le _) (by omega)
        have hsr := get_elt_as_llint_range b1
        rw [b7]
        simp only [Nat.add_sub_cancel]
        exact wrap64_eq_self (by omega) (by omega)

/-- The ordering guard when the end of the previous interval has not overflowed:
on an axis
whose extent is below `2^63`, an entry `i` that is reached by the loop and whose
start `s` is `<= 0` (for the first entry) or at most the exact end of the
interval before it, makes `check_starts_counts_along` fail with the ordering
diagnostic for that axis and position. -/
theorem ordering_rejected (along dset_rank : Nat) (dset_dims : List Nat)
    (starts counts : SEXP) (t : Tables) (i : Nat) (v : AlongVars) (s : Int)
    (hext : dset_dims.getD (dset_rank - 1 - along) 0 < 9223372036854775808)
    (htypes : along_types along starts counts = .ok ())
    (hi : i < LENGTH (VECTOR_ELT starts along))
    (hprev : along_loop along dset_rank dset_dims (VECTOR_ELT starts along) counts
      (VECTOR_ELT counts along) i 0 ⟨0, 1, 0⟩ = .ok v)
    (hs : get_elt_as_llint (VECTOR_ELT starts along) i .starts along = .ok s)
    (hfirst : i = 0 → s ≤ 0)
    (hlater : 0 < i →
      s ≤ axis_start starts along (i - 1) + axis_count counts along (i - 1) - 1) :
    check_starts_counts_along along dset_rank dset_dims starts counts t =
      .error (.start_not_ascending along i) := by
  apply check_along_error_at t htypes hi hprev
  obtain ⟨e0, e1⟩ := along_loop_end hext hprev
  have hle : s ≤ v.e := by
    rcases Nat.eq_zero_or_pos i with h | h
    · rw [e0 h]; exact hfirst h
    · rw [e1 h]; exact hlater h
  unfold along_body
  rw [hs]
  simp only [if_pos hle]

/-- The guard on the sum when no addition overflows: on an axis whose extent is
below `2^63`, a
description whose exact sum of counts exceeds `INT_MAX` is never accepted. -/
theorem count_sum_guard (dset_rank : Nat) (dset_dims : List Nat) (starts counts : SEXP)
    (nregion : List Nat) (count_sums : List Int) (t : Tables) (d : Nat)
    (hnr : nregion.length = dset_rank) (hcs : count_sums.length = dset_rank)
    (hd : d < dset_rank)
    (hext : dset_dims.getD (dset_rank - 1 - d) 0 < 9223372036854775808)
    (hbig : INT_MAX < exact_count_sum starts counts d) :
    deep_check_starts_counts dset_rank dset_dims starts counts nregion count_sums ≠ .ok t := by
  intro h
  have := (deep_check_exact hnr hcs h d hd hext).2.1
  omega

/-! ## The hyperslabs unioned by `set_regions_to_read` -/

theorem list_eq_of_getD {l1 l2 : List Nat} {n : Nat} (h1 : l1.length = n) (h2 : l2.length = n)
    (h : ∀ d, d < n → l1.getD (n - 1 - d) 0 = l2.getD (n - 1 - d) 0) : l1 = l2 := by
  apply List.ext_getElem (by rw [h1, h2])
  intro j hj1 hj2
  have := h (n - 1 - j) (by omega)
  have hj : n - 1 - (n - 1 - j) = j := by omega
  rw [hj, List.getD_eq_getElem _ _ hj1, List.getD_eq_getElem _ _ hj2] at this
  exact this

/-- The hyperslab that `add_region_to_read` builds does not depend on what the
previous iterations have left in the scratch buffers. -/
theorem fill_bufs_eq_slab (dset_rank : Nat) (starts counts : SEXP) (region_idx : List Nat)
    (b : Bufs) (hlo : b.offset_buf.length = dset_rank) (hlc : b.count_buf.length = dset_rank)
    (hone : is_R_NilValue counts = true → b.count_buf = List.replicate dset_rank 1) :
    fill_bufs dset_rank starts counts region_idx dset_rank 0 b =
      ⟨(slab dset_rank starts counts region_idx).1, (slab dset_rank starts counts region_idx).2⟩
    := by
  obtain ⟨f1, f2, f3, f4, f5⟩ := fill_bufs_spec dset_rank starts counts region_idx dset_rank 0 b
    (by omega) hlo hlc
  obtain ⟨g1, g2, g3, g4, g5⟩ := fill_bufs_spec dset_rank starts counts region_idx dset_rank 0
    ⟨List.replicate dset_rank 0, List.replicate dset_rank 1⟩ (by omega) (by simp) (by simp)
  have ho : (fill_bufs dset_rank starts counts region_idx dset_rank 0 b).offset_buf =
      (slab dset_rank starts counts region_idx).1 := by
    apply list_eq_of_getD f1 g1
    intro d hd
    have e1 := f3 d hd
    have e2 := g3 d hd
    simp only [Nat.zero_le, if_true] at e1 e2
    rw [e1]
    exact e2.symm
  have hc : (fill_bufs dset_rank starts counts region_idx dset_rank 0 b).count_buf =
      (slab dset_rank starts counts region_idx).2 := by
    cases hn : is_R_NilValue counts with
    | true =>
      rw [f5 hn, hone hn]
      exact (g5 hn).symm
    | false =>
      apply list_eq_of_getD f2 g2
      intro d hd
      have e1 := f4 hn d hd
      have e2 := g4 hn d hd
      simp only [Nat.zero_le, if_true] at e1 e2
      rw [e1]
      exact e2.symm
  rw [← ho, ← hc]

theorem slab_lengths (dset_rank : Nat) (starts counts : SEXP) (region_idx : List Nat) :
    (slab dset_rank starts counts region_idx).1.length = dset_rank ∧
    (slab dset_rank starts counts region_idx).2.length = dset_rank ∧
    (is_R_NilValue counts = true →
      (slab dset_rank starts counts region_idx).2 = List.replicate dset_rank 1) := by
  obtain ⟨g1, g2, _, _, g5⟩ := fill_bufs_spec dset_rank starts counts region_idx dset_rank 0
    ⟨List.replicate dset_rank 0, List.replicate dset_rank 1⟩ (by omega) (by simp) (by simp)
  exact ⟨g1, g2, g5⟩

theorem regions_loop_trace (starts counts : SEXP) (ns : List Nat) (hpos : ∀ n ∈ ns, 1 ≤ n)
    (fuel k : Nat) (v : RegionVars) (hk : k < ns.prod) (hfuel : ns.prod - k ≤ fuel)
    (hidx : v.region_idx = digits ns k) (hst : v.st.no_failure)
    (hlo : v.bufs.offset_buf.length = ns.length) (hlc : v.bufs.count_buf.length = ns.length)
    (hone : is_R_NilValue counts = true → v.bufs.count_buf = List.replicate ns.length 1) :
    ∃ v1, regions_loop ns.length starts counts ns fuel v = some (.ok (), v1) ∧
      v1.st.calls = v.st.calls ++ (List.range' k (ns.prod - k)).map (fun j =>
        H5Call.H5Sselect_hyperslab (slab ns.length starts counts (digits ns j)).1
          (slab ns.length starts counts (digits ns j)).2) := by
  induction fuel generalizing k v with
  | zero => omega
  | succ fuel ih =>
    obtain ⟨st, idx, bufs, n⟩ := v
    simp only at hidx hst hlo hlc hone
    subst hidx
    have hfb := fill_bufs_eq_slab ns.length starts counts (digits ns k) bufs hlo hlc hone
    obtain ⟨h1, h2, h3, _, _, _⟩ := Store.issue_ok hst
      (.H5Sselect_hyperslab (slab ns.length starts counts (digits ns k)).1
        (slab ns.length starts counts (digits ns k)).2)
    obtain ⟨s1, s2, s3⟩ := slab_lengths ns.length starts counts (digits ns k)
    simp only [regions_loop, add_region_to_read, hfb, h1, if_true,
      next_region_digits ns k hpos hk]
    by_cases hlt : k + 1 < ns.prod
    · simp only [hlt, decide_True, if_true, Nat.mod_eq_of_lt hlt]
      obtain ⟨v1, e1, e2⟩ := ih (k + 1) ⟨_, _, _, _⟩ hlt (by omega) rfl h2 s1 s2 s3
      refine ⟨v1, e1, ?_⟩
      rw [e2, h3, show ns.prod - k = (ns.prod - (k + 1)) + 1 by omega, List.range'_succ]
      simp
    · have hone1 : ns.prod - k = 1 := by omega
      simp only [hlt, decide_False, Bool.false_eq_true, if_false, hone1]
      exact ⟨_, rfl, by simp [h3]⟩

/-- When no call to the store fails and every axis has at least one region,
`set_regions_to_read` clears the selection and then unions, in this order, the
hyperslabs of the combinations of rank `0`, `1`, ..., `n_0 * ... * n_{R-1} - 1`,
and makes no other call. -/
theorem set_regions_trace (st : Store) (starts counts : SEXP) (nregion : List Nat)
    (fuel : Nat) (hst : st.no_failure) (hpos : ∀ n ∈ nregion, 1 ≤ n)
    (hfuel : nregion.prod ≤ fuel) :
    ∃ st1, set_regions_to_read fuel st nregion.length starts counts nregion =
        some (.ok (), st1) ∧
      st1.calls = st.calls ++ H5Call.H5Sselect_none ::
        (List.range nregion.prod).map (fun j =>
          H5Call.H5Sselect_hyperslab (slab nregion.length starts counts (digits nregion j)).1
            (slab nregion.length starts counts (digits nregion j)).2) := by
  obtain ⟨h1, h2, h3, _, _, _⟩ := Store.issue_ok hst .H5Sselect_none
  have hz : 0 ∉ nregion := fun h => absurd (hpos 0 h) (by decide)
  have hP := prod_pos_of_pos hpos
  unfold set_regions_to_read
  simp only [h1, Bool.not_true, Bool.false_eq_true, if_false]
  rw [if_neg (fun h => hz ((any_zero_iff nregion).mp h))]
  obtain ⟨v1, e1, e2⟩ := regions_loop_trace starts counts nregion hpos fuel 0
    ⟨(st.issue .H5Sselect_none).2, List.replicate nregion.length 0,
      ⟨List.replicate nregion.length 0, List.replicate nregion.length 1⟩, 0⟩
    (by omega) (by omega) (digits_zero nregion).symm h2 (by simp) (by simp) (fun _ => rfl)
  simp only [e1]
  refine ⟨_, rfl, ?_⟩
  simp only [e2, h3, Nat.sub_zero, List.range_eq_range', List.append_assoc,
    List.singleton_append]

/-! ## Rejection of the descriptions of the wrong shape -/

theorem deep_loop_error_of_axis {dset_rank : Nat} {dset_dims : List Nat} {starts counts : SEXP}
    {d : Nat}
    (hax : ∀ t : Tables, ∃ e,
      check_starts_counts_along d dset_rank dset_dims starts counts t = .error e)
    (k along : Nat) (t : Tables) (h1 : along ≤ d) (h2 : d < along + k) :
    ∃ e, deep_loop dset_rank dset_dims starts counts k along t = .error e := by
  induction k generalizing along t with
  | zero => omega
  | succ k ih =>
    simp only [deep_loop]
    cases hc : check_starts_counts_along along dset_rank dset_dims starts counts t with
    | error e => exact ⟨e, rfl⟩
    | ok t1 =>
      by_cases hd : along = d
      · subst hd
        obtain ⟨e, he⟩ := hax t
        rw [he] at hc
        exact absurd hc (by simp)
      · exact ih (along + 1) _ (by omega) (by omega)

theorem along_types_length_error {along : Nat} {starts counts : SEXP}
    (hn : is_R_NilValue counts = false)
    (hl : LENGTH (VECTOR_ELT counts along) ≠ LENGTH (VECTOR_ELT starts along)) :
    ∃ e, along_types along starts counts = .error e := by
  unfold along_types
  simp only [hn, Bool.not_false, if_true]
  split
  · exact ⟨_, rfl⟩
  · split
    · exact ⟨_, rfl⟩
    · exact ⟨_, rfl⟩

/-- C11: for a dataset of rank `dset_rank`, `deep_check_starts_counts` fails
when `starts` is not a list of exactly `dset_rank` elements, when `counts` is
present and is not a list of exactly `dset_rank` elements, and when `counts` is
present and, on some axis, its element has not the length of the element of
`starts`; `shallow_check_starts_counts` fails when `counts` is present and its
length differs from that of `starts`. -/
theorem wrong_shape_rejected (dset_rank : Nat) (dset_dims : List Nat) (starts counts : SEXP)
    (nregion : List Nat) (count_sums : List Int) :
    (¬ (isVectorList starts = true ∧ LENGTH starts = dset_rank) →
      deep_check_starts_counts dset_rank dset_dims starts counts nregion count_sums =
        .error .starts_rank) ∧
    (is_R_NilValue counts = false →
      ¬ (isVectorList counts = true ∧ LENGTH counts = dset_rank) →
      deep_check_starts_counts dset_rank dset_dims starts counts nregion count_sums =
          .error .starts_rank ∨
        deep_check_starts_counts dset_rank dset_dims starts counts nregion count_sums =
          .error .counts_rank) ∧
    (is_R_NilValue counts = false →
      ∀ d, d < dset_rank →
        LENGTH (VECTOR_ELT counts d) ≠ LENGTH (VECTOR_ELT starts d) →
        ∃ e, deep_check_starts_counts dset_rank dset_dims starts counts nregion count_sums =
          .error e) ∧
    (is_R_NilValue counts = false → LENGTH counts ≠ LENGTH starts →
      ∃ e, shallow_check_starts_counts starts counts = .error e) := by
  refine ⟨?_, ?_, ?_, ?_⟩
  · intro h
    unfold deep_check_starts_counts
    rw [if_pos]
    by_cases hv : isVectorList starts = true
    · have : ¬ LENGTH starts = dset_rank := fun hl => h ⟨hv, hl⟩
      simp [hv, this]
    · simp [hv]
  · intro hn h
    unfold deep_check_starts_counts
    split
    · exact Or.inl rfl
    · rw [if_pos]
      · exact Or.inr rfl
      · by_cases hv : isVectorList counts = true
        · have : ¬ LENGTH counts = dset_rank := fun hl => h ⟨hv, hl⟩
          simp [hn, hv, this]
        · simp [hn, hv]
  · intro hn d hd hl
    unfold deep_check_starts_counts
    split
    · exact ⟨_, rfl⟩
    · split
      · exact ⟨_, rfl⟩
      · have hax : ∀ t : Tables, ∃ e,
            check_starts_counts_along d dset_rank dset_dims starts counts t = .error e := by
          intro t
          obtain ⟨e, he⟩ := along_types_length_error hn hl
          exact ⟨e, by simp only [check_starts_counts_along, he]⟩
        exact deep_loop_error_of_axis hax dset_rank 0 _ (Nat.zero_le _) (by omega)
  · intro hn hl
    unfold shallow_check_starts_counts
    split
    · exact ⟨_, rfl⟩
    · simp only [hn, Bool.not_false, if_true]
      split
      · exact ⟨_, rfl⟩
      · rw [if_pos (fun h => hl h.symm)]
        exact ⟨_, rfl⟩

/-- Witness for C11: on a dataset of rank 2, a `counts` whose second element has
two entries where that of `starts` has one. -/
theorem wrong_shape_rejected_witness :
    ∃ e, deep_check_starts_counts 2 [10, 20] (.list [.int [1], .int [2]])
      (.list [.int [1], .int [1, 1]]) [0, 0] [0, 0] = .error e :=
  (wrong_shape_rejected 2 [10, 20] (.list [.int [1], .int [2]])
    (.list [.int [1], .int [1, 1]]) [0, 0] [0, 0]).2.2.1 (by decide) 1 (by decide)
    (by decide)

/-! ## Validation comes before any change of the selection -/

/-- Whether `check_starts_counts_along` fails, and with which diagnostic, does
not depend on the arrays that it fills. -/
theorem check_along_error_indep {along dset_rank : Nat} {dset_dims : List Nat}
    {starts counts : SEXP} {t : Tables} {e : Diag}
    (h : check_starts_counts_along along dset_rank dset_dims starts counts t = .error e)
    (t1 : Tables) :
    check_starts_counts_along along dset_rank dset_dims starts counts t1 = .error e := by
  unfold check_starts_counts_along at h ⊢
  cases hty : along_types along starts counts with
  | error d => rw [hty] at h; exact h
  | ok u =>
    rw [hty] at h
    simp only [] at h ⊢
    cases hl : along_loop along dset_rank dset_dims (VECTOR_ELT starts along) counts
        (VECTOR_ELT counts along) (LENGTH (VECTOR_ELT starts along)) 0 ⟨0, 1, 0⟩ with
    | error d => rw [hl] at h; exact h
    | ok v => rw [hl] at h; exact absurd h (by simp)

theorem check_along_ok_indep {along dset_rank : Nat} {dset_dims : List Nat}
    {starts counts : SEXP} {t t2 : Tables}
    (h : check_starts_counts_along along dset_rank dset_dims starts counts t = .ok t2)
    (t1 : Tables) :
    ∃ t3, check_starts_counts_along along dset_rank dset_dims starts counts t1 = .ok t3 := by
  obtain ⟨h1, v1, h2, _⟩ := check_along_ok h
  refine ⟨{ t1 with nregion := t1.nregion.set along (LENGTH (VECTOR_ELT starts along)),
                    count_sums := t1.count_sums.set along (wrap32 v1.count_sum) }, ?_⟩
  simp only [check_starts_counts_along, h1, h2]

theorem deep_loop_error_indep {dset_rank : Nat} {dset_dims : List Nat} {starts counts : SEXP}
    {k along : Nat} {t : Tables} {e : Diag}
    (h : deep_loop dset_rank dset_dims starts counts k along t = .error e) (t1 : Tables) :
    deep_loop dset_rank dset_dims starts counts k along t1 = .error e := by
  induction k generalizing along t t1 with
  | zero => simp [deep_loop] at h
  | succ k ih =>
    simp only [deep_loop] at h ⊢
    cases hc : check_starts_counts_along along dset_rank dset_dims starts counts t with
    | error d =>
      rw [hc] at h
      rw [check_along_error_indep hc t1]
      exact h
    | ok t2 =>
      rw [hc] at h
      obtain ⟨t3, h3⟩ := check_along_ok_indep hc t1
      rw [h3]
      exact ih h _

/-- Whether `deep_check_starts_counts` fails, and with which diagnostic, does
not depend on the contents of the arrays that it is given to fill. -/
theorem deep_check_error_indep {dset_rank : Nat} {dset_dims : List Nat} {starts counts : SEXP}
    {nregion : List Nat} {count_sums : List Int} {e : Diag}
    (h : deep_check_starts_counts dset_rank dset_dims starts counts nregion count_sums =
      .error e) (nregion1 : List Nat) (count_sums1 : List Int) :
    deep_check_starts_counts dset_rank dset_dims starts counts nregion1 count_sums1 =
      .error e := by
  unfold deep_check_starts_counts at h ⊢
  split
  · rename_i h1; rw [if_pos h1] at h; exact h
  · rename_i h1
    rw [if_neg h1] at h
    split
    · rename_i h2; rw [if_pos h2] at h; exact h
    · rename_i h2
      rw [if_neg h2] at h
      exact deep_loop_error_indep h _

theorem prepare_file_space_invalid {fuel : Nat} {st : Store} {starts counts : SEXP}
    {nregion : List Nat} {count_sums : List Int} {e : Diag}
    (h : deep_check_starts_counts st.dset_dims.length st.dset_dims starts counts nregion
      count_sums = .error e) (count_sums1 : List Int) :
    ∃ d st1 extra, prepare_file_space fuel st starts counts count_sums1 =
        some (.error d, st1) ∧
      st1.calls = st.calls ++ extra ∧ ∀ c ∈ extra, source_space_call c := by
  unfold prepare_file_space
  simp only []
  split
  · exact ⟨_, _, [.H5Dget_space], rfl, rfl, by simp [source_space_call]⟩
  · split
    · exact ⟨_, _, [.H5Dget_space, .H5Sget_simple_extent_ndims, .H5Sclose .file], rfl,
        by simp [Store.issue], by simp [source_space_call]⟩
    · split
      · exact ⟨_, _, [.H5Dget_space, .H5Sget_simple_extent_ndims,
          .H5Sget_simple_extent_dims, .H5Sclose .file], rfl,
          by simp [Store.issue], by simp [source_space_call]⟩
      · rw [deep_check_error_indep h]
        exact ⟨_, _, [.H5Dget_space, .H5Sget_simple_extent_ndims,
          .H5Sget_simple_extent_dims, .H5Sclose .file], rfl,
          by simp [Store.issue], by simp [source_space_call]⟩

/-- C12: when `shallow_check_starts_counts` fails, or `deep_check_starts_counts`
fails against the extents of the dataset (for any reason, on any axis, and
whatever the arrays it is given to fill), `h5mread` returns the failure value,
whatever the store does and whatever the number of iterations allowed, and the
calls that it has made to the store are only calls that open, query or close
the source space: no `H5Sselect_none`, no `H5Sselect_hyperslab`, no
`H5Screate_simple`, no `H5Sselect_all` and no `H5Dread`. -/
theorem validation_before_selection (fuel : Nat) (st : Store) (starts counts : SEXP)
    (h : (∃ e, shallow_check_starts_counts starts counts = .error e) ∨
      (∃ nregion count_sums e, deep_check_starts_counts st.dset_dims.length st.dset_dims
        starts counts nregion count_sums = .error e)) :
    ∃ d st1 extra, h5mread fuel st starts counts = some (.error d, st1) ∧
      st1.calls = st.calls ++ extra ∧ (∀ c ∈ extra, source_space_call c) ∧
      hyperslabs extra = [] := by
  have hsl : ∀ extra : List H5Call, (∀ c ∈ extra, source_space_call c) →
      hyperslabs extra = [] := by
    intro extra
    induction extra with
    | nil => intro _; rfl
    | cons c cs ih =>
      intro hc
      have h1 := hc c (by simp)
      have h2 := ih (fun x hx => hc x (by simp [hx]))
      rcases h1 with h1 | h1 | h1 | h1 <;> subst h1 <;> simpa [hyperslabs] using h2
  unfold h5mread
  cases hs : shallow_check_starts_counts starts counts with
  | error e =>
    exact ⟨some e, st, [], rfl, by simp, by simp, rfl⟩
  | ok n =>
    rcases h with ⟨e, he⟩ | ⟨nregion, count_sums, e, he⟩
    · rw [hs] at he
      exact absurd he (by simp)
    · obtain ⟨d, st1, extra, h1, h2, h3⟩ :=
        @prepare_file_space_invalid fuel st starts counts nregion count_sums e he
        (List.replicate n 0)
      simp only [h1]
      exact ⟨d, st1, extra, rfl, h2, h3, hsl extra h3⟩

/-- Witness for C12: on a dataset of extent 10, the starts `(5, 5)`. -/
theorem validation_before_selection_witness :
    ∃ d st1 extra, h5mread 0 ⟨[10], [], [], []⟩ (.list [.int [5, 5]]) .nil =
        some (.error d, st1) ∧
      st1.calls = [] ++ extra ∧ (∀ c ∈ extra, source_space_call c) ∧
      hyperslabs extra = [] :=
  validation_before_selection 0 ⟨[10], [], [], []⟩ (.list [.int [5, 5]]) .nil
    (Or.inr ⟨[0], [0], .start_not_ascending 0 1, by decide⟩)

/-! ## The read of a validated description -/

theorem deep_loop_lengths {dset_rank : Nat} {dset_dims : List Nat} {starts counts : SEXP}
    {k along : Nat} {t t1 : Tables}
    (h : deep_loop dset_rank dset_dims starts counts k along t = .ok t1) :
    t1.nregion.length = t.nregion.length ∧ t1.count_sums.length = t.count_sums.length := by
  induction k generalizing along t with
  | zero =>
    simp only [deep_loop] at h
    injection h with h
    subst h
    exact ⟨rfl, rfl⟩
  | succ k ih =>
    simp only [deep_loop] at h
    split at h
    · exact absurd h (by simp)
    · rename_i t2 hc
      obtain ⟨_, v1, _, c3⟩ := check_along_ok hc
      subst c3
      have := ih h
      simpa using this

theorem deep_check_lengths {dset_rank : Nat} {dset_dims : List Nat} {starts counts : SEXP}
    {nregion : List Nat} {count_sums : List Int} {t : Tables}
    (h : deep_check_starts_counts dset_rank dset_dims starts counts nregion count_sums =
      .ok t) :
    t.nregion.length = nregion.length ∧ t.count_sums.length = count_sums.length := by
  unfold deep_check_starts_counts at h
  split at h
  · exact absurd h (by simp)
  · split at h
    · exact absurd h (by simp)
    · exact deep_loop_lengths h

/-- A description accepted by `deep_check_starts_counts` is accepted by
`shallow_check_starts_counts`, which returns the rank of the dataset. -/
theorem shallow_of_deep {dset_rank : Nat} {dset_dims : List Nat} {starts counts : SEXP}
    {nregion : List Nat} {count_sums : List Int} {t : Tables}
    (h : deep_check_starts_counts dset_rank dset_dims starts counts nregion count_sums =
      .ok t) : shallow_check_starts_counts starts counts = .ok dset_rank := by
  unfold deep_check_starts_counts at h
  split at h
  · exact absurd h (by simp)
  · rename_i h1
    split at h
    · exact absurd h (by simp)
    · rename_i h2
      simp only [Bool.not_eq_true, Bool.not_eq_false', Bool.and_eq_true,
        decide_eq_true_eq] at h1
      unfold shallow_check_starts_counts
      simp only [h1.1, Bool.not_true, Bool.false_eq_true, if_false, h1.2]
      cases hn : is_R_NilValue counts with
      | true => simp
      | false =>
        simp only [hn, Bool.not_false, Bool.true_and, Bool.not_eq_true', Bool.not_eq_false',
          Bool.and_eq_true, decide_eq_true_eq, Bool.not_eq_true] at h2
        have h3 : isVectorList counts = true ∧ LENGTH counts = dset_rank := by
          by_cases hv : isVectorList counts = true
          · by_cases hl : LENGTH counts = dset_rank
            · exact ⟨hv, hl⟩
            · simp [hv, hl] at h2
          · simp [hv] at h2
        simp [h3.1, h3.2]

theorem Store.opened_spec {st : Store} (h : st.no_failure) :
    st.opened.no_failure ∧
      st.opened.calls = st.calls ++
        [.H5Dget_space, .H5Sget_simple_extent_ndims, .H5Sget_simple_extent_dims] ∧
      st.opened.printed = st.printed ∧ st.opened.dset_dims = st.dset_dims := by
  obtain ⟨_, a2, a3, a4, _, a6⟩ := Store.issue_ok h .H5Dget_space
  obtain ⟨_, b2, b3, b4, _, b6⟩ := Store.issue_ok a2 .H5Sget_simple_extent_ndims
  obtain ⟨_, c2, c3, c4, _, c6⟩ := Store.issue_ok b2 .H5Sget_simple_extent_dims
  refine ⟨c2, ?_, ?_, ?_⟩
  · show (((st.issue .H5Dget_space).2.issue .H5Sget_simple_extent_ndims).2.issue
      .H5Sget_simple_extent_dims).2.calls = _
    rw [c3, b3, a3]; simp
  · show (((st.issue .H5Dget_space).2.issue .H5Sget_simple_extent_ndims).2.issue
      .H5Sget_simple_extent_dims).2.printed = _
    rw [c4, b4, a4]
  · show (((st.issue .H5Dget_space).2.issue .H5Sget_simple_extent_ndims).2.issue
      .H5Sget_simple_extent_dims).2.dset_dims = _
    rw [c6, b6, a6]

/-- When no call fails and the description is valid, `prepare_file_space` opens
and queries the source space and goes on with `set_regions_to_read`. -/
theorem prepare_file_space_valid {fuel : Nat} {st : Store} {starts counts : SEXP}
    {count_sums : List Int} {t : Tables} (hst : st.no_failure)
    (hval : deep_check_starts_counts st.dset_dims.length st.dset_dims starts counts
      (List.replicate st.dset_dims.length 0) count_sums = .ok t) :
    prepare_file_space fuel st starts counts count_sums =
      match set_regions_to_read fuel st.opened st.dset_dims.length starts counts t.nregion with
      | none => none
      | some (.error d, st3) => some (.error d, (st3.issue (.H5Sclose .file)).2)
      | some (.ok _, st3) => some (.ok t, st3) := by
  obtain ⟨a1, a2, _⟩ := Store.issue_ok hst .H5Dget_space
  obtain ⟨b1, b2, _⟩ := Store.issue_ok a2 .H5Sget_simple_extent_ndims
  obtain ⟨c1, _, _⟩ := Store.issue_ok b2 .H5Sget_simple_extent_dims
  unfold prepare_file_space
  simp only [a1, b1, c1, hval, Bool.not_true, Bool.false_eq_true, if_false]
  rfl

/-- An axis without interval makes the length of the answer zero. -/
theorem ans_len_zero_of_empty {dset_rank : Nat} {dset_dims : List Nat} {starts counts : SEXP}
    {nregion : List Nat} {count_sums : List Int} {t : Tables}
    (hnr : nregion.length = dset_rank) (hcs : count_sums.length = dset_rank)
    (h : deep_check_starts_counts dset_rank dset_dims starts counts nregion count_sums =
      .ok t)
    (d : Nat) (hd : d < dset_rank) (hempty : LENGTH (VECTOR_ELT starts d) = 0) :
    t.nregion.getD d 0 = 0 ∧ t.count_sums.getD d 0 = 0 ∧ t.ans_len = 0 := by
  obtain ⟨h1, h2⟩ := deep_check_ok hnr hcs h
  obtain ⟨a1, ⟨v1, a2, a3⟩, _⟩ := h1 d hd
  rw [hempty] at a1 a2
  simp only [along_loop] at a2
  injection a2 with a2
  subst a2
  have hz : t.count_sums.getD d 0 = 0 := by rw [a3]; rfl
  refine ⟨a1, hz, ?_⟩
  rw [h2, List.prod_eq_zero]
  · rfl
  · exact List.mem_map.mpr ⟨d, List.mem_range.mpr hd, hz⟩

theorem add_region_store (st : Store) (dset_rank : Nat) (starts counts : SEXP)
    (region_idx : List Nat) (b : Bufs) :
    (add_region_to_read st dset_rank starts counts region_idx b).2.1 =
      (st.issue (.H5Sselect_hyperslab
        (fill_bufs dset_rank starts counts region_idx dset_rank 0 b).offset_buf
        (fill_bufs dset_rank starts counts region_idx dset_rank 0 b).count_buf)).2 := by
  unfold add_region_to_read
  simp only []
  split <;> rfl

/-- Whatever the store does, the loop of `set_regions_to_read` only makes calls
`H5Sselect_hyperslab`, and at least one. -/
theorem regions_loop_frame {dset_rank : Nat} {starts counts : SEXP} {nregion : List Nat}
    {fuel : Nat} {v v1 : RegionVars} {r : Except Diag Unit}
    (h : regions_loop dset_rank starts counts nregion fuel v = some (r, v1)) :
    v1.st.failing = v.st.failing ∧ v1.st.dset_dims = v.st.dset_dims ∧
      ∃ hs, hs ≠ [] ∧ v1.st.calls = v.st.calls ++ hs ∧ ∀ c ∈ hs, is_hyperslab_call c := by
  induction fuel generalizing v with
  | zero => simp [regions_loop] at h
  | succ fuel ih =>
    simp only [regions_loop] at h
    have hone : ∀ c ∈ [H5Call.H5Sselect_hyperslab
        (fill_bufs dset_rank starts counts v.region_idx dset_rank 0 v.bufs).offset_buf
        (fill_bufs dset_rank starts counts v.region_idx dset_rank 0 v.bufs).count_buf],
        is_hyperslab_call c := by
      intro c hc
      simp only [List.mem_singleton] at hc
      exact ⟨_, _, hc⟩
    split at h
    · simp only [Option.some.injEq, Prod.mk.injEq] at h
      obtain ⟨_, h2⟩ := h
      subst h2
      simp only [add_region_store]
      exact ⟨rfl, rfl, [H5Call.H5Sselect_hyperslab
        (fill_bufs dset_rank starts counts v.region_idx dset_rank 0 v.bufs).offset_buf
        (fill_bufs dset_rank starts counts v.region_idx dset_rank 0 v.bufs).count_buf],
        by simp, rfl, hone⟩
    · split at h
      · obtain ⟨e1, e2, hs, _, e3, e4⟩ := ih h
        simp only [add_region_store] at e1 e2 e3
        refine ⟨e1, e2, H5Call.H5Sselect_hyperslab
          (fill_bufs dset_rank starts counts v.region_idx dset_rank 0 v.bufs).offset_buf
          (fill_bufs dset_rank starts counts v.region_idx dset_rank 0 v.bufs).count_buf :: hs,
          by simp, ?_, ?_⟩
        · rw [e3]; simp [Store.issue]
        · intro c hc
          rcases List.mem_cons.mp hc with hc | hc
          · exact hone c (by simp [hc])
          · exact e4 c hc
      · simp only [Option.some.injEq, Prod.mk.injEq] at h
        obtain ⟨_, h2⟩ := h
        subst h2
        simp only [add_region_store]
        exact ⟨rfl, rfl, [H5Call.H5Sselect_hyperslab
          (fill_bufs dset_rank starts counts v.region_idx dset_rank 0 v.bufs).offset_buf
          (fill_bufs dset_rank starts counts v.region_idx dset_rank 0 v.bufs).count_buf],
          by simp, rfl, hone⟩

/-- Whatever the store does, `set_regions_to_read` makes the call
`H5Sselect_none` and then only calls `H5Sselect_hyperslab`. -/
theorem set_regions_frame {fuel : Nat} {st st1 : Store} {dset_rank : Nat}
    {starts counts : SEXP} {nregion : List Nat} {r : Except (Option Diag) Unit}
    (h : set_regions_to_read fuel st dset_rank starts counts nregion = some (r, st1)) :
    st1.failing = st.failing ∧ st1.dset_dims = st.dset_dims ∧
      ∃ hs, st1.calls = st.calls ++ .H5Sselect_none :: hs ∧
        ∀ c ∈ hs, is_hyperslab_call c := by
  unfold set_regions_to_read at h
  simp only [] at h
  split at h
  · simp only [Option.some.injEq, Prod.mk.injEq] at h
    obtain ⟨_, h2⟩ := h
    subst h2
    exact ⟨rfl, rfl, [], rfl, by simp⟩
  · split at h
    · simp only [Option.some.injEq, Prod.mk.injEq] at h
      obtain ⟨_, h2⟩ := h
      subst h2
      exact ⟨rfl, rfl, [], rfl, by simp⟩
    · split at h
      · simp at h
      · rename_i ret v hl
        obtain ⟨e1, e2, hs, _, e3, e4⟩ := regions_loop_frame hl
        simp only [] at e1 e2 e3
        have hst1 : st1 = { v.st with printed := v.st.printed ++ [v.n] } := by
          split at h <;>
          · simp only [Option.some.injEq, Prod.mk.injEq] at h
            exact h.2.symm
        subst hst1
        refine ⟨e1, e2, hs, ?_, e4⟩
        simp only [e3]
        simp [Store.issue]

/-- The extents after the loop of `prepare_mem_space`: the slot `R - 1 - d` of
each axis `d` from `along` on holds `count_sums[d]`, the other slots are
untouched. -/
theorem mem_dims_spec (dset_rank : Nat) (count_sums : List Int) (k along : Nat)
    (dims : List Nat) (hk : along + k = dset_rank) (hl : dims.length = dset_rank) :
    (mem_dims dset_rank count_sums k along dims).length = dset_rank ∧
    ∀ d, d < dset_rank →
      (mem_dims dset_rank count_sums k along dims).getD (dset_rank - 1 - d) 0 =
        if along ≤ d then to_hsize (count_sums.getD d 0)
        else dims.getD (dset_rank - 1 - d) 0 := by
  induction k generalizing along dims with
  | zero =>
    refine ⟨hl, fun d hd => ?_⟩
    have : ¬ along ≤ d := by omega
    simp [mem_dims, this]
  | succ k ih =>
    simp only [mem_dims]
    obtain ⟨e1, e2⟩ := ih (along + 1)
      (dims.set (dset_rank - 1 - along) (to_hsize (count_sums.getD along 0))) (by omega)
      (by simp [hl])
    refine ⟨e1, fun d hd => ?_⟩
    rw [e2 d hd, getD_set _ _ _ _ _ (by omega)]
    by_cases h1 : along + 1 ≤ d
    · have : along ≤ d := by omega
      simp [h1, this]
    · by_cases h2 : d = along
      · subst h2; simp
      · have h3 : ¬ along ≤ d := by omega
        have h4 : ¬ dset_rank - 1 - d = dset_rank - 1 - along := by omega
        simp [h1, h3, h4]

/-- A store in which no further call fails stays so when calls are added. -/
theorem no_failure_of_extends {st st1 : Store} {xs : List H5Call} (h : st.no_failure)
    (hf : st1.failing = st.failing) (hc : st1.calls = st.calls ++ xs) : st1.no_failure := by
  intro j hj
  rw [hf] at hj
  have := h j hj
  rw [hc, List.length_append]
  omega

/-- When no call fails, `prepare_mem_space` creates the destination space with
the extents computed by its loop and selects the whole of it. -/
theorem prepare_mem_space_ok {st : Store} (h : st.no_failure) (dset_rank : Nat)
    (count_sums : List Int) :
    (prepare_mem_space st dset_rank count_sums).1 = .ok () ∧
      (prepare_mem_space st dset_rank count_sums).2.no_failure ∧
      (prepare_mem_space st dset_rank count_sums).2.calls = st.calls ++
        [.H5Screate_simple (mem_dims dset_rank count_sums dset_rank 0
          (List.replicate dset_rank 0)), .H5Sselect_all] := by
  obtain ⟨a1, a2, a3, _⟩ := Store.issue_ok h (.H5Screate_simple
    (mem_dims dset_rank count_sums dset_rank 0 (List.replicate dset_rank 0)))
  obtain ⟨b1, b2, b3, _⟩ := Store.issue_ok a2 .H5Sselect_all
  unfold prepare_mem_space
  simp only [a1, b1, Bool.not_true, Bool.false_eq_true, if_false]
  refine ⟨trivial, b2, ?_⟩
  rw [b3, a3]
  simp

/-- When the length of the answer is not zero, every axis has an interval. -/
theorem nregion_pos_of_ans_len {dset_rank : Nat} {dset_dims : List Nat} {starts counts : SEXP}
    {nregion : List Nat} {count_sums : List Int} {t : Tables}
    (hnr : nregion.length = dset_rank) (hcs : count_sums.length = dset_rank)
    (h : deep_check_starts_counts dset_rank dset_dims starts counts nregion count_sums =
      .ok t) (hlen : t.ans_len ≠ 0) : ∀ n ∈ t.nregion, 1 ≤ n := by
  intro n hn
  obtain ⟨d, hd, rfl⟩ := List.getElem_of_mem hn
  have hd2 : d < dset_rank := by rw [← hnr, ← (deep_check_lengths h).1]; exact hd
  rcases Nat.eq_zero_or_pos t.nregion[d] with h0 | h0
  · have h1 := ((deep_check_ok hnr hcs h).1 d hd2).1
    rw [List.getD_eq_getElem _ _ hd, h0] at h1
    exact absurd (ans_len_zero_of_empty hnr hcs h d hd2 h1.symm).2.2 hlen
  · exact h0

/-- The run of `h5mread` when no call to the store fails, for a validated
description whose `ans_len` is positive and at most `R_XLEN_T_MAX`: `h5mread`
clears the source selection, unions the hyperslabs of the combinations, then
creates the destination space with `H5Screate_simple` and selects the whole of
it with `H5Sselect_all`, before it reads and closes the two spaces.  The
destination space has rank `R` and, for every caller axis `d`, its extent in
slot `R - 1 - d` is the `hsize_t` that `count_sums[d]` converts to, which is the
integer `count_sums[d]` only when `count_sums[d]` is not negative; the
hyperslabs of the source use the same slot `R - 1 - d` for the axis `d`. -/
theorem destination_space (fuel : Nat) (st : Store) (starts counts : SEXP) (t : Tables)
    (hst : ∀ j ∈ st.failing, j < st.calls.length)
    (hval : deep_check_starts_counts st.dset_dims.length st.dset_dims starts counts
      (List.replicate st.dset_dims.length 0) (List.replicate st.dset_dims.length 0) = .ok t)
    (hpos0 : 0 < t.ans_len) (hmax : t.ans_len ≤ R_XLEN_T_MAX) (hfuel : t.nregion.prod ≤ fuel) :
    ∃ dims st1, h5mread fuel st starts counts =
        some (.ok ⟨t.ans_len, (List.range st.dset_dims.length).map
          (fun a => t.count_sums.getD a 0)⟩, st1) ∧
      st1.calls = st.calls ++ [.H5Dget_space, .H5Sget_simple_extent_ndims,
          .H5Sget_simple_extent_dims, .H5Sselect_none] ++
        (List.range t.nregion.prod).map (fun j =>
          H5Call.H5Sselect_hyperslab
            (slab st.dset_dims.length starts counts (digits t.nregion j)).1
            (slab st.dset_dims.length starts counts (digits t.nregion j)).2) ++
        [.H5Screate_simple dims, .H5Sselect_all, .H5Dread, .H5Sclose .mem,
          .H5Sclose .file] ∧
      dims.length = st.dset_dims.length ∧
      (∀ d, d < st.dset_dims.length →
        dims.getD (st.dset_dims.length - 1 - d) 0 = to_hsize (t.count_sums.getD d 0) ∧
        (0 ≤ t.count_sums.getD d 0 →
          (dims.getD (st.dset_dims.length - 1 - d) 0 : Int) = t.count_sums.getD d 0)) ∧
      (∀ (region_idx : List Nat) (d : Nat), d < st.dset_dims.length →
        (slab st.dset_dims.length starts counts region_idx).1.getD
            (st.dset_dims.length - 1 - d) 0 =
          (elt_as_hsize (VECTOR_ELT starts d) (region_idx.getD d 0) + HSIZE_MOD - 1) %
            HSIZE_MOD) := by
  have hlen : t.ans_len ≠ 0 := by omega
  have hnew : NEW_INTEGER t.ans_len = true := by
    unfold NEW_INTEGER
    exact decide_eq_true ⟨by omega, hmax⟩
  have hnl := (deep_check_lengths hval).1
  simp only [List.length_replicate] at hnl
  have hpos := nregion_pos_of_ans_len (by simp) (by simp) hval hlen
  obtain ⟨o1, o2, _, _⟩ := Store.opened_spec hst
  obtain ⟨st3, r1, r2⟩ := set_regions_trace st.opened starts counts t.nregion fuel o1 hpos hfuel
  rw [hnl] at r1 r2
  obtain ⟨f1, _, hs, f3, _⟩ := set_regions_frame r1
  have hst3 : st3.no_failure := no_failure_of_extends o1 f1 f3
  obtain ⟨m1, m2, m3⟩ := prepare_mem_space_ok hst3 st.dset_dims.length t.count_sums
  obtain ⟨d1, d2, d3, _⟩ := Store.issue_ok m2 .H5Dread
  obtain ⟨_, c2, c3, _⟩ := Store.issue_ok d2 (.H5Sclose .mem)
  obtain ⟨_, _, g3, _⟩ := Store.issue_ok c2 (.H5Sclose .file)
  obtain ⟨q1, q2⟩ := mem_dims_spec st.dset_dims.length t.count_sums st.dset_dims.length 0
    (List.replicate st.dset_dims.length 0) (by omega) (by simp)
  have hrun : h5mread fuel st starts counts =
      some (.ok ⟨t.ans_len, (List.range st.dset_dims.length).map
          (fun a => t.count_sums.getD a 0)⟩,
        ((((prepare_mem_space st3 st.dset_dims.length t.count_sums).2.issue .H5Dread).2.issue
          (.H5Sclose .mem)).2.issue (.H5Sclose .file)).2) := by
    unfold h5mread
    simp only [shallow_of_deep hval, prepare_file_space_valid hst hval, r1, ne_eq, hlen,
      not_false_eq_true, if_true]
    rw [show prepare_mem_space st3 st.dset_dims.length t.count_sums =
      (.ok (), (prepare_mem_space st3 st.dset_dims.length t.count_sums).2) from
        Prod.ext m1 rfl]
    simp only [hnew, d1, Bool.not_true, Bool.false_eq_true, if_false]
  refine ⟨_, _, hrun, ?_, q1, fun d hd => ?_, fun region_idx d hd => ?_⟩
  · rw [g3, c3, d3, m3, r2, o2]
    simp
  · have := q2 d hd
    simp only [Nat.zero_le, if_true] at this
    refine ⟨this, fun h0 => ?_⟩
    rw [this]
    refine to_hsize_eq h0 ?_
    have hlt : t.count_sums.getD d 0 < 2147483648 := by
      obtain ⟨_, ⟨v1, _, a3⟩, _⟩ := (deep_check_ok (by simp) (by simp) hval).1 d hd
      rw [a3]
      exact (wrap32_range _).2
    omega
  · have := (fill_bufs_spec st.dset_dims.length starts counts region_idx st.dset_dims.length 0
      ⟨List.replicate st.dset_dims.length 0, List.replicate st.dset_dims.length 1⟩
      (by omega) (by simp) (by simp)).2.2.1 d hd
    simpa [slab] using this

/-- An instance of `destination_space`: a dataset of extents `(10, 20)` in
storage order, two intervals on axis 0 and three on axis 1: the destination
space has the extents `(3, 2)`. -/
theorem destination_space_witness :
    ∃ dims st1, h5mread 6 ⟨[10, 20], [], [], []⟩ (.list [.int [1, 3], .int [2, 4, 6]]) .nil =
        some (.ok ⟨6, [2, 3]⟩, st1) ∧
      H5Call.H5Screate_simple dims ∈ st1.calls ∧
      (dims.getD 1 0 : Int) = 2 ∧ (dims.getD 0 0 : Int) = 3 := by
  obtain ⟨dims, st1, h1, h2, _, h4, _⟩ := destination_space 6 ⟨[10, 20], [], [], []⟩
    (.list [.int [1, 3], .int [2, 4, 6]]) .nil ⟨[2, 3], [2, 3], 6⟩ (by decide) (by decide)
    (by decide) (by decide) (by decide)
  refine ⟨dims, st1, h1, ?_, (h4 0 (by decide)).2 (by decide), (h4 1 (by decide)).2 (by decide)⟩
  rw [h2]
  simp

/-! ## Store calls that fail -/

/-- C15: on a dataset of extent 10, reading the element 1 with a store whose
call `H5Sselect_all` (the seventh call) fails, `h5mread` returns the failure
value after `prepare_mem_space` has created the destination space with success;
the only call `H5Sclose` made is on the source space, so that the destination
space has been opened once and never closed. -/
theorem destination_space_not_closed :
    (h5mread 1 ⟨[10], [6], [], []⟩ (.list [.int [1]]) .nil).map
        (fun r => (r.1, r.2.calls)) =
      some (.error (some .select_hyperslab_failed),
        [.H5Dget_space, .H5Sget_simple_extent_ndims, .H5Sget_simple_extent_dims,
         .H5Sselect_none, .H5Sselect_hyperslab [0] [1], .H5Screate_simple [1],
         .H5Sselect_all, .H5Sclose .file]) ∧
    (h5mread 1 ⟨[10], [6], [], []⟩ (.list [.int [1]]) .nil).map
        (fun r => (opened_count r.2.failing .mem 0 r.2.calls, closed_count .mem r.2.calls,
          opened_count r.2.failing .file 0 r.2.calls, closed_count .file r.2.calls)) =
      some (1, 0, 1, 1) := by
  decide

/-- C16: on a dataset of extent 10, reading the element 1 with a store whose
call `H5Sselect_none` (the fourth call) fails, `h5mread` returns the failure
value and no message has been written to `errmsg_buf`: `set_regions_to_read`
returns `-1` without writing one. -/
theorem select_none_failure_without_message :
    (h5mread 1 ⟨[10], [3], [], []⟩ (.list [.int [1]]) .nil).map
        (fun r => (r.1, r.2.calls)) =
      some (.error none,
        [.H5Dget_space, .H5Sget_simple_extent_ndims, .H5Sget_simple_extent_dims,
         .H5Sselect_none, .H5Sclose .file]) := by
  decide

/-- C20: on a dataset of extents `(2^21, 2^21, 2^22)` in storage order, reading
the whole of every axis is accepted with the count sums `(2^22, 2^21, 2^21)`;
their product `2^64` wraps to `ans_len = 0` although every axis has one
interval, and `h5mread` returns a buffer of length `0` after it has unioned the
hyperslab, without calling `H5Dread`. -/
theorem full_read_skipped :
    deep_check_starts_counts 3 [2097152, 2097152, 4194304]
        (.list [.int [1], .int [1], .int [1]])
        (.list [.int [4194304], .int [2097152], .int [2097152]]) [0, 0, 0] [0, 0, 0] =
      .ok ⟨[1, 1, 1], [4194304, 2097152, 2097152], 0⟩ ∧
    (h5mread 1 ⟨[2097152, 2097152, 4194304], [], [], []⟩
        (.list [.int [1], .int [1], .int [1]])
        (.list [.int [4194304], .int [2097152], .int [2097152]])).map
        (fun r => (r.1, r.2.calls)) =
      some (.ok ⟨0, [4194304, 2097152, 2097152]⟩,
        [.H5Dget_space, .H5Sget_simple_extent_ndims, .H5Sget_simple_extent_dims,
         .H5Sselect_none, .H5Sselect_hyperslab [0, 0, 0] [2097152, 2097152, 4194304],
         .H5Sclose .file]) := by
  decide

/-! ## The order of the checks on an entry -/

/-- C17, as stated, fails: on an axis of extent 10, the single entry with start
`0` and explicit count `0`, and the single entry with start `0` and count `NA`,
have both a start `<= previous_end` and a faulty count; the diagnostic reported
is the ordering one, not the count one. -/
theorem ordering_reported_before_count :
    check_starts_counts_along 0 1 [10] (.list [.int [0]]) (.list [.int [0]]) ⟨[0], [0], 1⟩ =
      .error (.start_not_ascending 0 0) ∧
    check_starts_counts_along 0 1 [10] (.list [.int [0]]) (.list [.int [NA_INTEGER]])
        ⟨[0], [0], 1⟩ =
      .error (.start_not_ascending 0 0) := by
  decide

/-- C17, amended: for an entry `i` reached by the loop with the variables `v`,
the checks are applied in this order: conversion of the start; then
`start <= previous_end`, whatever the count; then, when `counts` is explicit,
conversion of the count and `count <= 0`; then `end > extent`; then the test of
the sum of the counts.  In particular an entry that has both a start
`<= previous_end` and a faulty count is reported with the ordering
diagnostic. -/
theorem checks_order (along dset_rank : Nat) (dset_dims : List Nat) (starts counts : SEXP)
    (t : Tables) (i : Nat) (v : AlongVars)
    (htypes : along_types along starts counts = .ok ())
    (hi : i < LENGTH (VECTOR_ELT starts along))
    (hprev : along_loop along dset_rank dset_dims (VECTOR_ELT starts along) counts
      (VECTOR_ELT counts along) i 0 ⟨0, 1, 0⟩ = .ok v) :
    (∀ d, get_elt_as_llint (VECTOR_ELT starts along) i .starts along = .error d →
      check_starts_counts_along along dset_rank dset_dims starts counts t = .error d) ∧
    (∀ s, get_elt_as_llint (VECTOR_ELT starts along) i .starts along = .ok s → s ≤ v.e →
      check_starts_counts_along along dset_rank dset_dims starts counts t =
        .error (.start_not_ascending along i)) ∧
    (∀ s d, get_elt_as_llint (VECTOR_ELT starts along) i .starts along = .ok s → v.e < s →
      is_R_NilValue counts = false →
      get_elt_as_llint (VECTOR_ELT counts along) i .counts along = .error d →
      check_starts_counts_along along dset_rank dset_dims starts counts t = .error d) ∧
    (∀ s c, get_elt_as_llint (VECTOR_ELT starts along) i .starts along = .ok s → v.e < s →
      is_R_NilValue counts = false →
      get_elt_as_llint (VECTOR_ELT counts along) i .counts along = .ok c → c ≤ 0 →
      check_starts_counts_along along dset_rank dset_dims starts counts t =
        .error (.count_not_positive along i)) ∧
    (∀ s c, get_elt_as_llint (VECTOR_ELT starts along) i .starts along = .ok s → v.e < s →
      ((is_R_NilValue counts = true ∧ c = 1) ∨
        (is_R_NilValue counts = false ∧
          get_elt_as_llint (VECTOR_ELT counts along) i .counts along = .ok c ∧ 0 < c)) →
      (to_hsize (wrap64 (s + c - 1)) > dset_dims.getD (dset_rank - 1 - along) 0 →
        check_starts_counts_along along dset_rank dset_dims starts counts t =
          .error (.out_of_bounds along i)) ∧
      (to_hsize (wrap64 (s + c - 1)) ≤ dset_dims.getD (dset_rank - 1 - along) 0 →
        wrap64 (v.count_sum + c) > INT_MAX →
        check_starts_counts_along along dset_rank dset_dims starts counts t =
          .error (.count_sum_too_big along))) := by
  refine ⟨?_, ?_, ?_, ?_, ?_⟩
  · intro d hs
    apply check_along_error_at t htypes hi hprev
    unfold along_body
    rw [hs]
  · intro s hs hle
    apply check_along_error_at t htypes hi hprev
    unfold along_body
    rw [hs]
    simp only [if_pos hle]
  · intro s d hs hlt hn hc
    apply check_along_error_at t htypes hi hprev
    unfold along_body
    rw [hs]
    simp only [if_neg (not_le.mpr hlt), hn, Bool.not_false, if_true, hc]
  · intro s c hs hlt hn hc hle
    apply check_along_error_at t htypes hi hprev
    unfold along_body
    rw [hs]
    simp only [if_neg (not_le.mpr hlt), hn, Bool.not_false, if_true, hc, if_pos hle]
  · intro s c hs hlt hc
    have hrc : (if (!is_R_NilValue counts) = true then
          match get_elt_as_llint (VECTOR_ELT counts along) i .counts along with
          | .error d => .error d
          | .ok c => if c ≤ 0 then .error (.count_not_positive along i) else .ok c
        else (.ok v.c : Except Diag Int)) = .ok c := by
      rcases hc with ⟨hn, h1⟩ | ⟨hn, h1, h2⟩
      · have hvc : v.c = 1 := by
          have hn2 : counts = .nil := by cases counts <;> simp [is_R_NilValue] at hn; rfl
          subst hn2
          exact along_loop_c_of_nil hprev
        simp only [hn, Bool.not_true, Bool.false_eq_true, if_false, hvc, h1]
      · simp only [hn, Bool.not_false, if_true, h1, if_neg (not_le.mpr h2)]
    constructor
    · intro hb
      apply check_along_error_at t htypes hi hprev
      unfold along_body
      rw [hs]
      simp only [if_neg (not_le.mpr hlt), hrc, if_pos hb]
    · intro hb hsum
      apply check_along_error_at t htypes hi hprev
      unfold along_body
      rw [hs]
      simp only [if_neg (not_le.mpr hlt), hrc, if_neg (not_lt.mpr hb), if_pos hsum]

/-- Witness for the amended C17: start `0` and count `0` on an axis of extent
10. -/
theorem checks_order_witness :
    check_starts_counts_along 0 1 [10] (.list [.int [0]]) (.list [.int [0]]) ⟨[0], [0], 1⟩ =
      .error (.start_not_ascending 0 0) :=
  (checks_order 0 1 [10] (.list [.int [0]]) (.list [.int [0]]) ⟨[0], [0], 1⟩ 0 ⟨0, 1, 0⟩
    (by decide) (by decide) (by decide)).2.1 0 (by decide) (by decide)

/-! ## Hyperslabs of descriptions accepted through an overflow -/

/-- C18: on a dataset of extent `2^63 + 975`, the starts `(2^63 - 1024,
2^63 - 1024)` with the counts `(2000, 1)` are accepted, with `count_sums[0]` and
`ans_len` equal to `2001`; the hyperslabs of the two combinations, of offsets
`2^63 - 1025` and extents `2000` and `1`, are not disjoint: the cell
`2^63 - 1025` belongs to both, so that their union has fewer cells than
`ans_len`. -/
theorem hyperslabs_overlap :
    deep_check_starts_counts 1 [9223372036854776783]
        (.list [.real [.finite 9223372036854774784, .finite 9223372036854774784]])
        (.list [.real [.finite 2000, .finite 1]]) [0] [0] =
      .ok ⟨[2], [2001], 2001⟩ ∧
    slab 1 (.list [.real [.finite 9223372036854774784, .finite 9223372036854774784]])
        (.list [.real [.finite 2000, .finite 1]]) [0] =
      ([9223372036854774783], [2000]) ∧
    slab 1 (.list [.real [.finite 9223372036854774784, .finite 9223372036854774784]])
        (.list [.real [.finite 2000, .finite 1]]) [1] =
      ([9223372036854774783], [1]) ∧
    in_slab ([9223372036854774783], [2000]) [9223372036854774783] ∧
    in_slab ([9223372036854774783], [1]) [9223372036854774783] := by
  decide

/-- C19: on a dataset of extent `2^63 + 975`, the starts `(2^63 - 1024, 0)` with
the counts `(2000, 1)` are accepted; the hyperslab of the combination that
chooses the second interval has the offset `2^64 - 1` and the extent `1`, and
does not lie inside the dataset. -/
theorem hyperslab_outside_dataset :
    deep_check_starts_counts 1 [9223372036854776783]
        (.list [.real [.finite 9223372036854774784, .finite 0]])
        (.list [.real [.finite 2000, .finite 1]]) [0] [0] =
      .ok ⟨[2], [2001], 2001⟩ ∧
    slab 1 (.list [.real [.finite 9223372036854774784, .finite 0]])
        (.list [.real [.finite 2000, .finite 1]]) [1] =
      ([18446744073709551615], [1]) ∧
    ¬ (18446744073709551615 + 1 ≤ 9223372036854776783) := by
  decide

/-! ## Hyperslabs of the descriptions accepted without overflow -/

/-- The entries of the hyperslab of a combination, for a validated description:
the slot `R - 1 - d` holds the start of the chosen interval of axis `d`, minus
one, and its count. -/
theorem slab_entries {dset_rank : Nat} {dset_dims : List Nat} {starts counts : SEXP}
    {nregion : List Nat} {count_sums : List Int} {t : Tables}
    (hnr : nregion.length = dset_rank) (hcs : count_sums.length = dset_rank)
    (hval : deep_check_starts_counts dset_rank dset_dims starts counts nregion count_sums =
      .ok t)
    (region_idx : List Nat) (d : Nat) (hd : d < dset_rank)
    (hidx : region_idx.getD d 0 < LENGTH (VECTOR_ELT starts d)) :
    (slab dset_rank starts counts region_idx).1.getD (dset_rank - 1 - d) 0 =
        to_hsize (axis_start starts d (region_idx.getD d 0) - 1) ∧
      ((slab dset_rank starts counts region_idx).2.getD (dset_rank - 1 - d) 0 : Int) =
        axis_count counts d (region_idx.getD d 0) := by
  obtain ⟨_, _, f3, f4, f5⟩ := fill_bufs_spec dset_rank starts counts region_idx dset_rank 0
    ⟨List.replicate dset_rank 0, List.replicate dset_rank 1⟩ (by omega) (by simp) (by simp)
  obtain ⟨_, _, a3⟩ := (deep_check_ok hnr hcs hval).1 d hd
  obtain ⟨g1, g2, g3⟩ := a3 (region_idx.getD d 0) hidx
  have hoff := f3 d hd
  simp only [Nat.zero_le, if_true] at hoff
  rw [elt_as_hsize_of_get g1, hsize_pred] at hoff
  refine ⟨hoff, ?_⟩
  show ((fill_bufs dset_rank starts counts region_idx dset_rank 0
    ⟨List.replicate dset_rank 0, List.replicate dset_rank 1⟩).count_buf.getD
      (dset_rank - 1 - d) 0 : Int) = _
  cases hn : is_R_NilValue counts with
  | true =>
    rw [f5 hn]
    have : dset_rank - 1 - d < dset_rank := by omega
    simp [axis_count, hn, List.getD_eq_getElem?_getD, List.getElem?_replicate, this]
  | false =>
    have hc := f4 hn d hd
    simp only [Nat.zero_le, if_true] at hc
    rw [hc, elt_as_hsize_of_get (g2 hn)]
    exact to_hsize_eq (by omega) (by have := (get_elt_as_llint_range (g2 hn)).2; omega)

/-- In an ascending chain of intervals, an interval ends before every later
interval starts, and every start is at least `1`. -/
theorem chain_lt {S C : Nat → Int} {n : Nat} (hC : ∀ i, i < n → 0 < C i)
    (hfirst : 0 < n → 1 ≤ S 0)
    (hchain : ∀ i, i + 1 < n → S i + C i - 1 < S (i + 1)) :
    (∀ i, i < n → 1 ≤ S i) ∧ ∀ i j, i < j → j < n → S i + C i - 1 < S j := by
  have hmono : ∀ i j, i < j → j < n → S i + C i - 1 < S j := by
    intro i j hij hj
    induction j with
    | zero => omega
    | succ j ih =>
      by_cases h : i = j
      · subst h; exact hchain i hj
      · have h1 := ih (by omega) (by omega)
        have h2 := hchain j hj
        have h3 := hC j (by omega)
        omega
  refine ⟨fun i hi => ?_, hmono⟩
  rcases Nat.eq_zero_or_pos i with h | h
  · subst h; exact hfirst hi
  · have h1 := hmono 0 i h hi
    have h2 := hfirst (by omega)
    have h3 := hC 0 (by omega)
    omega

/-- When the extent of the dataset along an axis is below `2^63`, the hyperslab
of every combination of a validated description lies, along this axis, inside
the dataset: in storage slot `k = R - 1 - d`, `offset[k] + extent[k]` is at most
`dset_dims[k]`, and the offset is the start minus one. -/
theorem hyperslab_inside {dset_rank : Nat} {dset_dims : List Nat} {starts counts : SEXP}
    {nregion : List Nat} {count_sums : List Int} {t : Tables}
    (hnr : nregion.length = dset_rank) (hcs : count_sums.length = dset_rank)
    (hval : deep_check_starts_counts dset_rank dset_dims starts counts nregion count_sums =
      .ok t)
    (region_idx : List Nat) (d : Nat) (hd : d < dset_rank)
    (hidx : region_idx.getD d 0 < t.nregion.getD d 0)
    (hext : dset_dims.getD (dset_rank - 1 - d) 0 < 9223372036854775808) :
    ((slab dset_rank starts counts region_idx).1.getD (dset_rank - 1 - d) 0 : Int) =
        axis_start starts d (region_idx.getD d 0) - 1 ∧
      (slab dset_rank starts counts region_idx).1.getD (dset_rank - 1 - d) 0 +
          (slab dset_rank starts counts region_idx).2.getD (dset_rank - 1 - d) 0 ≤
        dset_dims.getD (dset_rank - 1 - d) 0 := by
  obtain ⟨a1, _, a3⟩ := (deep_check_ok hnr hcs hval).1 d hd
  rw [a1] at hidx
  obtain ⟨s1, s2⟩ := slab_entries hnr hcs hval region_idx d hd hidx
  obtain ⟨_, _, e3, e4, e5⟩ := deep_check_exact hnr hcs hval d hd hext
  obtain ⟨c1, _⟩ := @chain_lt (axis_start starts d) (axis_count counts d)
    (LENGTH (VECTOR_ELT starts d)) (fun i hi => (a3 i hi).2.2) e3 e5
  have hpos := c1 _ hidx
  have hb := e4 _ hidx
  have hoff := @to_hsize_eq (axis_start starts d (region_idx.getD d 0) - 1) (by omega)
    (by omega)
  rw [← s1] at hoff
  refine ⟨hoff, ?_⟩
  omega

/-- When the extent of the dataset along an axis is below `2^63`, the hyperslabs
of two combinations of a validated description that choose different intervals
on this axis have no cell in common. -/
theorem hyperslabs_disjoint {dset_rank : Nat} {dset_dims : List Nat} {starts counts : SEXP}
    {nregion : List Nat} {count_sums : List Int} {t : Tables}
    (hnr : nregion.length = dset_rank) (hcs : count_sums.length = dset_rank)
    (hval : deep_check_starts_counts dset_rank dset_dims starts counts nregion count_sums =
      .ok t)
    (idx1 idx2 : List Nat) (d : Nat) (hd : d < dset_rank)
    (h1 : idx1.getD d 0 < t.nregion.getD d 0) (h2 : idx2.getD d 0 < t.nregion.getD d 0)
    (hne : idx1.getD d 0 ≠ idx2.getD d 0)
    (hext : dset_dims.getD (dset_rank - 1 - d) 0 < 9223372036854775808) (x : List Nat) :
    ¬ (in_slab (slab dset_rank starts counts idx1) x ∧
      in_slab (slab dset_rank starts counts idx2) x) := by
  rintro ⟨⟨_, b1⟩, ⟨_, b2⟩⟩
  obtain ⟨l1, _, _⟩ := slab_lengths dset_rank starts counts idx1
  obtain ⟨l2, _, _⟩ := slab_lengths dset_rank starts counts idx2
  have hk : dset_rank - 1 - d < dset_rank := by omega
  have c1 := b1 (dset_rank - 1 - d) (by rw [l1]; exact hk)
  have c2 := b2 (dset_rank - 1 - d) (by rw [l2]; exact hk)
  obtain ⟨o1, _⟩ := hyperslab_inside hnr hcs hval idx1 d hd h1 hext
  obtain ⟨o2, _⟩ := hyperslab_inside hnr hcs hval idx2 d hd h2 hext
  obtain ⟨a1, _, a3⟩ := (deep_check_ok hnr hcs hval).1 d hd
  rw [a1] at h1 h2
  obtain ⟨_, s1⟩ := slab_entries hnr hcs hval idx1 d hd h1
  obtain ⟨_, s2⟩ := slab_entries hnr hcs hval idx2 d hd h2
  obtain ⟨_, _, e3, _, e5⟩ := deep_check_exact hnr hcs hval d hd hext
  obtain ⟨_, hm⟩ := @chain_lt (axis_start starts d) (axis_count counts d)
    (LENGTH (VECTOR_ELT starts d)) (fun i hi => (a3 i hi).2.2) e3 e5
  rcases Nat.lt_or_gt_of_ne hne with hlt | hlt
  · have := hm _ _ hlt h2
    omega
  · have := hm _ _ hlt h1
    omega

/-! ## The length of the answer when the product does not overflow -/

theorem prod_pos_int {l : List Int} (h : ∀ z ∈ l, 1 ≤ z) : 1 ≤ l.prod := by
  induction l with
  | nil => simp
  | cons a l ih =>
    rw [List.prod_cons]
    have h1 := h a (by simp)
    have h2 := ih (fun z hz => h z (by simp [hz]))
    exact one_le_mul_of_one_le_of_one_le h1 h2

theorem exact_count_sum_pos {starts counts : SEXP} {d : Nat}
    (hpos : ∀ i, i < LENGTH (VECTOR_ELT starts d) → 0 < axis_count counts d i)
    (hn : 0 < LENGTH (VECTOR_ELT starts d)) : 1 ≤ exact_count_sum starts counts d := by
  unfold exact_count_sum
  obtain ⟨n, hn2⟩ : ∃ n, LENGTH (VECTOR_ELT starts d) = n + 1 :=
    ⟨LENGTH (VECTOR_ELT starts d) - 1, by omega⟩
  rw [hn2] at hpos ⊢
  rw [List.range_succ, List.map_append, List.sum_append]
  have h1 : 0 ≤ ((List.range n).map (axis_count counts d)).sum := by
    apply List.sum_nonneg
    intro z hz
    obtain ⟨i, hi, rfl⟩ := List.mem_map.mp hz
    have := hpos i (by have := List.mem_range.mp hi; omega)
    omega
  have h2 := hpos n (by omega)
  simp only [List.map_cons, List.map_nil, List.sum_cons, List.sum_nil, add_zero]
  omega

/-- When every extent of the dataset is below `2^63` and the exact product of
the exact sums of the counts is below `2^63`, the length `ans_len` of a
validated description is that product, and it is `0` if and only if some axis
has no interval. -/
theorem ans_len_exact {dset_rank : Nat} {dset_dims : List Nat} {starts counts : SEXP}
    {nregion : List Nat} {count_sums : List Int} {t : Tables}
    (hnr : nregion.length = dset_rank) (hcs : count_sums.length = dset_rank)
    (hval : deep_check_starts_counts dset_rank dset_dims starts counts nregion count_sums =
      .ok t)
    (hext : ∀ d, d < dset_rank → dset_dims.getD (dset_rank - 1 - d) 0 < 9223372036854775808)
    (hprod : ((List.range dset_rank).map (exact_count_sum starts counts)).prod <
      9223372036854775808) :
    t.ans_len = ((List.range dset_rank).map (exact_count_sum starts counts)).prod ∧
      (t.ans_len = 0 ↔ ∃ d, d < dset_rank ∧ LENGTH (VECTOR_ELT starts d) = 0) := by
  obtain ⟨h1, h2⟩ := deep_check_ok hnr hcs hval
  have hmap : (List.range dset_rank).map (fun d => t.count_sums.getD d 0) =
      (List.range dset_rank).map (exact_count_sum starts counts) := by
    apply List.map_congr_left
    intro d hd
    rw [List.mem_range] at hd
    exact (deep_check_exact hnr hcs hval d hd (hext d hd)).1
  rw [hmap] at h2
  by_cases hz : ∃ d, d < dset_rank ∧ LENGTH (VECTOR_ELT starts d) = 0
  · obtain ⟨d, hd, he⟩ := hz
    have h0 := (ans_len_zero_of_empty hnr hcs hval d hd he)
    have hs0 : exact_count_sum starts counts d = 0 := by
      rw [← (deep_check_exact hnr hcs hval d hd (hext d hd)).1]; exact h0.2.1
    have hp0 : ((List.range dset_rank).map (exact_count_sum starts counts)).prod = 0 :=
      List.prod_eq_zero (List.mem_map.mpr ⟨d, List.mem_range.mpr hd, hs0⟩)
    exact ⟨by rw [h0.2.2, hp0], fun _ => ⟨d, hd, he⟩, fun _ => h0.2.2⟩
  · have hall : ∀ z ∈ (List.range dset_rank).map (exact_count_sum starts counts), 1 ≤ z := by
      intro z hzm
      obtain ⟨d, hd, rfl⟩ := List.mem_map.mp hzm
      rw [List.mem_range] at hd
      apply exact_count_sum_pos (fun i hi => ((h1 d hd).2.2 i hi).2.2)
      rcases Nat.eq_zero_or_pos (LENGTH (VECTOR_ELT starts d)) with h | h
      · exact absurd ⟨d, hd, h⟩ hz
      · exact h
    have hp := prod_pos_int hall
    have hw := wrap64_eq_self (z := ((List.range dset_rank).map
      (exact_count_sum starts counts)).prod) (by omega) hprod
    rw [hw] at h2
    refine ⟨h2, fun h0 => ?_, fun h => absurd h hz⟩
    rw [h2] at h0
    omega

/-! ## The dataspaces opened and closed by `h5mread` -/

theorem opened_count_append (failing : List Nat) (sp : Space) (pos : Nat)
    (xs ys : List H5Call) :
    opened_count failing sp pos (xs ++ ys) =
      opened_count failing sp pos xs + opened_count failing sp (pos + xs.length) ys := by
  induction xs generalizing pos with
  | nil => simp [opened_count]
  | cons x xs ih =>
    rw [List.cons_append]
    simp only [opened_count, List.length_cons]
    rw [ih, show pos + (xs.length + 1) = pos + 1 + xs.length by omega]
    omega

theorem closed_count_append (sp : Space) (xs ys : List H5Call) :
    closed_count sp (xs ++ ys) = closed_count sp xs + closed_count sp ys := by
  induction xs with
  | nil => simp [closed_count]
  | cons x xs ih =>
    rw [List.cons_append]
    simp only [closed_count]
    rw [ih]
    omega

theorem counts_of_hyperslab_calls (failing : List Nat) (sp : Space) (pos : Nat)
    (hs : List H5Call) (h : ∀ c ∈ hs, is_hyperslab_call c) :
    opened_count failing sp pos hs = 0 ∧ closed_count sp hs = 0 := by
  induction hs generalizing pos with
  | nil => exact ⟨rfl, rfl⟩
  | cons c hs ih =>
    obtain ⟨o, e, rfl⟩ := h c (by simp)
    obtain ⟨h1, h2⟩ := ih (pos + 1) (fun x hx => h x (by simp [hx]))
    constructor
    · simp only [opened_count, h1]
    · simp only [closed_count, h2]
      simp

/-- What `prepare_file_space` does to the dataspaces, whatever the store does:
it opens no destination space; when it fails it has closed the source space if
it had opened it; when it succeeds the source space is open. -/
theorem prepare_file_space_frame {fuel : Nat} {st st1 : Store} {starts counts : SEXP}
    {count_sums : List Int} {r : Except (Option Diag) Tables}
    (h : prepare_file_space fuel st starts counts count_sums = some (r, st1)) :
    st1.failing = st.failing ∧
      ∃ extra, st1.calls = st.calls ++ extra ∧
        opened_count st.failing .mem st.calls.length extra = 0 ∧
        closed_count .mem extra = 0 ∧
        ((∃ e, r = .error e ∧
            closed_count .file extra = opened_count st.failing .file st.calls.length extra) ∨
          (∃ t, r = .ok t ∧ opened_count st.failing .file st.calls.length extra = 1 ∧
            closed_count .file extra = 0)) := by
  unfold prepare_file_space at h
  simp only [] at h
  split at h
  · rename_i h0
    simp only [Option.some.injEq, Prod.mk.injEq] at h
    obtain ⟨h1, h2⟩ := h
    subst h1 h2
    have hf : st.calls.length ∈ st.failing := by simpa [Store.issue] using h0
    exact ⟨rfl, [.H5Dget_space], rfl, rfl, rfl,
      Or.inl ⟨_, rfl, by simp [opened_count, closed_count, hf]⟩⟩
  · rename_i h0
    have hf : st.calls.length ∉ st.failing := by simpa [Store.issue] using h0
    split at h
    · simp only [Option.some.injEq, Prod.mk.injEq] at h
      obtain ⟨h1, h2⟩ := h
      subst h1 h2
      exact ⟨rfl, [.H5Dget_space, .H5Sget_simple_extent_ndims, .H5Sclose .file],
        by simp [Store.issue], rfl, rfl,
        Or.inl ⟨_, rfl, by simp [opened_count, closed_count, hf]⟩⟩
    · split at h
      · simp only [Option.some.injEq, Prod.mk.injEq] at h
        obtain ⟨h1, h2⟩ := h
        subst h1 h2
        exact ⟨rfl, [.H5Dget_space, .H5Sget_simple_extent_ndims,
          .H5Sget_simple_extent_dims, .H5Sclose .file],
          by simp [Store.issue], rfl, rfl,
          Or.inl ⟨_, rfl, by simp [opened_count, closed_count, hf]⟩⟩
      · split at h
        · simp only [Option.some.injEq, Prod.mk.injEq] at h
          obtain ⟨h1, h2⟩ := h
          subst h1 h2
          exact ⟨rfl, [.H5Dget_space, .H5Sget_simple_extent_ndims,
            .H5Sget_simple_extent_dims, .H5Sclose .file],
            by simp [Store.issue], rfl, rfl,
            Or.inl ⟨_, rfl, by simp [opened_count, closed_count, hf]⟩⟩
        · rename_i t hd
          split at h
          · simp at h
          · rename_i d st3 hset
            simp only [Option.some.injEq, Prod.mk.injEq] at h
            obtain ⟨h1, h2⟩ := h
            subst h1 h2
            obtain ⟨f1, _, hs, f3, f4⟩ := set_regions_frame hset
            refine ⟨f1, [.H5Dget_space, .H5Sget_simple_extent_ndims,
              .H5Sget_simple_extent_dims, .H5Sselect_none] ++ hs ++ [.H5Sclose .file],
              by simp [Store.issue, f3], ?_, ?_, Or.inl ⟨_, rfl, ?_⟩⟩
            · rw [opened_count_append, opened_count_append,
                (counts_of_hyperslab_calls _ _ _ hs f4).1]
              simp [opened_count]
            · rw [closed_count_append, closed_count_append,
                (counts_of_hyperslab_calls st.failing .mem 0 hs f4).2]
              simp [closed_count]
            · rw [opened_count_append, opened_count_append, closed_count_append,
                closed_count_append, (counts_of_hyperslab_calls _ _ _ hs f4).1,
                (counts_of_hyperslab_calls st.failing .file 0 hs f4).2]
              simp [opened_count, closed_count, hf]
          · rename_i u st3 hset
            simp only [Option.some.injEq, Prod.mk.injEq] at h
            obtain ⟨h1, h2⟩ := h
            subst h1 h2
            obtain ⟨f1, _, hs, f3, f4⟩ := set_regions_frame hset
            refine ⟨f1, [.H5Dget_space, .H5Sget_simple_extent_ndims,
              .H5Sget_simple_extent_dims, .H5Sselect_none] ++ hs,
              by simp [Store.issue, f3], ?_, ?_, Or.inr ⟨_, rfl, ?_, ?_⟩⟩
            · rw [opened_count_append, (counts_of_hyperslab_calls _ _ _ hs f4).1]
              simp [opened_count]
            · rw [closed_count_append, (counts_of_hyperslab_calls st.failing .mem 0 hs f4).2]
              simp [closed_count]
            · rw [opened_count_append, (counts_of_hyperslab_calls _ _ _ hs f4).1]
              simp [opened_count, hf]
            · rw [closed_count_append, (counts_of_hyperslab_calls st.failing .file 0 hs f4).2]
              simp [closed_count]

/-- The three outcomes of `prepare_mem_space`, whatever the store does. -/
theorem prepare_mem_space_cases (st : Store) (dset_rank : Nat) (count_sums : List Int) :
    (prepare_mem_space st dset_rank count_sums).2.failing = st.failing ∧
    ∃ dims,
      ((prepare_mem_space st dset_rank count_sums).1 = .error (some .create_simple_failed) ∧
        st.calls.length ∈ st.failing ∧
        (prepare_mem_space st dset_rank count_sums).2.calls =
          st.calls ++ [.H5Screate_simple dims]) ∨
      ((prepare_mem_space st dset_rank count_sums).1 =
          .error (some .select_hyperslab_failed) ∧
        st.calls.length ∉ st.failing ∧
        (prepare_mem_space st dset_rank count_sums).2.calls =
          st.calls ++ [.H5Screate_simple dims, .H5Sselect_all]) ∨
      ((prepare_mem_space st dset_rank count_sums).1 = .ok () ∧
        st.calls.length ∉ st.failing ∧
        (prepare_mem_space st dset_rank count_sums).2.calls =
          st.calls ++ [.H5Screate_simple dims, .H5Sselect_all]) := by
  unfold prepare_mem_space
  simp only []
  refine ⟨?_, mem_dims dset_rank count_sums dset_rank 0 (List.replicate dset_rank 0), ?_⟩
  · split
    · rfl
    · split <;> rfl
  · split
    · rename_i h0
      have hf : st.calls.length ∈ st.failing := by simpa [Store.issue] using h0
      exact Or.inl ⟨rfl, hf, rfl⟩
    · rename_i h0
      have hf : st.calls.length ∉ st.failing := by simpa [Store.issue] using h0
      split
      · exact Or.inr (Or.inl ⟨rfl, hf, by simp [Store.issue]⟩)
      · exact Or.inr (Or.inr ⟨rfl, hf, by simp [Store.issue]⟩)

/-- The dataspaces opened and closed by `h5mread`, whatever the store does and
on every return path (that is, when `NEW_INTEGER` raises no error): the source
space is closed as many times as it has been opened; so is the destination
space, except on the path on which `H5Sselect_all` fails, where the destination
space has been opened once and is not closed. -/
theorem h5mread_handles {fuel : Nat} {st st1 : Store} {starts counts : SEXP}
    {r : Except (Option Diag) Answer}
    (h : h5mread fuel st starts counts = some (r, st1))
    (hr : r ≠ .error (some .alloc_vector_error)) :
    ∃ extra, st1.calls = st.calls ++ extra ∧
      closed_count .file extra = opened_count st.failing .file st.calls.length extra ∧
      (closed_count .mem extra = opened_count st.failing .mem st.calls.length extra ∨
        (r = .error (some .select_hyperslab_failed) ∧ H5Call.H5Sselect_all ∈ extra ∧
          opened_count st.failing .mem st.calls.length extra = 1 ∧
          closed_count .mem extra = 0)) := by
  unfold h5mread at h
  split at h
  · simp only [Option.some.injEq, Prod.mk.injEq] at h
    obtain ⟨_, h2⟩ := h
    subst h2
    exact ⟨[], by simp, rfl, Or.inl rfl⟩
  · rename_i n hsh
    split at h
    · simp at h
    · rename_i d st2 hp
      simp only [Option.some.injEq, Prod.mk.injEq] at h
      obtain ⟨_, h2⟩ := h
      subst h2
      obtain ⟨_, extra, e1, e2, e3, e4⟩ := prepare_file_space_frame hp
      rcases e4 with ⟨_, _, e5⟩ | ⟨_, e5, _⟩
      · exact ⟨extra, e1, e5, Or.inl (by rw [e2, e3])⟩
      · exact absurd e5 (by simp)
    · rename_i t st2 hp
      obtain ⟨f1, extra, e1, e2, e3, e4⟩ := prepare_file_space_frame hp
      rcases e4 with ⟨_, e5, _⟩ | ⟨_, _, e5, e6⟩
      · exact absurd e5 (by simp)
      · have hlen : st2.calls.length = st.calls.length + extra.length := by
          rw [e1, List.length_append]
        simp only [] at h
        split at h
        · obtain ⟨g1, dims, hc⟩ := prepare_mem_space_cases st2 n t.count_sums
          rw [f1, hlen] at hc
          rcases hc with ⟨c1, c2, c3⟩ | ⟨c1, c2, c3⟩ | ⟨c1, c2, c3⟩
          · rw [show prepare_mem_space st2 n t.count_sums =
              (.error (some .create_simple_failed), (prepare_mem_space st2 n t.count_sums).2)
              from Prod.ext c1 rfl] at h
            simp only [Option.some.injEq, Prod.mk.injEq] at h
            obtain ⟨_, h2⟩ := h
            subst h2
            refine ⟨extra ++ [.H5Screate_simple dims, .H5Sclose .file],
              by simp [Store.issue, c3, e1], ?_, Or.inl ?_⟩
            · rw [closed_count_append, opened_count_append, e5, e6]
              simp [opened_count, closed_count]
            · rw [closed_count_append, opened_count_append, e2, e3]
              simp [opened_count, closed_count, c2]
          · rw [show prepare_mem_space st2 n t.count_sums =
              (.error (some .select_hyperslab_failed),
                (prepare_mem_space st2 n t.count_sums).2) from Prod.ext c1 rfl] at h
            simp only [Option.some.injEq, Prod.mk.injEq] at h
            obtain ⟨h1, h2⟩ := h
            subst h1 h2
            refine ⟨extra ++ [.H5Screate_simple dims, .H5Sselect_all, .H5Sclose .file],
              by simp [Store.issue, c3, e1], ?_, Or.inr ⟨rfl, by simp, ?_, ?_⟩⟩
            · rw [closed_count_append, opened_count_append, e5, e6]
              simp [opened_count, closed_count]
            · rw [opened_count_append, e2]
              simp [opened_count, c2]
            · rw [closed_count_append, e3]
              simp [closed_count]
          · rw [show prepare_mem_space st2 n t.count_sums =
              (.ok (), (prepare_mem_space st2 n t.count_sums).2) from Prod.ext c1 rfl] at h
            simp only [] at h
            split at h
            · simp only [Option.some.injEq, Prod.mk.injEq] at h
              exact absurd h.1.symm hr
            have hst1 : st1 = ((((prepare_mem_space st2 n t.count_sums).2.issue
                .H5Dread).2.issue (.H5Sclose .mem)).2.issue (.H5Sclose .file)).2 := by
              split at h <;>
              · simp only [Option.some.injEq, Prod.mk.injEq] at h
                exact h.2.symm
            subst hst1
            refine ⟨extra ++ [.H5Screate_simple dims, .H5Sselect_all, .H5Dread,
              .H5Sclose .mem, .H5Sclose .file],
              by simp [Store.issue, c3, e1], ?_, Or.inl ?_⟩
            · rw [closed_count_append, opened_count_append, e5, e6]
              simp [opened_count, closed_count]
            · rw [closed_count_append, opened_count_append, e2, e3]
              simp [opened_count, closed_count, c2]
        · split at h
          · simp only [Option.some.injEq, Prod.mk.injEq] at h
            exact absurd h.1.symm hr
          simp only [Option.some.injEq, Prod.mk.injEq] at h
          obtain ⟨_, h2⟩ := h
          subst h2
          refine ⟨extra ++ [.H5Sclose .file], by simp [Store.issue, e1], ?_, Or.inl ?_⟩
          · rw [closed_count_append, opened_count_append, e5, e6]
            simp [opened_count, closed_count]
          · rw [closed_count_append, opened_count_append, e2, e3]
            simp [opened_count, closed_count]

/-! ## The failures that carry no diagnostic -/

theorem set_regions_no_message {fuel : Nat} {st st1 : Store} {dset_rank : Nat}
    {starts counts : SEXP} {nregion : List Nat}
    (h : set_regions_to_read fuel st dset_rank starts counts nregion =
      some (.error none, st1)) :
    st.calls.length ∈ st.failing ∧ st1 = (st.issue .H5Sselect_none).2 := by
  unfold set_regions_to_read at h
  simp only [] at h
  split at h
  · rename_i h0
    simp only [Option.some.injEq, Prod.mk.injEq, true_and] at h
    exact ⟨by simpa [Store.issue] using h0, h.symm⟩
  · split at h
    · simp at h
    · split at h
      · simp at h
      · split at h <;> simp at h

/-- The only failure of `h5mread` that carries no diagnostic is the failure of
the call `H5Sselect_none`: every other failure has written `errmsg_buf`. -/
theorem h5mread_no_message {fuel : Nat} {st st1 : Store} {starts counts : SEXP}
    (h : h5mread fuel st starts counts = some (.error none, st1)) :
    st.calls.length + 3 ∈ st.failing ∧
      st1.calls = st.calls ++ [.H5Dget_space, .H5Sget_simple_extent_ndims,
        .H5Sget_simple_extent_dims, .H5Sselect_none, .H5Sclose .file] := by
  unfold h5mread at h
  split at h
  · simp at h
  · split at h
    · simp at h
    · rename_i n hsh d st2 hp
      simp only [Option.some.injEq, Prod.mk.injEq, Except.error.injEq] at h
      obtain ⟨h1, h2⟩ := h
      subst h1 h2
      unfold prepare_file_space at hp
      simp only [] at hp
      split at hp
      · simp at hp
      · split at hp
        · simp at hp
        · split at hp
          · simp at hp
          · split at hp
            · simp at hp
            · split at hp
              · simp at hp
              · rename_i d3 st3 hset
                simp only [Option.some.injEq, Prod.mk.injEq, Except.error.injEq] at hp
                obtain ⟨h1, h2⟩ := hp
                subst h1 h2
                obtain ⟨s1, s2⟩ := set_regions_no_message hset
                subst s2
                constructor
                · simpa [Store.issue] using s1
                · simp [Store.issue]
              · simp at hp
    · rename_i n hsh t st2 hp
      simp only [] at h
      split at h
      · split at h
        · rename_i d st3 hm
          simp only [Option.some.injEq, Prod.mk.injEq, Except.error.injEq] at h
          obtain ⟨h1, _⟩ := h
          subst h1
          unfold prepare_mem_space at hm
          simp only [] at hm
          split at hm
          · simp at hm
          · split at hm <;> simp at hm
        · split at h
          · simp at h
          · split at h <;> simp at h
      · split at h <;> simp at h

/-! ## The number of cells selected -/

theorem sum_div_mod (n P : Nat) (u w : Nat → Int) :
    ∑ j ∈ Finset.range (n * P), u (j % n) * w (j / n) =
      (∑ i ∈ Finset.range n, u i) * (∑ q ∈ Finset.range P, w q) := by
  rcases Nat.eq_zero_or_pos n with hn | hn
  · subst hn; simp
  induction P with
  | zero => simp
  | succ P ih =>
    rw [Nat.mul_succ, Finset.sum_range_add, ih, Finset.sum_range_succ, mul_add]
    congr 1
    rw [Finset.sum_mul]
    apply Finset.sum_congr rfl
    intro i hi
    rw [Finset.mem_range] at hi
    rw [Nat.mul_add_mod, Nat.mod_eq_of_lt hi, Nat.mul_add_div hn, Nat.div_eq_of_lt hi,
      Nat.add_zero]

/-- Summing over the combinations, in the order of the enumeration, a product of
one factor for each axis gives the product over the axes of the sums of the
factors. -/
theorem mixed_radix_sum (ns : List Nat) (c : Nat → Nat → Int) (a : Nat) :
    ∑ j ∈ Finset.range ns.prod, ∏ d ∈ Finset.range ns.length,
        c (a + d) ((digits ns j).getD d 0) =
      ∏ d ∈ Finset.range ns.length, ∑ i ∈ Finset.range (ns.getD d 0), c (a + d) i := by
  induction ns generalizing a with
  | nil => simp
  | cons n ns ih =>
    simp only [List.prod_cons, List.length_cons]
    have hterm : ∀ j, ∏ d ∈ Finset.range (ns.length + 1),
        c (a + d) ((digits (n :: ns) j).getD d 0) =
        c a (j % n) * ∏ d ∈ Finset.range ns.length,
          c (a + 1 + d) ((digits ns (j / n)).getD d 0) := by
      intro j
      rw [Finset.prod_range_succ', mul_comm]
      congr 1
      apply Finset.prod_congr rfl
      intro d _
      simp only [digits, List.getD_cons_succ]
      rw [show a + (d + 1) = a + 1 + d by omega]
    simp only [hterm]
    rw [sum_div_mod n ns.prod (fun i => c a i)
      (fun q => ∏ d ∈ Finset.range ns.length, c (a + 1 + d) ((digits ns q).getD d 0)),
      ih (a + 1),
      Finset.prod_range_succ', mul_comm]
    congr 1
    apply Finset.prod_congr rfl
    intro d _
    simp only [List.getD_cons_succ]
    rw [show a + (d + 1) = a + 1 + d by omega]

theorem digits_getD_lt (ns : List Nat) (j : Nat) (hj : j < ns.prod) (d : Nat)
    (hd : d < ns.length) : (digits ns j).getD d 0 < ns.getD d 0 := by
  induction ns generalizing j d with
  | nil => simp at hd
  | cons n ns ih =>
    rw [List.prod_cons] at hj
    have hn : 0 < n := by
      rcases Nat.eq_zero_or_pos n with h | h
      · subst h; simp at hj
      · exact h
    cases d with
    | zero => simpa [digits] using Nat.mod_lt _ hn
    | succ d =>
      simp only [digits, List.getD_cons_succ]
      apply ih
      · exact Nat.div_lt_of_lt_mul hj
      · simpa using hd

theorem list_sum_range (f : Nat → Int) (n : Nat) :
    ((List.range n).map f).sum = ∑ i ∈ Finset.range n, f i := by
  induction n with
  | zero => simp
  | succ n ih =>
    rw [List.range_succ, List.map_append, List.sum_append, ih, Finset.sum_range_succ]
    simp

/-- When every extent of the dataset is below `2^63`, the numbers of cells of the
hyperslabs of all the combinations of a validated description add up to the
product of the count sums: together with their disjointness, the hyperslabs
cover exactly as many cells as the destination space has. -/
theorem hyperslab_cells_total {dset_rank : Nat} {dset_dims : List Nat}
    {starts counts : SEXP} {nregion : List Nat} {count_sums : List Int} {t : Tables}
    (hnr : nregion.length = dset_rank) (hcs : count_sums.length = dset_rank)
    (hval : deep_check_starts_counts dset_rank dset_dims starts counts nregion count_sums =
      .ok t)
    (hext : ∀ d, d < dset_rank →
      dset_dims.getD (dset_rank - 1 - d) 0 < 9223372036854775808) :
    ∑ j ∈ Finset.range t.nregion.prod, ∏ k ∈ Finset.range dset_rank,
        ((slab dset_rank starts counts (digits t.nregion j)).2.getD k 0 : Int) =
      ∏ d ∈ Finset.range dset_rank, t.count_sums.getD d 0 := by
  have hlen : t.nregion.length = dset_rank := by rw [(deep_check_lengths hval).1, hnr]
  have hok := (deep_check_ok hnr hcs hval).1
  have hterm : ∀ j ∈ Finset.range t.nregion.prod, ∏ k ∈ Finset.range dset_rank,
      ((slab dset_rank starts counts (digits t.nregion j)).2.getD k 0 : Int) =
      ∏ d ∈ Finset.range t.nregion.length,
        axis_count counts (0 + d) ((digits t.nregion j).getD d 0) := by
    intro j hj
    rw [Finset.mem_range] at hj
    rw [hlen, ← Finset.prod_range_reflect]
    apply Finset.prod_congr rfl
    intro d hd
    rw [Finset.mem_range] at hd
    rw [Nat.zero_add]
    refine (slab_entries hnr hcs hval _ d hd ?_).2
    rw [← (hok d hd).1]
    exact digits_getD_lt _ _ hj _ (by omega)
  rw [Finset.sum_congr rfl hterm, mixed_radix_sum t.nregion (fun d i => axis_count counts d i) 0,
    hlen]
  apply Finset.prod_congr rfl
  intro d hd
  rw [Finset.mem_range] at hd
  rw [Nat.zero_add, (deep_check_exact hnr hcs hval d hd (hext d hd)).1, exact_count_sum,
    list_sum_range, (hok d hd).1]


/-! ## Offsets and extents that are not the start minus one and the count sum -/

/-- C4: on a dataset of extent `2^63 + 975`, the starts `(2^63 - 1024, 0)` with
the counts `(2000, 3)`, numeric vectors that hold integers, are accepted by
`deep_check_starts_counts`, because the end `e = s + c - 1` of the first
interval overflows.  For the combination that chooses the second interval,
`add_region_to_read` unions the hyperslab of offset `2^64 - 1` and extent `3`,
whereas `starts[0][1] - 1` is `-1`: the offset is not the start minus one. -/
theorem hyperslab_offset_not_start_minus_one :
    holds_ints (.real [.finite 9223372036854774784, .finite 0]) [9223372036854774784, 0] ∧
    holds_ints (.real [.finite 2000, .finite 3]) [2000, 3] ∧
    deep_check_starts_counts 1 [9223372036854776783]
        (.list [.real [.finite 9223372036854774784, .finite 0]])
        (.list [.real [.finite 2000, .finite 3]]) [0] [0] =
      .ok ⟨[2], [2003], 2003⟩ ∧
    axis_start (.list [.real [.finite 9223372036854774784, .finite 0]]) 0 1 = 0 ∧
    add_region_to_read ⟨[9223372036854776783], [], [], []⟩ 1
        (.list [.real [.finite 9223372036854774784, .finite 0]])
        (.list [.real [.finite 2000, .finite 3]]) [1] ⟨[0], [1]⟩ =
      (.ok (), ⟨[9223372036854776783], [],
        [.H5Sselect_hyperslab [18446744073709551615] [3]], []⟩,
        ⟨[18446744073709551615], [3]⟩) ∧
    ¬ ((18446744073709551615 : Int) = 0 - 1) := by
  refine ⟨Or.inr ⟨by simp, by decide⟩, Or.inr ⟨by simp, by decide⟩, ?_, ?_, ?_, ?_⟩ <;>
    decide

/-- C14: on a dataset of extent `2^63 + 1023`, the starts `(1, 2048, 1)` with the
counts `(1025, 2^63 - 1024, 2^31)`, given as numeric vectors, are accepted by
`deep_check_starts_counts` with `count_sums[0] = -2147483647` and
`ans_len = -2147483647`, because the addition `count_sum += c` overflows.  As
`ans_len` is not `0`, `prepare_mem_space` creates the destination space: its
extent `dims[0]` is `2^64 - 2147483647`, which is not `count_sums[0]`.  After
that `NEW_INTEGER(ans_len)` raises an error, the length being negative. -/
theorem destination_extent_not_count_sum :
    deep_check_starts_counts 1 [9223372036854776831]
        (.list [.real [.finite 1, .finite 2048, .finite 1]])
        (.list [.real [.finite 1025, .finite 9223372036854774784, .finite 2147483648]])
        [0] [0] =
      .ok ⟨[3], [-2147483647], -2147483647⟩ ∧
    prepare_mem_space ⟨[9223372036854776831], [], [], []⟩ 1 [-2147483647] =
      (.ok (), ⟨[9223372036854776831], [],
        [.H5Screate_simple [18446744071562067969], .H5Sselect_all], []⟩) ∧
    ¬ ((18446744071562067969 : Int) = -2147483647) ∧
    (h5mread 3 ⟨[9223372036854776831], [], [], []⟩
        (.list [.real [.finite 1, .finite 2048, .finite 1]])
        (.list [.real [.finite 1025, .finite 9223372036854774784,
          .finite 2147483648]])).map (fun r => (r.1, r.2.calls)) =
      some (.error (some .alloc_vector_error),
        [.H5Dget_space, .H5Sget_simple_extent_ndims, .H5Sget_simple_extent_dims,
          .H5Sselect_none, .H5Sselect_hyperslab [0] [1025],
          .H5Sselect_hyperslab [2047] [9223372036854774784],
          .H5Sselect_hyperslab [0] [2147483648],
          .H5Screate_simple [18446744071562067969], .H5Sselect_all]) := by
  decide


/-- When the extent of the dataset along an axis is below `2^63`, the extent of
the destination space of a validated description, in storage slot `R - 1 - d`,
is the integer `count_sums[d]`, which is the exact sum of the counts of the
axis `d`. -/
theorem destination_dims_exact {dset_rank : Nat} {dset_dims : List Nat}
    {starts counts : SEXP} {nregion : List Nat} {count_sums : List Int} {t : Tables}
    (hnr : nregion.length = dset_rank) (hcs : count_sums.length = dset_rank)
    (hval : deep_check_starts_counts dset_rank dset_dims starts counts nregion count_sums =
      .ok t)
    (d : Nat) (hd : d < dset_rank)
    (hext : dset_dims.getD (dset_rank - 1 - d) 0 < 9223372036854775808) :
    ((mem_dims dset_rank t.count_sums dset_rank 0 (List.replicate dset_rank 0)).getD
        (dset_rank - 1 - d) 0 : Int) = t.count_sums.getD d 0 ∧
      t.count_sums.getD d 0 = exact_count_sum starts counts d := by
  obtain ⟨_, q2⟩ := mem_dims_spec dset_rank t.count_sums dset_rank 0
    (List.replicate dset_rank 0) (by omega) (by simp)
  have hq := q2 d hd
  simp only [Nat.zero_le, if_true] at hq
  obtain ⟨e1, e2, _⟩ := deep_check_exact hnr hcs hval d hd hext
  have h0 : 0 ≤ exact_count_sum starts counts d := by
    rcases Nat.eq_zero_or_pos (LENGTH (VECTOR_ELT starts d)) with hz | hp
    · simp [exact_count_sum, hz]
    · have := exact_count_sum_pos
        (fun i hi => (((deep_check_ok hnr hcs hval).1 d hd).2.2 i hi).2.2) hp
      omega
  refine ⟨?_, e1⟩
  rw [hq, e1]
  simp only [INT_MAX] at e2
  exact to_hsize_eq h0 (by omega)


/-! ## The error of `NEW_INTEGER` -/

theorem get_elt_no_alloc (x : SEXP) (i : Nat) (what : What) (along : Nat) :
    get_elt_as_llint x i what along ≠ .error .alloc_vector_error := by
  intro h
  unfold get_elt_as_llint at h
  split at h
  · split at h <;> simp at h
  · split at h
    · simp at h
    · split at h <;> simp at h

theorem along_body_no_alloc (along dset_rank : Nat) (dset_dims : List Nat)
    (start counts count : SEXP) (i : Nat) (v : AlongVars) :
    along_body along dset_rank dset_dims start counts count i v ≠
      .error .alloc_vector_error := by
  intro h
  unfold along_body at h
  split at h
  · rename_i d hd
    simp only [Except.error.injEq] at h
    subst h
    exact get_elt_no_alloc _ _ _ _ hd
  · split at h
    · simp at h
    · simp only [] at h
      split at h
      · rename_i d hrc
        simp only [Except.error.injEq] at h
        subst h
        split at hrc
        · split at hrc
          · rename_i d2 hd2
            simp only [Except.error.injEq] at hrc
            subst hrc
            exact get_elt_no_alloc _ _ _ _ hd2
          · split at hrc <;> simp at hrc
        · simp at hrc
      · split at h
        · simp at h
        · split at h <;> simp at h

theorem along_loop_no_alloc (along dset_rank : Nat) (dset_dims : List Nat)
    (start counts count : SEXP) (k i : Nat) (v : AlongVars) :
    along_loop along dset_rank dset_dims start counts count k i v ≠
      .error .alloc_vector_error := by
  induction k generalizing i v with
  | zero => simp [along_loop]
  | succ k ih =>
    intro h
    unfold along_loop at h
    split at h
    · rename_i d hd
      simp only [Except.error.injEq] at h
      subst h
      exact along_body_no_alloc _ _ _ _ _ _ _ _ hd
    · exact ih _ _ h

theorem check_along_no_alloc (along dset_rank : Nat) (dset_dims : List Nat)
    (starts counts : SEXP) (t : Tables) :
    check_starts_counts_along along dset_rank dset_dims starts counts t ≠
      .error .alloc_vector_error := by
  intro h
  unfold check_starts_counts_along at h
  split at h
  · rename_i d hd
    simp only [Except.error.injEq] at h
    subst h
    unfold along_types at hd
    simp only [] at hd
    split at hd
    · simp at hd
    · split at hd
      · split at hd
        · simp at hd
        · split at hd <;> simp at hd
      · simp at hd
  · simp only [] at h
    split at h
    · rename_i d hd
      simp only [Except.error.injEq] at h
      subst h
      exact along_loop_no_alloc _ _ _ _ _ _ _ _ _ hd
    · simp at h

theorem deep_loop_no_alloc (dset_rank : Nat) (dset_dims : List Nat) (starts counts : SEXP)
    (k along : Nat) (t : Tables) :
    deep_loop dset_rank dset_dims starts counts k along t ≠ .error .alloc_vector_error := by
  induction k generalizing along t with
  | zero => simp [deep_loop]
  | succ k ih =>
    intro h
    unfold deep_loop at h
    split at h
    · rename_i d hd
      simp only [Except.error.injEq] at h
      subst h
      exact check_along_no_alloc _ _ _ _ _ _ hd
    · exact ih _ _ h

theorem deep_check_no_alloc (dset_rank : Nat) (dset_dims : List Nat) (starts counts : SEXP)
    (nregion : List Nat) (count_sums : List Int) :
    deep_check_starts_counts dset_rank dset_dims starts counts nregion count_sums ≠
      .error .alloc_vector_error := by
  intro h
  unfold deep_check_starts_counts at h
  split at h
  · simp at h
  · split at h
    · simp at h
    · exact deep_loop_no_alloc _ _ _ _ _ _ _ h

theorem regions_loop_no_alloc (dset_rank : Nat) (starts counts : SEXP) (nregion : List Nat)
    (fuel : Nat) (v v1 : RegionVars) :
    regions_loop dset_rank starts counts nregion fuel v ≠
      some (.error .alloc_vector_error, v1) := by
  induction fuel generalizing v with
  | zero => simp [regions_loop]
  | succ fuel ih =>
    intro h
    unfold regions_loop at h
    simp only [] at h
    split at h
    · rename_i d hd
      simp only [Option.some.injEq, Prod.mk.injEq, Except.error.injEq] at h
      obtain ⟨h1, _⟩ := h
      subst h1
      unfold add_region_to_read at hd
      simp only [] at hd
      split at hd <;> simp at hd
    · split at h
      · exact ih _ h
      · simp at h

theorem prepare_file_space_no_alloc (fuel : Nat) (st st1 : Store) (starts counts : SEXP)
    (count_sums : List Int) :
    prepare_file_space fuel st starts counts count_sums ≠
      some (.error (some .alloc_vector_error), st1) := by
  intro h
  unfold prepare_file_space at h
  simp only [] at h
  split at h
  · simp at h
  · split at h
    · simp at h
    · split at h
      · simp at h
      · split at h
        · rename_i d hd
          simp only [Option.some.injEq, Prod.mk.injEq, Except.error.injEq] at h
          obtain ⟨h1, _⟩ := h
          subst h1
          exact deep_check_no_alloc _ _ _ _ _ _ hd
        · split at h
          · simp at h
          · rename_i d st3 hset
            simp only [Option.some.injEq, Prod.mk.injEq, Except.error.injEq] at h
            obtain ⟨h1, _⟩ := h
            subst h1
            unfold set_regions_to_read at hset
            simp only [] at hset
            split at hset
            · simp at hset
            · split at hset
              · simp at hset
              · split at hset
                · simp at hset
                · rename_i ret v hloop
                  split at hset
                  · rename_i d2
                    simp only [Option.some.injEq, Prod.mk.injEq, Except.error.injEq] at hset
                    obtain ⟨h1, _⟩ := hset
                    subst h1
                    exact regions_loop_no_alloc _ _ _ _ _ _ _ hloop
                  · simp at hset
          · simp at h

/-- The failure `alloc_vector_error` of `h5mread` comes from `NEW_INTEGER` only:
the description has been validated with an `ans_len` that is negative or above
`R_XLEN_T_MAX`, the destination space has been created and selected, and after
that `h5mread` has made no call: it has read nothing and has closed neither the
source space nor the destination space. -/
theorem h5mread_alloc_error {fuel : Nat} {st st1 : Store} {starts counts : SEXP}
    (h : h5mread fuel st starts counts = some (.error (some .alloc_vector_error), st1)) :
    ∃ t, deep_check_starts_counts st.dset_dims.length st.dset_dims starts counts
        (List.replicate st.dset_dims.length 0) (List.replicate st.dset_dims.length 0) =
        .ok t ∧
      (t.ans_len < 0 ∨ R_XLEN_T_MAX < t.ans_len) ∧
      ∃ extra dims, st1.calls = st.calls ++ extra ++
          [.H5Screate_simple dims, .H5Sselect_all] ∧
        closed_count .file extra = 0 ∧ closed_count .mem extra = 0 := by
  unfold h5mread at h
  split at h
  · rename_i d hd
    simp only [Option.some.injEq, Prod.mk.injEq, Except.error.injEq] at h
    obtain ⟨h1, _⟩ := h
    subst h1
    unfold shallow_check_starts_counts at hd
    split at hd
    · simp at hd
    · split at hd
      · split at hd
        · simp at hd
        · split at hd <;> simp at hd
      · simp at hd
  · rename_i n hsh
    have hn := shallow_check_ok hsh
    split at h
    · simp at h
    · rename_i d st2 hp
      simp only [Option.some.injEq, Prod.mk.injEq, Except.error.injEq] at h
      obtain ⟨h1, _⟩ := h
      subst h1
      exact absurd hp (prepare_file_space_no_alloc _ _ _ _ _ _)
    · rename_i t st2 hp
      have hdc := prepare_file_space_ok hp
      have hr := deep_check_rank hdc
      rw [hn, hr] at hdc
      obtain ⟨f1, extra, e1, e2, e3, e4⟩ := prepare_file_space_frame hp
      rcases e4 with ⟨_, e5, _⟩ | ⟨_, _, e5, e6⟩
      · exact absurd e5 (by simp)
      simp only [] at h
      split at h
      · obtain ⟨g1, dims, hc⟩ := prepare_mem_space_cases st2 n t.count_sums
        rcases hc with ⟨c1, c2, c3⟩ | ⟨c1, c2, c3⟩ | ⟨c1, c2, c3⟩
        · rw [show prepare_mem_space st2 n t.count_sums =
            (.error (some .create_simple_failed), (prepare_mem_space st2 n t.count_sums).2)
            from Prod.ext c1 rfl] at h
          simp at h
        · rw [show prepare_mem_space st2 n t.count_sums =
            (.error (some .select_hyperslab_failed),
              (prepare_mem_space st2 n t.count_sums).2) from Prod.ext c1 rfl] at h
          simp at h
        · rw [show prepare_mem_space st2 n t.count_sums =
            (.ok (), (prepare_mem_space st2 n t.count_sums).2) from Prod.ext c1 rfl] at h
          simp only [] at h
          split at h
          · rename_i hnew
            simp only [Option.some.injEq, Prod.mk.injEq, true_and] at h
            subst h
            have hor : t.ans_len < 0 ∨ R_XLEN_T_MAX < t.ans_len := by
              simpa [NEW_INTEGER] using hnew
            exact ⟨t, hdc, hor, extra, dims, by rw [c3, e1], e6, e3⟩
          · split at h <;> simp at h
      · rename_i h0
        have hz : t.ans_len = 0 := by simpa using h0
        rw [hz] at h
        have hnew : NEW_INTEGER 0 = true := by decide
        simp [hnew] at h

end H5Mread
